import Mathlib

/-!
# Treeland: the surface state machine of `SurfaceWrapper`

A shallow embedding of the per-surface state machine implemented in
`src/treeland/surfacewrapper.cpp`: the logical window state and its
predecessor, the per-state geometry caches, the state-change and minimize
animations, the activation-capability flags and the flags mirrored to the
client surface.

Conventions of the embedding.

* One `Surface` record stands for the member variables of one
  `SurfaceWrapper` together with the few properties of its collaborators the
  code reads back (the `QQuickItem` position and size, the flags of the
  toplevel surface, whether the client surface is mapped).
* Collaborators the wrapper only calls into (the container's filter hooks, the
  surface item's `resizeSurface`) are oracles collected in `Env`.
* Calls on collaborators and emitted signals whose occurrence matters are
  appended to `Surface.log`. Plain property-change notifications
  (`normalGeometryChanged`, ...) are not recorded.
* `qreal` coordinates are represented by integers; only comparison and
  positivity of coordinates are used by the code below. Where the code
  compares two rectangles or two points with `operator==`, which Qt evaluates
  approximately, the answer is taken from `Env`.
* `QPointer` members are `Option`s. `deleteLater` marks the object; the
  pointer reads as non-null until `processDeferredDelete` (the return to the
  event loop) clears it.
* A member function that dereferences a pointer without a null check returns
  `none` when that pointer is null. `Q_ASSERT`s are compiled out.
* The class declaration `surfacewrapper.h` is not among the sources. The types
  of the members are read off their uses in `surfacewrapper.cpp`: the
  enumerators are the ones the code names, and the animation members are
  `QPointer`s, being tested for null after a `deleteLater` that never resets
  them.
* The hierarchy of parent surfaces and sub-surfaces, the draw order and the
  always-on-top propagation are modelled on a `Scene` of several wrappers; the
  recursive member functions take a bound on the depth of nested calls.
* Of the overview model of `multitaskview.h` the record of one entry and its
  `commit` are embedded; the bodies of the layout pass are not among the
  sources and are not modelled.
* The assertion of `setActivate` is the one `Q_ASSERT` that is followed: a
  call in which it is false appends `activateAssertionFailed` to the log of the
  scene and goes on. The values of `SurfaceRole` other than `Normal` are taken
  by their integer value.
-/

namespace Treeland

/-! ## Data model -/

/-- The enumeration `SurfaceWrapper::State`. -/
inductive State where
  | Normal
  | Maximized
  | Minimized
  | Fullscreen
  | Tiling
  deriving DecidableEq, Repr

/-- The enumeration `SurfaceWrapper::TitleBarState`. -/
inductive TitleBarState where
  | Default
  | Visible
  | Hidden
  deriving DecidableEq, Repr

/-- A `QPointF`. -/
structure QPointF where
  x : Int := 0
  y : Int := 0
  deriving DecidableEq, Repr

/-- A `QSizeF`. -/
structure QSizeF where
  width : Int := 0
  height : Int := 0
  deriving DecidableEq, Repr

/-- A `QRectF`; the default-constructed rectangle is the null rectangle. -/
structure QRectF where
  x : Int := 0
  y : Int := 0
  width : Int := 0
  height : Int := 0
  deriving DecidableEq, Repr

/-- Embedding of `QRectF::isValid`: strictly positive width and height. -/
def QRectF.isValid (r : QRectF) : Bool :=
  decide (0 < r.width) && decide (0 < r.height)

/-- Embedding of `QRectF::topLeft`. -/
def QRectF.topLeft (r : QRectF) : QPointF :=
  { x := r.x, y := r.y }

/-- Embedding of `QRectF::size`. -/
def QRectF.size (r : QRectF) : QSizeF :=
  { width := r.width, height := r.height }

/-- Embedding of `QRectF(const QPointF &, const QSizeF &)`. -/
def QRectF.ofPointSize (p : QPointF) (sz : QSizeF) : QRectF :=
  { x := p.x, y := p.y, width := sz.width, height := sz.height }

/-- The enumerators of `SurfaceWrapper::ActiveControlState` that name one
capability each. -/
inductive ActiveControlState where
  | Mapped
  | UnMinimized
  | HasInitializeContainer
  deriving DecidableEq, Repr

/-- The flag set `QFlags<ActiveControlState>` held in `m_hasActiveCapability`:
one bit per capability. -/
structure ActiveControlStates where
  mapped : Bool := false
  unMinimized : Bool := false
  hasInitializeContainer : Bool := false
  deriving DecidableEq, Repr

/-- Embedding of `QFlags::testFlag`. -/
def ActiveControlStates.testFlag (c : ActiveControlStates) : ActiveControlState → Bool
  | .Mapped => c.mapped
  | .UnMinimized => c.unMinimized
  | .HasInitializeContainer => c.hasInitializeContainer

/-- Embedding of `QFlags::setFlag(flag, on)`: sets or clears the one bit and keeps the
others. -/
def ActiveControlStates.setFlag (c : ActiveControlStates) (flag : ActiveControlState)
    (enable : Bool) : ActiveControlStates :=
  match flag with
  | .Mapped => { c with mapped := enable }
  | .UnMinimized => { c with unMinimized := enable }
  | .HasInitializeContainer => { c with hasInitializeContainer := enable }

/-- Modelled from the spec: the value of the enumerator
`ActiveControlState::Full` is declared in `surfacewrapper.h`, which is not
among the sources. The spec describes the capability set as a bitset over
Mapped, Unminimized and HasContainer in which focus may be granted only when
all three bits are set, so `Full` is the set holding all three. -/
def ActiveControlStates.Full : ActiveControlStates :=
  { mapped := true, unMinimized := true, hasInitializeContainer := true }

/-- The flags the wrapper mirrors to the client through the toplevel surface
(`WToplevelSurface::setMinimize`, `setMaximize`, `setFullScreen`). -/
structure ToplevelFlags where
  minimized : Bool := false
  maximized : Bool := false
  fullscreen : Bool := false
  activated : Bool := false
  deriving DecidableEq, Repr

/-- The item behind `m_geometryAnimation`: the geometry it animates from, its
`targetGeometry` property and whether `deleteLater` has been called on it. -/
structure GeometryAnimation where
  fromGeometry : QRectF
  targetGeometry : QRectF
  deleteScheduled : Bool := false
  deriving DecidableEq, Repr

/-- The item behind `m_minimizeAnimation`. -/
structure MinimizeAnimation where
  iconGeometry : QRectF
  direction : Nat
  deleteScheduled : Bool := false
  deriving DecidableEq, Repr

/-- The item behind `m_newAnimation`, the open or close animation. -/
structure NewAnimation where
  direction : Nat
  deleteScheduled : Bool := false
  deriving DecidableEq, Repr

/-- The item behind `m_blurContent`: its `visible` property and whether
`deleteLater` has been called on it. -/
structure BlurContent where
  visible : Bool
  deleteScheduled : Bool := false
  deriving DecidableEq, Repr

/-- The enumeration `SurfaceWrapper::Type`. -/
inductive WrapperType where
  | XdgToplevel
  | XWayland
  | Layer
  | InputPopup
  deriving DecidableEq, Repr

/-- Calls on collaborators and signals recorded in `Surface.log`. -/
inductive Effect where
  | shellSetMinimize (enable : Bool)
  | shellSetMaximize (enable : Bool)
  | shellSetFullScreen (enable : Bool)
  | requestActive
  | requestDeactive
  | resizeSurface (size : QSizeF)
  | startGeometryAnimation (fromGeometry targetGeometry : QRectF)
  | startMinimizeAnimation (iconGeometry : QRectF) (direction : Nat)
  | startNewAnimation (direction : Nat)
  deriving DecidableEq, Repr

/-- The state of one `SurfaceWrapper`. -/
structure Surface where
  surfaceState : State := State.Normal
  previousSurfaceState : State := State.Normal
  pendingState : State := State.Normal
  pendingGeometry : QRectF := {}
  normalGeometry : QRectF := {}
  maximizedGeometry : QRectF := {}
  fullscreenGeometry : QRectF := {}
  tilingGeometry : QRectF := {}
  iconGeometry : QRectF := {}
  position : QPointF := {}
  size : QSizeF := {}
  widthValid : Bool := false
  heightValid : Bool := false
  geometryAnimation : Option GeometryAnimation := none
  minimizeAnimation : Option MinimizeAnimation := none
  hasActiveCapability : ActiveControlStates := {}
  container : Option Nat := none
  shell : ToplevelFlags := {}
  mapped : Bool := false
  visible : Bool := false
  visibleDecoration : Bool := true
  noDecoration : Bool := true
  noCornerRadius : Bool := false
  titleBarState : TitleBarState := TitleBarState.Default
  titleBar : Bool := false
  log : List Effect := []
  type : WrapperType := WrapperType.XdgToplevel
  newAnimation : Option NewAnimation := none
  removeWrapperEndOfAnimation : Bool := false
  destroyed : Bool := false
  blurContent : Option BlurContent := none
  deriving DecidableEq, Repr

/-- The collaborators the wrapper calls into and whose answer it branches on.

* `filterSurfaceStateChange surface newState oldState`: the container's guard
  hook, `true` vetoes the change.
* `filterSurfaceGeometryChanged surface newGeometry oldGeometry`: the
  container's geometry hook; it receives the new geometry by reference, so it
  answers with the veto and the geometry it leaves there.
* `resizeSurface surface size`: `WSurfaceItem::resizeSurface`, `false` when
  the client cannot take the size.
* `sameRect a b` and `samePoint a b`: the answers of `operator==` of Qt on two
  `QRectF` and on two `QPointF`. Qt compares `qreal` coordinates
  approximately, so the answer can be `true` for coordinates that differ; the
  operator is library code outside the sources, and nothing is assumed about
  it. -/
structure Env where
  filterSurfaceStateChange : Surface → State → State → Bool
  filterSurfaceGeometryChanged : Surface → QRectF → QRectF → Bool × QRectF
  resizeSurface : Surface → QSizeF → Bool
  sameRect : QRectF → QRectF → Bool
  samePoint : QPointF → QPointF → Bool

/-- The value of `OPEN_ANIMATION`. -/
def OPEN_ANIMATION : Nat := 1

/-- The value of `CLOSE_ANIMATION`. -/
def CLOSE_ANIMATION : Nat := 2

/-! ## Accessors and small setters -/

/-- Embedding of `SurfaceWrapper::geometry`. -/
def geometry (s : Surface) : QRectF :=
  QRectF.ofPointSize s.position s.size

/-- Embedding of `SurfaceWrapper::isNormal`. -/
def isNormal (s : Surface) : Bool :=
  s.surfaceState == State.Normal

/-- Embedding of `SurfaceWrapper::isMinimized`. -/
def isMinimized (s : Surface) : Bool :=
  s.surfaceState == State.Minimized

/-- Embedding of `SurfaceWrapper::isAnimationRunning`: `m_geometryAnimation` is non-null. -/
def isAnimationRunning (s : Surface) : Bool :=
  s.geometryAnimation.isSome

/-- Embedding of `SurfaceWrapper::hasActiveCapability`. -/
def hasActiveCapability (s : Surface) : Bool :=
  s.hasActiveCapability == ActiveControlStates.Full

/-- Embedding of `SurfaceWrapper::updateHasActiveCapability`. -/
def updateHasActiveCapability (state : ActiveControlState) (value : Bool)
    (s : Surface) : Surface :=
  let oldValue := hasActiveCapability s
  let s1 := { s with hasActiveCapability := s.hasActiveCapability.setFlag state value }
  if oldValue != hasActiveCapability s1 then
    if hasActiveCapability s1 then
      { s1 with log := s1.log ++ [Effect.requestActive] }
    else
      { s1 with log := s1.log ++ [Effect.requestDeactive] }
  else
    s1

/-- Embedding of `SurfaceWrapper::setContainer`. -/
def setContainer (newContainer : Option Nat) (s : Surface) : Surface :=
  if s.container = newContainer then s
  else
    updateHasActiveCapability ActiveControlState.HasInitializeContainer
      (decide (newContainer ≠ none)) { s with container := newContainer }

/-- Embedding of `WToplevelSurface::setMinimize` as called through `m_shellSurface`. -/
def shellSetMinimize (enable : Bool) (s : Surface) : Surface :=
  { s with shell := { s.shell with minimized := enable },
           log := s.log ++ [Effect.shellSetMinimize enable] }

/-- Embedding of `WToplevelSurface::setMaximize` as called through `m_shellSurface`. -/
def shellSetMaximize (enable : Bool) (s : Surface) : Surface :=
  { s with shell := { s.shell with maximized := enable },
           log := s.log ++ [Effect.shellSetMaximize enable] }

/-- Embedding of `WToplevelSurface::setFullScreen` as called through `m_shellSurface`. -/
def shellSetFullScreen (enable : Bool) (s : Surface) : Surface :=
  { s with shell := { s.shell with fullscreen := enable },
           log := s.log ++ [Effect.shellSetFullScreen enable] }

/-- Embedding of `SurfaceWrapper::resize`: forwards to
`WSurfaceItem::resizeSurface` and returns its answer. The size of the wrapper
item itself is not written by this call. -/
def resize (env : Env) (size : QSizeF) (s : Surface) : Bool × Surface :=
  (env.resizeSurface s size, { s with log := s.log ++ [Effect.resizeSurface size] })

/-- Embedding of `SurfaceWrapper::setVisibleDecoration`. -/
def setVisibleDecoration (newVisibleDecoration : Bool) (s : Surface) : Surface :=
  if s.visibleDecoration = newVisibleDecoration then s
  else { s with visibleDecoration := newVisibleDecoration }

/-- Embedding of `SurfaceWrapper::setNoCornerRadius`. -/
def setNoCornerRadius (newNoCornerRadius : Bool) (s : Surface) : Surface :=
  if s.noCornerRadius = newNoCornerRadius then s
  else { s with noCornerRadius := newNoCornerRadius }

/-- Embedding of `SurfaceWrapper::noTitleBar`. -/
def noTitleBar (s : Surface) : Bool :=
  if s.surfaceState = State.Fullscreen then true
  else if s.titleBarState = TitleBarState.Visible then false
  else decide (s.titleBarState = TitleBarState.Hidden) || s.noDecoration

/-- Embedding of `SurfaceWrapper::updateTitleBar`: creates or drops the title-bar item so
that it exists exactly when `noTitleBar` is false. -/
def updateTitleBar (s : Surface) : Surface :=
  if noTitleBar s = !s.titleBar then s
  else if s.titleBar then { s with titleBar := false }
  else { s with titleBar := true }

/-- Embedding of `SurfaceWrapper::updateVisible`. -/
def updateVisible (s : Surface) : Surface :=
  { s with visible := !isMinimized s && s.mapped }

/-- Embedding of `SurfaceWrapper::setNoTitleBar`. -/
def setNoTitleBar (newNoTitleBar : Bool) (s : Surface) : Surface :=
  updateTitleBar
    { s with titleBarState :=
        if newNoTitleBar then TitleBarState.Hidden else TitleBarState.Visible }

/-- Embedding of `SurfaceWrapper::resetNoTitleBar`. -/
def resetNoTitleBar (s : Surface) : Surface :=
  updateTitleBar { s with titleBarState := TitleBarState.Default }

/-! ## Geometry -/

/-- Embedding of `SurfaceWrapper::setNormalGeometry`. -/
def setNormalGeometry (env : Env) (newNormalGeometry : QRectF) (s : Surface) : Surface :=
  if env.sameRect s.normalGeometry newNormalGeometry then s
  else { s with normalGeometry := newNormalGeometry }

/-- Embedding of `SurfaceWrapper::geometryChange`, the override `QQuickItem` calls after a
change of position or size. The base-class call, the bounding-rectangle and
the clip-rectangle updates at its end touch no field of the model. -/
def geometryChange (env : Env) (newGeo oldGeometry : QRectF) (s : Surface) : Surface :=
  let filtered :=
    if s.container.isSome then env.filterSurfaceGeometryChanged s newGeo oldGeometry
    else (false, newGeo)
  if filtered.1 then s
  else
    let newGeometry := filtered.2
    let s1 :=
      if isNormal s && !s.geometryAnimation.isSome then setNormalGeometry env newGeometry s
      else s
    if s1.widthValid && s1.heightValid then (resize env newGeometry.size s1).2
    else s1

/-- Embedding of `QQuickItem::setPosition`: stores the position, then notifies the item
through the virtual `geometryChange`. -/
def setPosition (env : Env) (pos : QPointF) (s : Surface) : Surface :=
  if env.samePoint s.position pos then s
  else
    geometryChange env (QRectF.ofPointSize pos s.size)
      (QRectF.ofPointSize s.position s.size) { s with position := pos }

/-- The call `m_geometryAnimation->setProperty("targetGeometry", g)` made when
`m_pendingState == state && m_geometryAnimation` holds. -/
def retargetAnimation (state : State) (g : QRectF) (s : Surface) : Surface :=
  match s.geometryAnimation with
  | some a =>
    if s.pendingState = state then
      { s with geometryAnimation := some { a with targetGeometry := g } }
    else s
  | none => s

/-- Embedding of `SurfaceWrapper::moveNormalGeometryInOutput`. -/
def moveNormalGeometryInOutput (env : Env) (position : QPointF) (s : Surface) : Surface :=
  let s1 := setNormalGeometry env (QRectF.ofPointSize position s.normalGeometry.size) s
  if isNormal s1 then setPosition env position s1
  else retargetAnimation State.Normal s1.normalGeometry s1

/-- Embedding of `SurfaceWrapper::setMaximizedGeometry`. -/
def setMaximizedGeometry (env : Env) (newMaximizedGeometry : QRectF) (s : Surface) : Surface :=
  if env.sameRect s.maximizedGeometry newMaximizedGeometry then s
  else
    let s1 := { s with maximizedGeometry := newMaximizedGeometry }
    if s1.surfaceState = State.Maximized then
      (resize env newMaximizedGeometry.size
        (setPosition env newMaximizedGeometry.topLeft s1)).2
    else retargetAnimation State.Maximized newMaximizedGeometry s1

/-- Embedding of `SurfaceWrapper::setFullscreenGeometry`. The closing `updateClipRect` only
marks the render window dirty. -/
def setFullscreenGeometry (env : Env) (newFullscreenGeometry : QRectF) (s : Surface) : Surface :=
  if env.sameRect s.fullscreenGeometry newFullscreenGeometry then s
  else
    let s1 := { s with fullscreenGeometry := newFullscreenGeometry }
    if s1.surfaceState = State.Fullscreen then
      (resize env newFullscreenGeometry.size
        (setPosition env newFullscreenGeometry.topLeft s1)).2
    else retargetAnimation State.Fullscreen newFullscreenGeometry s1

/-- Embedding of `SurfaceWrapper::setTilingGeometry`. -/
def setTilingGeometry (env : Env) (newTilingGeometry : QRectF) (s : Surface) : Surface :=
  if env.sameRect s.tilingGeometry newTilingGeometry then s
  else
    let s1 := { s with tilingGeometry := newTilingGeometry }
    if s1.surfaceState = State.Tiling then
      (resize env newTilingGeometry.size
        (setPosition env newTilingGeometry.topLeft s1)).2
    else s1

/-! ## State changes -/

/-- The first `switch` of `doSetSurfaceState`, on the state being left. -/
def leaveState (s : Surface) : Surface :=
  match s.previousSurfaceState with
  | State.Maximized => shellSetMaximize false s
  | State.Minimized =>
    updateHasActiveCapability ActiveControlState.UnMinimized true (shellSetMinimize false s)
  | State.Fullscreen => shellSetFullScreen false s
  | State.Normal => s
  | State.Tiling => s

/-- The second `switch` of `doSetSurfaceState`, on the state being entered. -/
def enterState (s : Surface) : Surface :=
  match s.surfaceState with
  | State.Maximized => shellSetMaximize true s
  | State.Minimized =>
    updateHasActiveCapability ActiveControlState.UnMinimized false (shellSetMinimize true s)
  | State.Fullscreen => shellSetFullScreen true s
  | State.Normal => s
  | State.Tiling => s

/-- The two `setValueBypassingBindings` calls of `doSetSurfaceState`: the
current state becomes the previous one, the new state the current one. -/
def recordFlip (newSurfaceState : State) (s : Surface) : Surface :=
  { s with previousSurfaceState := s.surfaceState, surfaceState := newSurfaceState }

/-- Embedding of `SurfaceWrapper::doSetSurfaceState`. -/
def doSetSurfaceState (newSurfaceState : State) (s : Surface) : Surface :=
  let s1 := setVisibleDecoration (newSurfaceState == State.Normal) s
  let s2 := setNoCornerRadius (newSurfaceState != State.Normal) s1
  let s3 := recordFlip newSurfaceState s2
  updateVisible (updateTitleBar (enterState (leaveState s3)))

/-- Embedding of `SurfaceWrapper::startStateChangeAnimation`: the answer and the new state.
The engine hands out a fresh animation item, which is started at once; its
`ready` and `finished` signals arrive later as `onAnimationReady` and
`onAnimationFinished`. -/
def startStateChangeAnimation (targetState : State) (targetGeometry : QRectF)
    (s : Surface) : Bool × Surface :=
  if s.geometryAnimation.isSome then (false, s)
  else
    (true,
      { s with
        geometryAnimation :=
          some { fromGeometry := geometry s, targetGeometry := targetGeometry },
        pendingState := targetState,
        pendingGeometry := targetGeometry,
        log := s.log ++ [Effect.startGeometryAnimation (geometry s) targetGeometry] })

/-- The local `targetGeometry` of `setSurfaceState`: the cached geometry of the
requested state, the null rectangle for `Minimized`. -/
def targetGeometryFor (newSurfaceState : State) (s : Surface) : QRectF :=
  if newSurfaceState = State.Maximized then s.maximizedGeometry
  else if newSurfaceState = State.Fullscreen then s.fullscreenGeometry
  else if newSurfaceState = State.Normal then s.normalGeometry
  else if newSurfaceState = State.Tiling then s.tilingGeometry
  else {}

/-- The call `deleteLater()` on `m_geometryAnimation`. -/
def geometryAnimationDeleteLater (s : Surface) : Surface :=
  { s with geometryAnimation :=
      s.geometryAnimation.map (fun a => { a with deleteScheduled := true }) }

/-- Embedding of `SurfaceWrapper::setSurfaceState`. `container()` is dereferenced without a
check once the first two guards are passed. -/
def setSurfaceState (env : Env) (newSurfaceState : State) (s : Surface) : Option Surface :=
  if s.geometryAnimation.isSome then some s
  else if s.surfaceState = newSurfaceState then some s
  else
    match s.container with
    | none => none
    | some _ =>
      if env.filterSurfaceStateChange s newSurfaceState s.surfaceState then some s
      else
        let targetGeometry := targetGeometryFor newSurfaceState s
        if targetGeometry.isValid then
          some (startStateChangeAnimation newSurfaceState targetGeometry s).2
        else
          let s1 := if s.geometryAnimation.isSome then geometryAnimationDeleteLater s else s
          some (doSetSurfaceState newSurfaceState s1)

/-- Embedding of `SurfaceWrapper::onAnimationReady`, the slot of the animation's `ready`
signal. -/
def onAnimationReady (env : Env) (s : Surface) : Option Surface :=
  let r := resize env s.pendingGeometry.size s
  if !r.1 then
    match r.2.geometryAnimation with
    | none => none
    | some _ => some (geometryAnimationDeleteLater r.2)
  else
    some (doSetSurfaceState r.2.pendingState
      (setPosition env r.2.pendingGeometry.topLeft r.2))

/-- Embedding of `SurfaceWrapper::onAnimationFinished`, the slot of the animation's
`finished` signal. -/
def onAnimationFinished (s : Surface) : Option Surface :=
  match s.geometryAnimation with
  | none => none
  | some _ => some (geometryAnimationDeleteLater s)

/-- Embedding of `SurfaceWrapper::onMinimizeAnimationFinished`. -/
def onMinimizeAnimationFinished (s : Surface) : Option Surface :=
  match s.minimizeAnimation with
  | none => none
  | some a => some { s with minimizeAnimation := some { a with deleteScheduled := true } }

/-- Embedding of `SurfaceWrapper::startMinimizeAnimation`. -/
def startMinimizeAnimation (iconGeometry : QRectF) (direction : Nat) (s : Surface) : Surface :=
  if s.minimizeAnimation.isSome then s
  else
    { s with
      minimizeAnimation := some { iconGeometry := iconGeometry, direction := direction },
      log := s.log ++ [Effect.startMinimizeAnimation iconGeometry direction] }

/-- The return to the event loop: objects on which `deleteLater` was called
are destroyed and the `QPointer`s to them read as null from then on. -/
def processDeferredDelete (s : Surface) : Surface :=
  { s with
    geometryAnimation := s.geometryAnimation.filter (fun a => !a.deleteScheduled),
    minimizeAnimation := s.minimizeAnimation.filter (fun a => !a.deleteScheduled),
    newAnimation := s.newAnimation.filter (fun a => !a.deleteScheduled),
    blurContent := s.blurContent.filter (fun b => !b.deleteScheduled) }

/-! ## Blur -/

/-- Embedding of `SurfaceWrapper::blur`: the answer is `m_blurContent.isNull()`. -/
def blur (s : Surface) : Bool :=
  s.blurContent.isNone

/-- Embedding of `SurfaceWrapper::setBlur`. The blur item is created with the
visibility of the wrapper; switching the blur off hides the item and calls
`deleteLater` on it, the pointer staying non-null until the deletion is
carried out. -/
def setBlur (blur : Bool) (s : Surface) : Surface :=
  match blur, s.blurContent with
  | true, none => { s with blurContent := some { visible := s.visible } }
  | false, some _ =>
    { s with blurContent := some { visible := false, deleteScheduled := true } }
  | _, _ => s

/-! ## Mapping, unmapping and removal -/

/-- Embedding of `SurfaceWrapper::setRemoveWrapper`. -/
def setRemoveWrapper (remove : Bool) (s : Surface) : Surface :=
  { s with removeWrapperEndOfAnimation := remove }

/-- Embedding of `SurfaceWrapper::createNewOrClose`. -/
def createNewOrClose (direction : Nat) (s : Surface) : Surface :=
  if s.newAnimation.isSome then s
  else if s.type ≠ WrapperType.XdgToplevel ∧ s.type ≠ WrapperType.XWayland then s
  else if s.container.isNone then s
  else
    { s with
      newAnimation := some { direction := direction },
      log := s.log ++ [Effect.startNewAnimation direction] }

/-- Embedding of `SurfaceWrapper::onNewAnimationFinished`, the slot of the
`finished` signal of the open or close animation. The statement `delete this`
ends the life of the wrapper, recorded in `destroyed`; what the destructor does
to the other surfaces is `destroySurface` on the scene. -/
def onNewAnimationFinished (s : Surface) : Option Surface :=
  match s.newAnimation with
  | none => none
  | some a =>
    let s1 := { s with newAnimation := some { a with deleteScheduled := true } }
    if s1.removeWrapperEndOfAnimation then
      some { s1 with removeWrapperEndOfAnimation := false, destroyed := true }
    else some s1

/-- Embedding of `SurfaceWrapper::onMappedChanged`, the slot of
`WSurface::mappedChanged`; `newMapped` is the value `surface()->mapped()` has
when the signal arrives. -/
def onMappedChanged (newMapped : Bool) (s : Surface) : Surface :=
  let s0 := { s with mapped := newMapped }
  let s1 :=
    if s0.mapped then createNewOrClose OPEN_ANIMATION s0
    else createNewOrClose CLOSE_ANIMATION s0
  updateHasActiveCapability ActiveControlState.Mapped s1.mapped s1

/-! ## Requests of the client -/

/-- Embedding of `SurfaceWrapper::requestMinimize`. -/
def requestMinimize (env : Env) (s : Surface) : Option Surface :=
  (setSurfaceState env State.Minimized s).map
    (fun s1 => startMinimizeAnimation s1.iconGeometry CLOSE_ANIMATION s1)

/-- Embedding of `SurfaceWrapper::requestCancelMinimize`. -/
def requestCancelMinimize (s : Surface) : Surface :=
  if s.surfaceState ≠ State.Minimized then s
  else
    let s1 := doSetSurfaceState s.previousSurfaceState s
    startMinimizeAnimation s1.iconGeometry OPEN_ANIMATION s1

/-- Embedding of `SurfaceWrapper::requestMaximize`. -/
def requestMaximize (env : Env) (s : Surface) : Option Surface :=
  if s.surfaceState = State.Minimized ∨ s.surfaceState = State.Fullscreen then some s
  else setSurfaceState env State.Maximized s

/-- Embedding of `SurfaceWrapper::requestCancelMaximize`. -/
def requestCancelMaximize (env : Env) (s : Surface) : Option Surface :=
  if s.surfaceState ≠ State.Maximized then some s
  else setSurfaceState env State.Normal s

/-- Embedding of `SurfaceWrapper::requestToggleMaximize`. -/
def requestToggleMaximize (env : Env) (s : Surface) : Option Surface :=
  if s.surfaceState = State.Maximized then requestCancelMaximize env s
  else requestMaximize env s

/-- Embedding of `SurfaceWrapper::requestFullscreen`. -/
def requestFullscreen (env : Env) (s : Surface) : Option Surface :=
  if s.surfaceState = State.Minimized then some s
  else setSurfaceState env State.Fullscreen s

/-- Embedding of `SurfaceWrapper::requestCancelFullscreen`. -/
def requestCancelFullscreen (env : Env) (s : Surface) : Option Surface :=
  if s.surfaceState ≠ State.Fullscreen then some s
  else setSurfaceState env s.previousSurfaceState s

/-! ## Operations as data -/

/-- The operations on a surface: the public requests, the slots of the
animation signals, the geometry setters, the capability updates and the
return to the event loop. -/
inductive Op where
  | setSurfaceState (newSurfaceState : State)
  | onAnimationReady
  | onAnimationFinished
  | onMinimizeAnimationFinished
  | requestMinimize
  | requestCancelMinimize
  | requestMaximize
  | requestCancelMaximize
  | requestToggleMaximize
  | requestFullscreen
  | requestCancelFullscreen
  | setNormalGeometry (r : QRectF)
  | moveNormalGeometryInOutput (p : QPointF)
  | setMaximizedGeometry (r : QRectF)
  | setFullscreenGeometry (r : QRectF)
  | setTilingGeometry (r : QRectF)
  | setPosition (p : QPointF)
  | updateHasActiveCapability (state : ActiveControlState) (value : Bool)
  | setContainer (newContainer : Option Nat)
  | processDeferredDelete
  deriving DecidableEq, Repr

/-- Runs one operation. -/
def step (env : Env) (op : Op) (s : Surface) : Option Surface :=
  match op with
  | .setSurfaceState t => setSurfaceState env t s
  | .onAnimationReady => onAnimationReady env s
  | .onAnimationFinished => onAnimationFinished s
  | .onMinimizeAnimationFinished => onMinimizeAnimationFinished s
  | .requestMinimize => requestMinimize env s
  | .requestCancelMinimize => some (requestCancelMinimize s)
  | .requestMaximize => requestMaximize env s
  | .requestCancelMaximize => requestCancelMaximize env s
  | .requestToggleMaximize => requestToggleMaximize env s
  | .requestFullscreen => requestFullscreen env s
  | .requestCancelFullscreen => requestCancelFullscreen env s
  | .setNormalGeometry r => some (setNormalGeometry env r s)
  | .moveNormalGeometryInOutput p => some (moveNormalGeometryInOutput env p s)
  | .setMaximizedGeometry r => some (setMaximizedGeometry env r s)
  | .setFullscreenGeometry r => some (setFullscreenGeometry env r s)
  | .setTilingGeometry r => some (setTilingGeometry env r s)
  | .setPosition p => some (setPosition env p s)
  | .updateHasActiveCapability f v => some (updateHasActiveCapability f v s)
  | .setContainer c => some (setContainer c s)
  | .processDeferredDelete => some (processDeferredDelete s)

/-- An environment whose container never vetoes and whose client accepts every
size. Rectangles and points compare equal when their coordinates are equal,
as the comparison of Qt does on the small whole coordinates of the examples. -/
def permissiveEnv : Env :=
  { filterSurfaceStateChange := fun _ _ _ => false,
    filterSurfaceGeometryChanged := fun _ g _ => (false, g),
    resizeSurface := fun _ _ => true,
    sameRect := fun a b => decide (a = b),
    samePoint := fun a b => decide (a = b) }

/-- An environment whose container vetoes exactly the changes to `Minimized`. -/
def vetoMinimizeEnv : Env :=
  { filterSurfaceStateChange := fun _ newState _ => decide (newState = State.Minimized),
    filterSurfaceGeometryChanged := fun _ g _ => (false, g),
    resizeSurface := fun _ _ => true,
    sameRect := fun a b => decide (a = b),
    samePoint := fun a b => decide (a = b) }

/-- An environment whose client rejects every resize. -/
def rejectResizeEnv : Env :=
  { filterSurfaceStateChange := fun _ _ _ => false,
    filterSurfaceGeometryChanged := fun _ g _ => (false, g),
    resizeSurface := fun _ _ => false,
    sameRect := fun a b => decide (a = b),
    samePoint := fun a b => decide (a = b) }

/-- A freshly attached, mapped surface in state `Normal`: in container `1`,
all capabilities granted, no cached geometry computed yet. -/
def attachedSurface : Surface :=
  { container := some 1, mapped := true, visible := true,
    hasActiveCapability := ActiveControlStates.Full }

/-- The attached surface once the layout has computed its geometries: a
800x600 window at (100, 100) on a 1920x1080 output. -/
def layoutedSurface : Surface :=
  { attachedSurface with
    position := { x := 100, y := 100 },
    size := { width := 800, height := 600 },
    widthValid := true,
    heightValid := true,
    normalGeometry := { x := 100, y := 100, width := 800, height := 600 },
    maximizedGeometry := { x := 0, y := 40, width := 1920, height := 1040 },
    fullscreenGeometry := { x := 0, y := 0, width := 1920, height := 1080 } }

/-- The attached surface after it was tiled and then maximized, both flips
taken on the immediate path: state `Maximized`, previous state `Tiling`. -/
def tiledThenMaximized : Surface :=
  doSetSurfaceState State.Maximized (doSetSurfaceState State.Tiling attachedSurface)

/-- Runs the operations of a list in turn. -/
def runOps (env : Env) (ops : List Op) (s : Surface) : Option Surface :=
  ops.foldlM (fun acc op => step env op acc) s

/-- The two assertions at the head of `onAnimationReady`: the pending state
differs from the current state, and the pending geometry is valid. -/
def ReadyAssertionsHold (s : Surface) : Prop :=
  s.pendingState ≠ s.surfaceState ∧ s.pendingGeometry.isValid = true

/-! ## The flips of the state, as the specification lists them -/

/-- Whether `setSurfaceState newSurfaceState` takes its immediate path: no
geometry animation in flight, a target different from the current state, a
container that does not veto, and no valid cached geometry for the target. -/
def takesImmediatePath (env : Env) (newSurfaceState : State) (s : Surface) : Bool :=
  !s.geometryAnimation.isSome && decide (s.surfaceState ≠ newSurfaceState) &&
    s.container.isSome && !env.filterSurfaceStateChange s newSurfaceState s.surfaceState &&
    !(targetGeometryFor newSurfaceState s).isValid

/-- The operations that flip the current state and the target each of them
requests: the immediate path of `setSurfaceState` (also when reached through
one of the requests), `onAnimationReady` after a successful resize, and
`requestCancelMinimize` on a minimized surface. `none` for an operation that
does not flip the state. -/
def flipTarget (env : Env) (op : Op) (s : Surface) : Option State :=
  match op with
  | .setSurfaceState t => if takesImmediatePath env t s then some t else none
  | .onAnimationReady =>
    if env.resizeSurface s s.pendingGeometry.size then some s.pendingState else none
  | .requestCancelMinimize =>
    if s.surfaceState = State.Minimized then some s.previousSurfaceState else none
  | .requestMinimize =>
    if takesImmediatePath env State.Minimized s then some State.Minimized else none
  | .requestMaximize =>
    if s.surfaceState ≠ State.Minimized ∧ s.surfaceState ≠ State.Fullscreen ∧
        takesImmediatePath env State.Maximized s then some State.Maximized
    else none
  | .requestCancelMaximize =>
    if s.surfaceState = State.Maximized ∧ takesImmediatePath env State.Normal s then
      some State.Normal
    else none
  | .requestToggleMaximize =>
    if s.surfaceState = State.Maximized then
      if takesImmediatePath env State.Normal s then some State.Normal else none
    else if s.surfaceState ≠ State.Minimized ∧ s.surfaceState ≠ State.Fullscreen ∧
        takesImmediatePath env State.Maximized s then some State.Maximized
    else none
  | .requestFullscreen =>
    if s.surfaceState ≠ State.Minimized ∧ takesImmediatePath env State.Fullscreen s then
      some State.Fullscreen
    else none
  | .requestCancelFullscreen =>
    if s.surfaceState = State.Fullscreen ∧
        takesImmediatePath env s.previousSurfaceState s then some s.previousSurfaceState
    else none
  | _ => none

/-- The fields `surfaceState` and `previousSurfaceState` after an operation,
given what `flipTarget` announces: a flip records the old state and installs
the target, anything else leaves both fields alone. -/
def FlipOutcome (target : Option State) (s s1 : Surface) : Prop :=
  match target with
  | some t => s1.previousSurfaceState = s.surfaceState ∧ s1.surfaceState = t
  | none =>
    s1.previousSurfaceState = s.previousSurfaceState ∧ s1.surfaceState = s.surfaceState

/-- The signals `updateHasActiveCapability` is expected to emit when the value
of `hasActiveCapability` goes from `oldValue` to `newValue`: `requestActive`
on a change from false to true, `requestDeactive` on a change from true to
false, nothing otherwise. -/
def activationSignals (oldValue newValue : Bool) : List Effect :=
  if !oldValue && newValue then [Effect.requestActive]
  else if oldValue && !newValue then [Effect.requestDeactive]
  else []

/-- Whether an effect is one of the setters of the client surface. -/
def Effect.isShellSetter : Effect → Bool
  | .shellSetMinimize _ => true
  | .shellSetMaximize _ => true
  | .shellSetFullScreen _ => true
  | _ => false

/-- Whether an effect is the start of a geometry animation. -/
def Effect.isStartGeometryAnimation : Effect → Bool
  | .startGeometryAnimation _ _ => true
  | _ => false

/-- The log of `s1` is the log of `s` followed by effects that all satisfy
`P`. -/
def LogExtends (P : Effect → Prop) (s s1 : Surface) : Prop :=
  ∃ added : List Effect, s1.log = s.log ++ added ∧ ∀ e ∈ added, P e

/-! ## The surface hierarchy and the draw order

The second part of the model places the wrappers in a scene: every wrapper has
a parent surface and an ordered list of sub-surfaces, an always-on-top flag and
the count propagated from its ancestors, and is an item of the scene graph.
The scene graph keeps, for every drawing parent, the ordered list of its child
items, which is the draw order. Surfaces are named by numbers. The recursive
member functions walk pointers that may form a cycle, so they take a bound on
the number of nested calls and answer `none` when the bound is used up. -/

/-- The name of a surface wrapper in a scene. -/
abbrev SurfaceId := Nat

/-- An item of the scene graph: a surface wrapper, or any other item, on which
`qobject_cast<SurfaceWrapper *>` answers null. -/
inductive Item where
  | surface (id : SurfaceId)
  | other (id : Nat)
  deriving DecidableEq, Repr

/-- Calls on the collaborators of the scene, recorded in `Scene.log`. -/
inductive SceneEffect where
  | outputRemoveSurface (output : Nat) (surface : SurfaceId)
  | containerRemoveSurface (container : Nat) (surface : SurfaceId)
  | activateAssertionFailed (surface : SurfaceId)
  deriving DecidableEq, Repr

/-- Modelled from the spec: the enumeration `SurfaceWrapper::SurfaceRole`,
declared in `surfacewrapper.h`, which is not among the sources. The code names
the default role `Normal`; every other role is given by the integer
`static_cast<int>(role)` yields for it. -/
inductive SurfaceRole where
  | Normal
  | special (value : Int)
  deriving DecidableEq, Repr

/-- One `SurfaceWrapper` in a scene: the state machine of the first part in
`core`, and the members that link it to other wrappers. `z` is the `z`
property of the item. -/
structure Wrapper where
  core : Surface := {}
  parentSurface : Option SurfaceId := none
  subSurfaces : List SurfaceId := []
  alwaysOnTop : Bool := false
  explicitAlwaysOnTop : Int := 0
  z : Int := 0
  ownsOutput : Option Nat := none
  surfaceRole : SurfaceRole := SurfaceRole.Normal
  deriving DecidableEq, Repr

/-- A scene: the wrappers, the drawing parent of every item (`parentItem()`),
the child items of every drawing parent in draw order (`childItems()`), and
the calls made on outputs and containers. -/
structure Scene where
  wrappers : SurfaceId → Wrapper
  parentItem : Item → Option Nat
  childItems : Nat → List Item
  log : List SceneEffect := []

/-- The value of `ALWAYSONTOPLAYER`. -/
def ALWAYSONTOPLAYER : Int := 1

/-- Replaces the wrapper named `id`. -/
def Scene.setWrapper (sc : Scene) (id : SurfaceId) (w : Wrapper) : Scene :=
  { sc with wrappers := Function.update sc.wrappers id w }

/-- Replaces the child items of the drawing parent `p`. -/
def Scene.setChildItems (sc : Scene) (p : Nat) (l : List Item) : Scene :=
  { sc with childItems := Function.update sc.childItems p l }

/-! ### List operations of `QList` -/

/-- Embedding of `QList::lastIndexOf`: the index of the last occurrence, `-1`
when there is none. -/
def lastIndexOf {α : Type} [DecidableEq α] : List α → α → Int
  | [], _ => -1
  | y :: ys, x =>
    if lastIndexOf ys x ≠ -1 then lastIndexOf ys x + 1
    else if y = x then 0
    else -1

/-- Embedding of `QList::move(from, to)`: the element at `fromIndex` is taken
out and put back so that it ends at `toIndex`. The indices are asserted to be
in range; with the assertion compiled out a call with an index out of range is
taken to leave the list alone. -/
def listMove {α : Type} (l : List α) (fromIndex toIndex : Int) : List α :=
  if 0 ≤ fromIndex ∧ fromIndex < l.length ∧ 0 ≤ toIndex ∧ toIndex < l.length then
    match l.get? fromIndex.toNat with
    | some x => (l.eraseIdx fromIndex.toNat).insertIdx toIndex.toNat x
    | none => l
  else l

/-- The index arithmetic shared by `QQuickItem::stackBefore` and the sibling
branch of `SurfaceWrapper::stackBefore`: `x` is moved to the place right
before `y`, unless it is there already. -/
def moveBefore {α : Type} [DecidableEq α] (l : List α) (x y : α) : List α :=
  let myIndex := lastIndexOf l x
  let siblingIndex := lastIndexOf l y
  if myIndex ≠ siblingIndex - 1 then
    listMove l myIndex (if myIndex < siblingIndex then siblingIndex - 1 else siblingIndex)
  else l

/-- The index arithmetic shared by `QQuickItem::stackAfter` and the sibling
branch of `SurfaceWrapper::stackAfter`: `x` is moved to the place right after
`y`, unless it is there already. -/
def moveAfter {α : Type} [DecidableEq α] (l : List α) (x y : α) : List α :=
  let myIndex := lastIndexOf l x
  let siblingIndex := lastIndexOf l y
  if myIndex ≠ siblingIndex + 1 then
    listMove l myIndex (if myIndex > siblingIndex then siblingIndex + 1 else siblingIndex)
  else l

/-! ### Item-level stacking of `QQuickItem` -/

/-- Embedding of `QQuickItem::stackBefore`: `self` is moved right before
`sibling` among the child items of their common parent; nothing happens when
the two are not distinct siblings. -/
def itemStackBefore (self sibling : Item) (sc : Scene) : Scene :=
  match sc.parentItem self with
  | none => sc
  | some p =>
    if sibling = self ∨ sc.parentItem sibling ≠ some p then sc
    else sc.setChildItems p (moveBefore (sc.childItems p) self sibling)

/-- Embedding of `QQuickItem::stackAfter`: `self` is moved right after
`sibling` among the child items of their common parent; nothing happens when
the two are not distinct siblings. -/
def itemStackAfter (self sibling : Item) (sc : Scene) : Scene :=
  match sc.parentItem self with
  | none => sc
  | some p =>
    if sibling = self ∨ sc.parentItem sibling ≠ some p then sc
    else sc.setChildItems p (moveAfter (sc.childItems p) self sibling)

/-! ### Walks over the hierarchy -/

/-- Embedding of `SurfaceWrapper::stackFirstSurface`. -/
def stackFirstSurface : Nat → Scene → SurfaceId → Option SurfaceId
  | 0, _, _ => none
  | fuel + 1, sc, self =>
    match (sc.wrappers self).subSurfaces.head? with
    | none => some self
    | some first => stackFirstSurface fuel sc first

/-- Embedding of `SurfaceWrapper::stackLastSurface`. -/
def stackLastSurface : Nat → Scene → SurfaceId → Option SurfaceId
  | 0, _, _ => none
  | fuel + 1, sc, self =>
    match (sc.wrappers self).subSurfaces.getLast? with
    | none => some self
    | some last => stackLastSurface fuel sc last

/-- Embedding of `SurfaceWrapper::hasChild`: whether `child` is a sub-surface
of `self` or of one of its sub-surfaces, searched in list order. -/
def hasChild : Nat → Scene → SurfaceId → SurfaceId → Option Bool
  | 0, _, _, _ => none
  | fuel + 1, sc, self, child =>
    (sc.wrappers self).subSurfaces.anyM
      (fun s => if s = child then some true else hasChild fuel sc s child)

/-! ### Stacking of surfaces -/

/-- The outcome of the `do { ... } while (false)` block of
`SurfaceWrapper::stackBefore` and `SurfaceWrapper::stackAfter`: the function
returns `false` from inside the block, or leaves it for the closing
`updateSubSurfaceStacking`. -/
inductive BlockExit where
  | returnFalse (sc : Scene)
  | restack (sc : Scene)

mutual

/-- Embedding of `SurfaceWrapper::stackBefore`: the answer and the scene after
the call. -/
def stackBefore : Nat → SurfaceId → Item → Scene → Option (Bool × Scene)
  | 0, _, _, _ => none
  | fuel + 1, self, item, sc =>
    if sc.parentItem (Item.surface self) = none ∨
        sc.parentItem item ≠ sc.parentItem (Item.surface self) then some (false, sc)
    else if Item.surface self = item then some (false, sc)
    else
      let climb (item1 : Item) : Option BlockExit :=
        match (sc.wrappers self).parentSurface with
        | some p =>
          match stackBefore fuel p item1 sc with
          | none => none
          | some (false, sc1) => some (BlockExit.returnFalse sc1)
          | some (true, sc1) => some (BlockExit.restack sc1)
        | none => some (BlockExit.restack (itemStackBefore (Item.surface self) item1 sc))
      let block : Option BlockExit :=
        match item with
        | Item.surface s =>
          match hasChild fuel sc s self with
          | none => none
          | some true => some (BlockExit.returnFalse sc)
          | some false =>
            match hasChild fuel sc self s with
            | none => none
            | some true =>
              some (BlockExit.restack (itemStackBefore (Item.surface self) item sc))
            | some false =>
              match stackFirstSurface fuel sc s with
              | none => none
              | some first =>
                if (sc.wrappers self).parentSurface ≠ none ∧
                    (sc.wrappers self).parentSurface = (sc.wrappers s).parentSurface then
                  match (sc.wrappers self).parentSurface with
                  | some p =>
                    let sc1 := itemStackBefore (Item.surface self) (Item.surface first) sc
                    some (BlockExit.restack
                      (sc1.setWrapper p
                        { sc1.wrappers p with
                          subSurfaces := moveBefore (sc1.wrappers p).subSurfaces self s }))
                  | none => none
                else climb (Item.surface first)
        | Item.other _ => climb item
      match block with
      | none => none
      | some (BlockExit.returnFalse sc1) => some (false, sc1)
      | some (BlockExit.restack sc1) =>
        match updateSubSurfaceStacking fuel self sc1 with
        | none => none
        | some sc2 => some (true, sc2)

/-- Embedding of `SurfaceWrapper::stackAfter`: the answer and the scene after
the call. -/
def stackAfter : Nat → SurfaceId → Item → Scene → Option (Bool × Scene)
  | 0, _, _, _ => none
  | fuel + 1, self, item, sc =>
    if sc.parentItem (Item.surface self) = none ∨
        sc.parentItem item ≠ sc.parentItem (Item.surface self) then some (false, sc)
    else if Item.surface self = item then some (false, sc)
    else
      let climb (item1 : Item) : Option BlockExit :=
        match (sc.wrappers self).parentSurface with
        | some p =>
          match stackAfter fuel p item1 sc with
          | none => none
          | some (false, sc1) => some (BlockExit.returnFalse sc1)
          | some (true, sc1) => some (BlockExit.restack sc1)
        | none => some (BlockExit.restack (itemStackAfter (Item.surface self) item1 sc))
      let block : Option BlockExit :=
        match item with
        | Item.surface s =>
          match hasChild fuel sc self s with
          | none => none
          | some true => some (BlockExit.returnFalse sc)
          | some false =>
            match hasChild fuel sc s self with
            | none => none
            | some true =>
              some (BlockExit.restack (itemStackAfter (Item.surface self) item sc))
            | some false =>
              match stackLastSurface fuel sc s with
              | none => none
              | some last =>
                if (sc.wrappers self).parentSurface ≠ none ∧
                    (sc.wrappers self).parentSurface = (sc.wrappers s).parentSurface then
                  match (sc.wrappers self).parentSurface with
                  | some p =>
                    let sc1 := itemStackAfter (Item.surface self) (Item.surface last) sc
                    some (BlockExit.restack
                      (sc1.setWrapper p
                        { sc1.wrappers p with
                          subSurfaces := moveAfter (sc1.wrappers p).subSurfaces self s }))
                  | none => none
                else climb (Item.surface last)
        | Item.other _ => climb item
      match block with
      | none => none
      | some (BlockExit.returnFalse sc1) => some (false, sc1)
      | some (BlockExit.restack sc1) =>
        match updateSubSurfaceStacking fuel self sc1 with
        | none => none
        | some sc2 => some (true, sc2)

/-- The loop of `SurfaceWrapper::updateSubSurfaceStacking` over the remaining
sub-surfaces `subs`, with the current value of `lastSurface`. The answer of
`stackAfter` is not looked at. -/
def restackLoop : Nat → List SurfaceId → SurfaceId → Scene → Option Scene
  | _, [], _, sc => some sc
  | 0, _ :: _, _, _ => none
  | fuel + 1, surface :: rest, lastSurface, sc =>
    match stackAfter fuel surface (Item.surface lastSurface) sc with
    | none => none
    | some (_, sc1) =>
      match stackLastSurface fuel sc1 surface with
      | none => none
      | some last => restackLoop fuel rest last sc1

/-- Embedding of `SurfaceWrapper::updateSubSurfaceStacking`: every sub-surface
in list order is stacked after the last surface of its predecessor. The loop
runs over the list as it is when the function is entered. -/
def updateSubSurfaceStacking : Nat → SurfaceId → Scene → Option Scene
  | 0, _, _ => none
  | fuel + 1, self, sc => restackLoop fuel (sc.wrappers self).subSurfaces self sc

end

/-- Embedding of `SurfaceWrapper::stackToLast`. -/
def stackToLast : Nat → SurfaceId → Scene → Option Scene
  | 0, _, _ => none
  | fuel + 1, self, sc =>
    match sc.parentItem (Item.surface self) with
    | none => some sc
    | some drawingParent =>
      match (sc.wrappers self).parentSurface with
      | some p =>
        match stackToLast fuel p sc with
        | none => none
        | some sc1 =>
          match stackLastSurface fuel sc1 p with
          | none => none
          | some last => (stackAfter fuel self (Item.surface last) sc1).map (fun r => r.2)
      | none =>
        match (sc.childItems drawingParent).getLast? with
        | none => none
        | some last => (stackAfter fuel self last sc).map (fun r => r.2)

/-! ### Always-on-top propagation and the mutators of the hierarchy -/

/-- The value `int newExplicitAlwaysOnTop` computed by
`updateExplicitAlwaysOnTop`: the own flag plus the count of the parent. -/
def newExplicitAlwaysOnTop (sc : Scene) (self : SurfaceId) : Int :=
  (if (sc.wrappers self).alwaysOnTop then 1 else 0) +
    (match (sc.wrappers self).parentSurface with
      | some p => (sc.wrappers p).explicitAlwaysOnTop
      | none => 0)

/-- Embedding of `SurfaceWrapper::updateExplicitAlwaysOnTop`. -/
def updateExplicitAlwaysOnTop : Nat → SurfaceId → Scene → Option Scene
  | 0, _, _ => none
  | fuel + 1, self, sc =>
    if (sc.wrappers self).explicitAlwaysOnTop = newExplicitAlwaysOnTop sc self then some sc
    else
      let sc1 := sc.setWrapper self
        { sc.wrappers self with
          explicitAlwaysOnTop := newExplicitAlwaysOnTop sc self,
          z := if newExplicitAlwaysOnTop sc self ≠ 0 then ALWAYSONTOPLAYER else 0 }
      (sc.wrappers self).subSurfaces.foldlM
        (fun acc sub => updateExplicitAlwaysOnTop fuel sub acc) sc1

/-- Embedding of `SurfaceWrapper::setAlwaysOnTop`. -/
def setAlwaysOnTop (fuel : Nat) (self : SurfaceId) (alwaysOnTop : Bool) (sc : Scene) :
    Option Scene :=
  if (sc.wrappers self).alwaysOnTop = alwaysOnTop then some sc
  else
    updateExplicitAlwaysOnTop fuel self
      (sc.setWrapper self { sc.wrappers self with alwaysOnTop := alwaysOnTop })

/-- Embedding of `SurfaceWrapper::addSubSurface`, called on `self` with the
new sub-surface `surface`. -/
def addSubSurface (fuel : Nat) (self surface : SurfaceId) (sc : Scene) : Option Scene :=
  let sc1 := sc.setWrapper surface { sc.wrappers surface with parentSurface := some self }
  match updateExplicitAlwaysOnTop fuel surface sc1 with
  | none => none
  | some sc2 =>
    some (sc2.setWrapper self
      { sc2.wrappers self with subSurfaces := (sc2.wrappers self).subSurfaces ++ [surface] })

/-- Embedding of `SurfaceWrapper::removeSubSurface`, called on `self` with the
sub-surface `surface`; `QList::removeOne` takes out the first occurrence. -/
def removeSubSurface (fuel : Nat) (self surface : SurfaceId) (sc : Scene) : Option Scene :=
  let sc1 := sc.setWrapper surface { sc.wrappers surface with parentSurface := none }
  match updateExplicitAlwaysOnTop fuel surface sc1 with
  | none => none
  | some sc2 =>
    some (sc2.setWrapper self
      { sc2.wrappers self with subSurfaces := (sc2.wrappers self).subSurfaces.erase surface })

/-- The loop of the destructor over the sub-surfaces: each gets a null
`m_parentSurface`. -/
def detachSubSurfaces (subs : List SurfaceId) (sc : Scene) : Scene :=
  subs.foldl
    (fun acc subS => acc.setWrapper subS { acc.wrappers subS with parentSurface := none }) sc

/-- The first part of the destructor: the title bar and the geometry animation
are deleted, then `removeSurface(this)` is called on the output that owns the
surface and on its container, and the two pointers are reset. -/
def releaseFromOutputAndContainer (self : SurfaceId) (sc : Scene) : Scene :=
  let w := sc.wrappers self
  let sc1 := sc.setWrapper self
    { w with core := { w.core with titleBar := false, geometryAnimation := none } }
  let sc2 :=
    match (sc1.wrappers self).ownsOutput with
    | some o =>
      { sc1.setWrapper self { sc1.wrappers self with ownsOutput := none } with
        log := sc1.log ++ [SceneEffect.outputRemoveSurface o self] }
    | none => sc1
  match (sc2.wrappers self).core.container with
  | some c =>
    { sc2.setWrapper self
        { sc2.wrappers self with
          core := { (sc2.wrappers self).core with container := none } } with
      log := sc2.log ++ [SceneEffect.containerRemoveSurface c self] }
  | none => sc2

/-- Embedding of `SurfaceWrapper::~SurfaceWrapper`. After the release from
output and container the sub-surfaces are detached and the parent drops the
surface. The wrapper is marked as destroyed at the end. -/
def destroySurface (fuel : Nat) (self : SurfaceId) (sc : Scene) : Option Scene :=
  let sc3 := releaseFromOutputAndContainer self sc
  let sc4 := detachSubSurfaces (sc3.wrappers self).subSurfaces sc3
  let sc5 :=
    match (sc4.wrappers self).parentSurface with
    | some p => removeSubSurface fuel p self sc4
    | none => some sc4
  sc5.map (fun sc6 =>
    sc6.setWrapper self
      { sc6.wrappers self with core := { (sc6.wrappers self).core with destroyed := true } })

/-! ### Properties of the hierarchy -/

/-- The relation "`p` is the parent surface of `c`". -/
def IsParentOf (sc : Scene) (c p : SurfaceId) : Prop :=
  (sc.wrappers c).parentSurface = some p

/-- The surface `a` is an ancestor of `x`: it is reached from `x` by one or
more steps to the parent surface. -/
def IsAncestor (sc : Scene) (a x : SurfaceId) : Prop :=
  Relation.TransGen (IsParentOf sc) x a

/-- No surface is its own ancestor. -/
def Acyclic (sc : Scene) : Prop :=
  ∀ x, ¬ IsAncestor sc x x

/-- The sub-surface lists descend along `rank`: the walks over sub-surfaces
started at `x` end within `rank x` nested calls. -/
def Ranked (sc : Scene) (rank : SurfaceId → Nat) : Prop :=
  ∀ p c, c ∈ (sc.wrappers p).subSurfaces → rank c < rank p

/-- The parent pointers and the sub-surface lists describe the same hierarchy:
a surface is in the list of `p` exactly when `p` is its parent surface, and no
list names a surface twice. -/
def LinksConsistent (sc : Scene) : Prop :=
  (∀ p c, c ∈ (sc.wrappers p).subSurfaces ↔ (sc.wrappers c).parentSurface = some p) ∧
  ∀ p, (sc.wrappers p).subSurfaces.Nodup

/-- The scenes differ at most in the propagated always-on-top counts and the
`z` values of the wrappers. -/
def SameUpToElevation (sc sc1 : Scene) : Prop :=
  sc1.parentItem = sc.parentItem ∧ sc1.childItems = sc.childItems ∧ sc1.log = sc.log ∧
  ∀ x, (sc1.wrappers x).core = (sc.wrappers x).core ∧
    (sc1.wrappers x).parentSurface = (sc.wrappers x).parentSurface ∧
    (sc1.wrappers x).subSurfaces = (sc.wrappers x).subSurfaces ∧
    (sc1.wrappers x).alwaysOnTop = (sc.wrappers x).alwaysOnTop ∧
    (sc1.wrappers x).ownsOutput = (sc.wrappers x).ownsOutput

/-! ### Scenes used as examples -/

/-- A scene with the surfaces `0`, `1`, ... under the one drawing parent `0`:
`parents` and `subs` give the parent surface and the sub-surfaces of each,
`order` the draw order. -/
def sceneOf (parents : List (Option SurfaceId)) (subs : List (List SurfaceId))
    (order : List SurfaceId) : Scene :=
  { wrappers := fun i =>
      { parentSurface := (parents.get? i).join, subSurfaces := (subs.get? i).getD [] },
    parentItem := fun _ => some 0,
    childItems := fun p => if p = 0 then order.map Item.surface else [] }

/-- A parent `0` with the sub-surfaces `1` and `2`, drawn in that order. -/
def familyScene : Scene :=
  sceneOf [none, some 0, some 0] [[1, 2], [], []] [0, 1, 2]

/-- The family of `familyScene` after `stackAfter(2, 0)`: the second
sub-surface is drawn right after the parent. -/
def familySceneSwapped : Scene :=
  sceneOf [none, some 0, some 0] [[1, 2], [], []] [0, 2, 1]

/-- A parent `0` with the one sub-surface `2`, and a second top-level surface
`1`. -/
def adoptionScene : Scene :=
  sceneOf [none, none, some 0] [[2], [], []] [0, 2, 1]

/-- A parent `0` with the one sub-surface `1`. -/
def pairScene : Scene :=
  sceneOf [none, some 0] [[1], []] [0, 1]

/-- A surface `1` with the parent `0` and the two sub-surfaces `2` and `3`; it
sits in the container `7` and is owned by the output `9`. -/
def householdScene : Scene :=
  let sc := sceneOf [none, some 0, some 1, some 1] [[1], [2, 3], [], []] [0, 1, 2, 3]
  sc.setWrapper 1
    { sc.wrappers 1 with core := { (sc.wrappers 1).core with container := some 7 },
                         ownsOutput := some 9 }

/-- The propagation equation of the specification at the surface `x`: the
propagated count is the own flag, as 0 or 1, plus the propagated count of the
parent surface, 0 when there is no parent surface. -/
def PropagationHolds (sc : Scene) (x : SurfaceId) : Prop :=
  (sc.wrappers x).explicitAlwaysOnTop =
    (if (sc.wrappers x).alwaysOnTop then 1 else 0) +
      (match (sc.wrappers x).parentSurface with
        | some p => (sc.wrappers p).explicitAlwaysOnTop
        | none => 0)

/-- Every surface with a parent surface is in the list of sub-surfaces of that
parent. -/
def ListsComplete (sc : Scene) : Prop :=
  ∀ c p, (sc.wrappers c).parentSurface = some p → c ∈ (sc.wrappers p).subSurfaces

/-- The surface `x` is `a` itself or is reached from `a` over the lists of
sub-surfaces. -/
def Reaches (sc : Scene) (a x : SurfaceId) : Prop :=
  Relation.ReflTransGen (fun p c => c ∈ (sc.wrappers p).subSurfaces) a x

/-- The number of set always-on-top flags among `x` and its ancestors, counted
along at most `fuel` parent pointers. -/
def flagCount : Nat → Scene → SurfaceId → Int
  | 0, _, _ => 0
  | fuel + 1, sc, x =>
    (if (sc.wrappers x).alwaysOnTop then 1 else 0) +
      (match (sc.wrappers x).parentSurface with
        | some p => flagCount fuel sc p
        | none => 0)

/-- A parent `0` that is always on top, with the one sub-surface `1`; both
carry the propagated count 1. -/
def elevatedPairScene : Scene :=
  (pairScene.setWrapper 0
    { pairScene.wrappers 0 with alwaysOnTop := true, explicitAlwaysOnTop := 1, z := 1 }).setWrapper 1
    { pairScene.wrappers 1 with explicitAlwaysOnTop := 1, z := 1 }

/-- The draw order after the loop of `updateSubSurfaceStacking` when each call
of `stackAfter` in it is the move of one item: the items of the third list are
moved in turn, the first right after `last`, each following one right after
the one moved before it. -/
def restackList {α : Type} [DecidableEq α] : List α → α → List α → List α
  | l, _, [] => l
  | l, last, c :: rest => restackList (moveAfter l c last) c rest

/-- The surface `a` is drawn under the drawing parent `p` and its sub-surfaces
are exactly `cs`, each named once, each drawn under `p` with `a` as parent
surface and without sub-surfaces of its own. -/
def LeafFamily (sc : Scene) (p : Nat) (a : SurfaceId) (cs : List SurfaceId) : Prop :=
  sc.parentItem (Item.surface a) = some p ∧ (sc.wrappers a).subSurfaces = cs ∧
  cs.Nodup ∧ a ∉ cs ∧
  ∀ c ∈ cs, sc.parentItem (Item.surface c) = some p ∧
    (sc.wrappers c).parentSurface = some a ∧ (sc.wrappers c).subSurfaces = []

/-- The setting in which stacking `a` next to `b` is followed: `a` with its
sub-surfaces `cs` is a `LeafFamily`, `b` is another surface under the same
drawing parent and has no sub-surfaces, the draw order names every item once
and contains all of them, and `a` is a top-level surface or has the same
parent surface as `b`. -/
def StackPair (sc : Scene) (p : Nat) (a b : SurfaceId) (cs : List SurfaceId) : Prop :=
  LeafFamily sc p a cs ∧ a ≠ b ∧ b ∉ cs ∧
  sc.parentItem (Item.surface b) = some p ∧ (sc.wrappers b).subSurfaces = [] ∧
  (sc.childItems p).Nodup ∧ (∀ x ∈ a :: b :: cs, Item.surface x ∈ sc.childItems p) ∧
  ((sc.wrappers a).parentSurface = none ∨
    ∃ q, (sc.wrappers a).parentSurface = some q ∧ (sc.wrappers b).parentSurface = some q ∧
      q ∉ a :: b :: cs)

/-- The surfaces below `x` in the hierarchy, each sub-surface followed by its
own, found within `fuel` levels. -/
def descendants : Nat → Scene → SurfaceId → List SurfaceId
  | 0, _, _ => []
  | fuel + 1, sc, x =>
    (sc.wrappers x).subSurfaces.flatMap (fun c => c :: descendants fuel sc c)

/-- The surfaces among the items of a draw order. -/
def surfacesOf (l : List Item) : List SurfaceId :=
  l.filterMap (fun i => match i with
    | Item.surface x => some x
    | Item.other _ => none)

/-- The surface `x` precedes all its descendants in the draw order `order` and
forms a contiguous block with them: the items that follow the place of `x`, as
many as `x` has descendants, contain every descendant. -/
def SubtreeContiguous (fuel : Nat) (sc : Scene) (order : List Item) (x : SurfaceId) : Prop :=
  ∀ d ∈ descendants fuel sc x,
    Item.surface d ∈
      ((order.dropWhile (fun i => decide (i ≠ Item.surface x))).tail.take
        (descendants fuel sc x).length)

/-- Subtree contiguity of the draw order under the drawing parent `p`: every
surface drawn there precedes its descendants and forms a contiguous block with
them. -/
def DrawOrderGrouped (fuel : Nat) (sc : Scene) (p : Nat) : Prop :=
  ∀ x ∈ surfacesOf (sc.childItems p), SubtreeContiguous fuel sc (sc.childItems p) x

/-- In the draw order under `p` the surface `a`, followed by its sub-surfaces
`cs`, directly precedes `b`. -/
def DrawnBefore (sc : Scene) (p : Nat) (a : SurfaceId) (cs : List SurfaceId)
    (b : SurfaceId) : Prop :=
  List.IsInfix (Item.surface a :: cs.map Item.surface ++ [Item.surface b]) (sc.childItems p)

/-- In the draw order under `p` the surface `a`, followed by its sub-surfaces
`cs`, directly follows `b`. -/
def DrawnAfter (sc : Scene) (p : Nat) (a : SurfaceId) (cs : List SurfaceId)
    (b : SurfaceId) : Prop :=
  List.IsInfix (Item.surface b :: Item.surface a :: cs.map Item.surface) (sc.childItems p)

/-- A top-level surface `0` with the sub-surface `1`, and a second top-level
surface `2`, drawn in that order. -/
def visitorScene : Scene :=
  sceneOf [none, some 0, none] [[1], [], []] [0, 1, 2]

/-- A surface `0` with the sub-surfaces `1` and `2`, of which `1` has the
sub-surface `3`, drawn as one block behind a further top-level surface `4`. -/
def deepScene : Scene :=
  sceneOf [none, some 0, some 0, some 1, none] [[1, 2], [3], [], [], []] [4, 0, 1, 3, 2]

/-- A surface `0` with the sub-surfaces `1` and `2`, and a second top-level
surface `3`. -/
def nestedScene : Scene :=
  sceneOf [none, some 0, some 0, none] [[1, 2], [], [], []] [0, 1, 2, 3]

/-- The surfaces of `nestedScene` in the draw order `3, 1, 0, 2`. -/
def scatteredScene : Scene :=
  sceneOf [none, some 0, some 0, none] [[1, 2], [], [], []] [3, 1, 0, 2]

/-! ### The overview model

The entries of the overview model are declared in `multitaskview.h`, together
with `commit`. -/

/-- The record `MultitaskviewSurfaceModel::SurfaceModelData`, one entry of the
overview model: the wrapper it stands for, the committed geometry and padding,
and the pending ones written by the latest layout pass. -/
structure SurfaceModelData where
  wrapper : Option SurfaceId := none
  geometry : QRectF := {}
  padding : Bool := false
  minimized : Bool := false
  pendingGeometry : QRectF := {}
  pendingPadding : Bool := false
  zorder : Int := 0
  pendingZOrder : Int := 0
  deriving DecidableEq, Repr

/-- Embedding of `SurfaceModelData::commit`. -/
def SurfaceModelData.commit (d : SurfaceModelData) : SurfaceModelData :=
  { d with geometry := d.pendingGeometry, padding := d.pendingPadding }

/-! ### Roles and activation -/

/-- Embedding of `SurfaceWrapper::setSurfaceRole`. Both loops over the
sub-surfaces call `setZ` of the wrapper itself, once for every sub-surface. -/
def setSurfaceRole (self : SurfaceId) (role : SurfaceRole) (sc : Scene) : Scene :=
  if (sc.wrappers self).surfaceRole = role then sc
  else
    let sc1 := sc.setWrapper self { sc.wrappers self with surfaceRole := role }
    match role with
    | SurfaceRole.special v =>
      let sc2 := sc1.setWrapper self { sc1.wrappers self with z := ALWAYSONTOPLAYER + v }
      (sc2.wrappers self).subSurfaces.foldl
        (fun acc _ => acc.setWrapper self { acc.wrappers self with z := ALWAYSONTOPLAYER + v })
        sc2
    | SurfaceRole.Normal =>
      let sc2 := sc1.setWrapper self { sc1.wrappers self with z := 0 }
      (sc2.wrappers self).subSurfaces.foldl
        (fun acc _ => acc.setWrapper self { acc.wrappers self with z := 0 }) sc2

/-- The elevation `updateExplicitAlwaysOnTop` writes for a propagated count:
the always-on-top layer for a non-zero count, 0 for the count zero. -/
def zLayer (explicitAlwaysOnTop : Int) : Int :=
  if explicitAlwaysOnTop ≠ 0 then ALWAYSONTOPLAYER else 0

/-- The elevation the specification gives a surface of a role and a propagated
count: the layer of the count under the default role, `1 + role` under any
other role. -/
def expectedZ (role : SurfaceRole) (explicitAlwaysOnTop : Int) : Int :=
  match role with
  | SurfaceRole.Normal => zLayer explicitAlwaysOnTop
  | SurfaceRole.special v => 1 + v

mutual

/-- Embedding of `SurfaceWrapper::setActivate`. The assertion
`!activate || hasActiveCapability()` is compiled out; a call on which it is
false is recorded in the log of the scene. -/
def setActivate : Nat → SurfaceId → Bool → Scene → Option Scene
  | 0, _, _, _ => none
  | fuel + 1, self, activate, sc =>
    let sc0 : Scene :=
      if activate && !hasActiveCapability (sc.wrappers self).core then
        { sc with log := sc.log ++ [SceneEffect.activateAssertionFailed self] }
      else sc
    let w := sc0.wrappers self
    let sc1 := sc0.setWrapper self
      { w with core := { w.core with shell := { w.core.shell with activated := activate } } }
    activateAncestors fuel (sc1.wrappers self).parentSurface activate sc1

/-- The loop of `setActivate` over the ancestors, `parent` being the pointer
it has reached: `setActivate` is called on each ancestor in turn. -/
def activateAncestors : Nat → Option SurfaceId → Bool → Scene → Option Scene
  | _, none, _, sc => some sc
  | 0, some _, _, _ => none
  | fuel + 1, some p, activate, sc =>
    match setActivate fuel p activate sc with
    | none => none
    | some sc1 => activateAncestors fuel (sc1.wrappers p).parentSurface activate sc1

end

/-- A parent `0` that is minimized, so without the capability bit
`UnMinimized`, and its sub-surface `1`, which has the full activation
capability. -/
def minimizedParentScene : Scene :=
  (pairScene.setWrapper 0
    { pairScene.wrappers 0 with
      core := { attachedSurface with
        surfaceState := State.Minimized,
        hasActiveCapability :=
          ActiveControlStates.Full.setFlag ActiveControlState.UnMinimized false } }).setWrapper 1
    { pairScene.wrappers 1 with core := attachedSurface }

/-- The elevation `setSurfaceRole` writes for a role: `ALWAYSONTOPLAYER` plus
the integer of the role, and 0 for the role `Normal`. -/
def roleZ (role : SurfaceRole) : Int :=
  match role with
  | SurfaceRole.special v => ALWAYSONTOPLAYER + v
  | SurfaceRole.Normal => 0

/-- The wrapper `w` with the activated flag of its client surface set to `b`,
as `m_shellSurface->setActivate(b)` leaves it. -/
def Wrapper.withActivated (w : Wrapper) (b : Bool) : Wrapper :=
  { w with core := { w.core with shell := { w.core.shell with activated := b } } }

/-- The surface `y` is reached from `x` by one or more steps of the parent
function `par`. -/
def AncestorVia (par : SurfaceId → Option SurfaceId) (x y : SurfaceId) : Prop :=
  Relation.TransGen (fun c p => par c = some p) x y

/-- From `sc` to `sc1` nothing but activated flags and the log has changed:
the flag is `a` on the surfaces in `T` and as before on all others. -/
def ActivatedOn (a : Bool) (T : SurfaceId → Prop) (sc sc1 : Scene) : Prop :=
  sc1.parentItem = sc.parentItem ∧ sc1.childItems = sc.childItems ∧
  ∀ y, ∃ b, sc1.wrappers y = (sc.wrappers y).withActivated b ∧
    (T y → b = a) ∧ (¬ T y → b = (sc.wrappers y).core.shell.activated)

/-- The surface `x` is reached from `a` by one or more steps over the lists of
sub-surfaces. -/
def ReachesBelow (sc : Scene) (a x : SurfaceId) : Prop :=
  Relation.TransGen (fun p c => c ∈ (sc.wrappers p).subSurfaces) a x

/-- The lists of sub-surfaces and the parent pointers name the same pairs. -/
def ListsAgree (sc : Scene) : Prop :=
  ∀ p c, c ∈ (sc.wrappers p).subSurfaces ↔ (sc.wrappers c).parentSurface = some p

/-- From `sc` to `sc1` the hierarchy is the same: every parent pointer is kept
and every list of sub-surfaces is a permutation of what it was. The lists of
the surfaces that are not `y` and not below `y` are kept as they are. -/
def RestackedBelow (y : SurfaceId) (sc sc1 : Scene) : Prop :=
  (∀ x, (sc1.wrappers x).parentSurface = (sc.wrappers x).parentSurface) ∧
  (∀ x, (sc1.wrappers x).subSurfaces.Perm (sc.wrappers x).subSurfaces) ∧
  ∀ x, ¬ Reaches sc y x → (sc1.wrappers x).subSurfaces = (sc.wrappers x).subSurfaces

/-- A surface `0` with the sub-surfaces `1`, `2` and `3`, of which `1` has the
sub-surface `4`, drawn in the order `0, 1, 4, 2, 3`. -/
def siblingScene : Scene :=
  sceneOf [none, some 0, some 0, some 0, some 1] [[1, 2, 3], [4], [], [], []] [0, 1, 4, 2, 3]

/-- The height of a surface of `siblingScene` over the leaves below it. -/
def siblingRank (x : SurfaceId) : Nat :=
  if x = 0 then 2 else if x = 1 then 1 else 0

/-- The walks over the hierarchy return within `bound` nested calls, whatever
surface they start at: `hasChild`, `stackFirstSurface` and `stackLastSurface`
over the lists of sub-surfaces, and the loop of `setActivate` over the parent
pointers. -/
def WalksReturn (sc : Scene) (bound : Nat) : Prop :=
  ∀ a x, (hasChild bound sc a x).isSome = true ∧
    (stackFirstSurface bound sc a).isSome = true ∧
    (stackLastSurface bound sc a).isSome = true ∧
    ∀ v, (setActivate bound a v sc).isSome = true

/-- The surface reached from `x` by `k` steps to the parent surface, if the
chain of parents is that long. -/
def nthParent (sc : Scene) : Nat → SurfaceId → Option SurfaceId
  | 0, x => some x
  | k + 1, x => ((sc.wrappers x).parentSurface).bind (nthParent sc k)

/-- A hierarchy of finitely many surfaces: the lists of sub-surfaces agree
with the parent pointers and name no surface twice, no surface is its own
ancestor, and only surfaces below `n` have a parent surface. -/
def FiniteHierarchy (sc : Scene) (n : Nat) : Prop :=
  LinksConsistent sc ∧ Acyclic sc ∧ ∀ x : Nat, n ≤ x → (sc.wrappers x).parentSurface = none

/-! ### End of the scene definitions -/

/-! ## Field lemmas shared by the proofs -/

theorem setNormalGeometry_eq (env : Env) (r : QRectF) (s : Surface) :
    setNormalGeometry env r s =
      if env.sameRect s.normalGeometry r then s else { s with normalGeometry := r } := by
  rfl

theorem setVisibleDecoration_eq (v : Bool) (s : Surface) :
    setVisibleDecoration v s = { s with visibleDecoration := v } := by
  unfold setVisibleDecoration
  split
  · rename_i h
    cases s
    simp_all
  · rfl

theorem setNoCornerRadius_eq (v : Bool) (s : Surface) :
    setNoCornerRadius v s = { s with noCornerRadius := v } := by
  unfold setNoCornerRadius
  split
  · rename_i h
    cases s
    simp_all
  · rfl

theorem updateTitleBar_eq (s : Surface) :
    updateTitleBar s = { s with titleBar := !noTitleBar s } := by
  unfold updateTitleBar
  split_ifs with h1 h2
  · have h3 : (!noTitleBar s) = s.titleBar := by rw [h1]; simp
    rw [h3]
  · have h3 : noTitleBar s = true := by
      cases h : noTitleBar s
      · exact absurd (by rw [h, h2]; rfl) h1
      · rfl
    rw [h3]
    rfl
  · have h3 : noTitleBar s = false := by
      cases h : noTitleBar s
      · rfl
      · refine absurd ?_ h1
        rw [h]
        cases hb : s.titleBar
        · rfl
        · exact absurd hb h2
    rw [h3]
    rfl

theorem updateHasActiveCapability_eq (f : ActiveControlState) (v : Bool) (s : Surface) :
    updateHasActiveCapability f v s =
      { s with
        hasActiveCapability := s.hasActiveCapability.setFlag f v,
        log := s.log ++ activationSignals (hasActiveCapability s)
          (s.hasActiveCapability.setFlag f v == ActiveControlStates.Full) } := by
  unfold updateHasActiveCapability activationSignals hasActiveCapability
  simp only []
  cases h1 : (s.hasActiveCapability == ActiveControlStates.Full) <;>
    cases h2 : (s.hasActiveCapability.setFlag f v == ActiveControlStates.Full) <;>
    simp

theorem updateHasActiveCapability_fields (f : ActiveControlState) (v : Bool) (s : Surface) :
    (updateHasActiveCapability f v s).surfaceState = s.surfaceState ∧
    (updateHasActiveCapability f v s).previousSurfaceState = s.previousSurfaceState ∧
    (updateHasActiveCapability f v s).pendingState = s.pendingState ∧
    (updateHasActiveCapability f v s).shell = s.shell ∧
    (updateHasActiveCapability f v s).position = s.position ∧
    (updateHasActiveCapability f v s).size = s.size ∧
    (updateHasActiveCapability f v s).geometryAnimation = s.geometryAnimation ∧
    (updateHasActiveCapability f v s).hasActiveCapability = s.hasActiveCapability.setFlag f v := by
  simp [updateHasActiveCapability_eq]

theorem geometryChange_fields (env : Env) (g o : QRectF) (s : Surface) :
    (geometryChange env g o s).surfaceState = s.surfaceState ∧
    (geometryChange env g o s).previousSurfaceState = s.previousSurfaceState ∧
    (geometryChange env g o s).pendingState = s.pendingState ∧
    (geometryChange env g o s).position = s.position ∧
    (geometryChange env g o s).size = s.size ∧
    (geometryChange env g o s).shell = s.shell ∧
    (geometryChange env g o s).hasActiveCapability = s.hasActiveCapability ∧
    (geometryChange env g o s).geometryAnimation = s.geometryAnimation := by
  unfold geometryChange
  simp only [setNormalGeometry_eq, resize]
  split_ifs <;> simp

theorem setPosition_fields (env : Env) (p : QPointF) (s : Surface) :
    (setPosition env p s).surfaceState = s.surfaceState ∧
    (setPosition env p s).previousSurfaceState = s.previousSurfaceState ∧
    (setPosition env p s).pendingState = s.pendingState ∧
    (setPosition env p s).position =
      (if env.samePoint s.position p then s.position else p) ∧
    (setPosition env p s).size = s.size ∧
    (setPosition env p s).shell = s.shell ∧
    (setPosition env p s).hasActiveCapability = s.hasActiveCapability ∧
    (setPosition env p s).geometryAnimation = s.geometryAnimation := by
  unfold setPosition
  by_cases h : env.samePoint s.position p = true
  · simp [h]
  · have hg := geometryChange_fields env (QRectF.ofPointSize p s.size)
      (QRectF.ofPointSize s.position s.size) { s with position := p }
    simpa [h] using hg

theorem doSetSurfaceState_states (t : State) (s : Surface) :
    (doSetSurfaceState t s).surfaceState = t ∧
    (doSetSurfaceState t s).previousSurfaceState = s.surfaceState := by
  unfold doSetSurfaceState updateVisible enterState leaveState recordFlip
  simp only [updateTitleBar_eq, setNoCornerRadius_eq, setVisibleDecoration_eq]
  cases t <;> cases hs : s.surfaceState <;>
    simp [hs, updateHasActiveCapability_fields, shellSetMaximize, shellSetMinimize,
      shellSetFullScreen]

theorem startMinimizeAnimation_fields (g : QRectF) (d : Nat) (s : Surface) :
    (startMinimizeAnimation g d s).surfaceState = s.surfaceState ∧
    (startMinimizeAnimation g d s).previousSurfaceState = s.previousSurfaceState ∧
    (startMinimizeAnimation g d s).geometryAnimation = s.geometryAnimation ∧
    (startMinimizeAnimation g d s).container = s.container := by
  unfold startMinimizeAnimation
  split <;> simp

theorem setSurfaceState_outcome (env : Env) (t : State) (s s1 : Surface)
    (h : setSurfaceState env t s = some s1) :
    FlipOutcome (if takesImmediatePath env t s then some t else none) s s1 := by
  unfold setSurfaceState at h
  unfold takesImmediatePath
  by_cases ha : s.geometryAnimation.isSome = true
  · simp [ha] at h
    subst h
    simp [ha, FlipOutcome]
  · by_cases hs : s.surfaceState = t
    · simp [ha, hs] at h
      subst h
      simp [hs, FlipOutcome]
    · cases hc : s.container with
      | none => simp [ha, hs, hc] at h
      | some c =>
        by_cases hf : env.filterSurfaceStateChange s t s.surfaceState = true
        · simp [ha, hs, hc, hf] at h
          subst h
          simp [hf, FlipOutcome]
        · by_cases hv : (targetGeometryFor t s).isValid = true
          · simp [ha, hs, hc, hf, hv] at h
            subst h
            simp [hv, FlipOutcome, startStateChangeAnimation, ha]
          · simp [ha, hs, hc, hf, hv] at h
            subst h
            simp [ha, hs, hc, hf, hv, FlipOutcome, doSetSurfaceState_states]

theorem setSurfaceState_none (env : Env) (t : State) (s : Surface)
    (h : setSurfaceState env t s = none) : s.container = none := by
  unfold setSurfaceState at h
  cases hc : s.container with
  | none => rfl
  | some c =>
    simp only [hc] at h
    split_ifs at h

theorem resize_fields (env : Env) (sz : QSizeF) (s : Surface) :
    (resize env sz s).1 = env.resizeSurface s sz ∧
    (resize env sz s).2 = { s with log := s.log ++ [Effect.resizeSurface sz] } := by
  simp [resize]

theorem retargetAnimation_fields (st : State) (g : QRectF) (s : Surface) :
    (retargetAnimation st g s).surfaceState = s.surfaceState ∧
    (retargetAnimation st g s).previousSurfaceState = s.previousSurfaceState ∧
    (retargetAnimation st g s).position = s.position ∧
    (retargetAnimation st g s).size = s.size ∧
    (retargetAnimation st g s).log = s.log := by
  unfold retargetAnimation
  split
  · split <;> simp
  · simp

theorem onAnimationReady_outcome (env : Env) (s s1 : Surface)
    (h : onAnimationReady env s = some s1) :
    FlipOutcome
      (if env.resizeSurface s s.pendingGeometry.size then some s.pendingState else none)
      s s1 := by
  unfold onAnimationReady at h
  simp only [resize_fields] at h
  by_cases hr : env.resizeSurface s s.pendingGeometry.size = true
  · simp [hr] at h
    subst h
    simp [hr, FlipOutcome, doSetSurfaceState_states, setPosition_fields]
  · cases ha : s.geometryAnimation with
    | none => simp [hr, ha] at h
    | some a =>
      simp [hr, ha] at h
      subst h
      simp [hr, FlipOutcome, geometryAnimationDeleteLater]

theorem requestCancelMinimize_outcome (s : Surface) :
    FlipOutcome
      (if s.surfaceState = State.Minimized then some s.previousSurfaceState else none)
      s (requestCancelMinimize s) := by
  unfold requestCancelMinimize
  by_cases hm : s.surfaceState = State.Minimized
  · simp [hm, FlipOutcome, startMinimizeAnimation_fields, doSetSurfaceState_states]
  · simp [hm, FlipOutcome]

theorem geometrySetters_states (env : Env) (r : QRectF) (s : Surface) :
    ((setMaximizedGeometry env r s).surfaceState = s.surfaceState ∧
      (setMaximizedGeometry env r s).previousSurfaceState = s.previousSurfaceState) ∧
    ((setFullscreenGeometry env r s).surfaceState = s.surfaceState ∧
      (setFullscreenGeometry env r s).previousSurfaceState = s.previousSurfaceState) ∧
    ((setTilingGeometry env r s).surfaceState = s.surfaceState ∧
      (setTilingGeometry env r s).previousSurfaceState = s.previousSurfaceState) := by
  unfold setMaximizedGeometry setFullscreenGeometry setTilingGeometry
  simp only [resize_fields]
  refine ⟨?_, ?_, ?_⟩ <;> split_ifs <;>
    simp [setPosition_fields, retargetAnimation_fields]

theorem moveNormalGeometryInOutput_states (env : Env) (p : QPointF) (s : Surface) :
    (moveNormalGeometryInOutput env p s).surfaceState = s.surfaceState ∧
    (moveNormalGeometryInOutput env p s).previousSurfaceState = s.previousSurfaceState := by
  unfold moveNormalGeometryInOutput
  simp only [setNormalGeometry_eq]
  split_ifs <;> simp [setPosition_fields, retargetAnimation_fields]

theorem setContainer_fields (c : Option Nat) (s : Surface) :
    (setContainer c s).surfaceState = s.surfaceState ∧
    (setContainer c s).previousSurfaceState = s.previousSurfaceState := by
  unfold setContainer
  split_ifs <;> simp [updateHasActiveCapability_fields]

theorem step_outcome (env : Env) (op : Op) (s s1 : Surface)
    (h : step env op s = some s1) : FlipOutcome (flipTarget env op s) s s1 := by
  cases op with
  | setSurfaceState t => exact setSurfaceState_outcome env t s s1 h
  | onAnimationReady => exact onAnimationReady_outcome env s s1 h
  | onAnimationFinished =>
    simp only [step, onAnimationFinished] at h
    cases ha : s.geometryAnimation with
    | none => simp [ha] at h
    | some a =>
      simp [ha] at h
      subst h
      simp [flipTarget, FlipOutcome, geometryAnimationDeleteLater]
  | onMinimizeAnimationFinished =>
    simp only [step, onMinimizeAnimationFinished] at h
    cases ha : s.minimizeAnimation with
    | none => simp [ha] at h
    | some a =>
      simp [ha] at h
      subst h
      simp [flipTarget, FlipOutcome]
  | requestMinimize =>
    simp only [step, requestMinimize, Option.map_eq_some'] at h
    obtain ⟨s0, h0, h1⟩ := h
    have := setSurfaceState_outcome env State.Minimized s s0 h0
    subst h1
    simp only [flipTarget]
    split_ifs at this ⊢ <;>
      simpa [FlipOutcome, startMinimizeAnimation_fields] using this
  | requestCancelMinimize =>
    simp only [step, Option.some.injEq] at h
    subst h
    exact requestCancelMinimize_outcome s
  | requestMaximize =>
    simp only [step, requestMaximize] at h
    simp only [flipTarget]
    by_cases hg : s.surfaceState = State.Minimized ∨ s.surfaceState = State.Fullscreen
    · simp [hg] at h
      subst h
      rcases hg with hg | hg <;> simp [hg, FlipOutcome]
    · simp only [hg, if_false] at h
      have := setSurfaceState_outcome env State.Maximized s s1 h
      push_neg at hg
      simpa [hg] using this
  | requestCancelMaximize =>
    simp only [step, requestCancelMaximize] at h
    simp only [flipTarget]
    by_cases hg : s.surfaceState = State.Maximized
    · simp only [hg, ne_eq, not_true_eq_false, if_false] at h
      have := setSurfaceState_outcome env State.Normal s s1 h
      simpa [hg] using this
    · simp [hg] at h
      subst h
      simp [hg, FlipOutcome]
  | requestToggleMaximize =>
    simp only [step, requestToggleMaximize, requestCancelMaximize, requestMaximize] at h
    simp only [flipTarget]
    by_cases hg : s.surfaceState = State.Maximized
    · simp only [hg, ne_eq, not_true_eq_false, if_false, if_true] at h
      have := setSurfaceState_outcome env State.Normal s s1 h
      simpa [hg] using this
    · simp only [hg, if_false] at h
      by_cases hg2 : s.surfaceState = State.Minimized ∨ s.surfaceState = State.Fullscreen
      · simp [hg2] at h
        subst h
        rcases hg2 with hg2 | hg2 <;> simp [hg2, FlipOutcome]
      · simp only [hg2, if_false] at h
        have := setSurfaceState_outcome env State.Maximized s s1 h
        push_neg at hg2
        simpa [hg, hg2] using this
  | requestFullscreen =>
    simp only [step, requestFullscreen] at h
    simp only [flipTarget]
    by_cases hg : s.surfaceState = State.Minimized
    · simp [hg] at h
      subst h
      simp [hg, FlipOutcome]
    · simp only [hg, if_false] at h
      have := setSurfaceState_outcome env State.Fullscreen s s1 h
      simpa [hg] using this
  | requestCancelFullscreen =>
    simp only [step, requestCancelFullscreen] at h
    simp only [flipTarget]
    by_cases hg : s.surfaceState = State.Fullscreen
    · simp only [hg, ne_eq, not_true_eq_false, if_false] at h
      have := setSurfaceState_outcome env s.previousSurfaceState s s1 h
      simpa [hg] using this
    · simp [hg] at h
      subst h
      simp [hg, FlipOutcome]
  | setNormalGeometry r =>
    simp only [step, Option.some.injEq] at h
    subst h
    simp only [flipTarget, FlipOutcome, setNormalGeometry_eq]
    split_ifs <;> simp
  | moveNormalGeometryInOutput p =>
    simp only [step, Option.some.injEq] at h
    subst h
    simp [flipTarget, FlipOutcome, moveNormalGeometryInOutput_states]
  | setMaximizedGeometry r =>
    simp only [step, Option.some.injEq] at h
    subst h
    simp [flipTarget, FlipOutcome, geometrySetters_states]
  | setFullscreenGeometry r =>
    simp only [step, Option.some.injEq] at h
    subst h
    simp [flipTarget, FlipOutcome, geometrySetters_states]
  | setTilingGeometry r =>
    simp only [step, Option.some.injEq] at h
    subst h
    simp [flipTarget, FlipOutcome, geometrySetters_states]
  | setPosition p =>
    simp only [step, Option.some.injEq] at h
    subst h
    simp [flipTarget, FlipOutcome, setPosition_fields]
  | updateHasActiveCapability f v =>
    simp only [step, Option.some.injEq] at h
    subst h
    simp [flipTarget, FlipOutcome, updateHasActiveCapability_fields]
  | setContainer c =>
    simp only [step, Option.some.injEq] at h
    subst h
    simp [flipTarget, FlipOutcome, setContainer_fields]
  | processDeferredDelete =>
    simp only [step, Option.some.injEq] at h
    subst h
    simp [flipTarget, FlipOutcome, processDeferredDelete]

theorem step_none (env : Env) (op : Op) (s : Surface) (h : step env op s = none) :
    s.container = none ∨ s.geometryAnimation = none ∨ s.minimizeAnimation = none := by
  cases op <;> simp only [step, reduceCtorEq] at h
  case setSurfaceState t => exact Or.inl (setSurfaceState_none env t s h)
  case onAnimationReady =>
    unfold onAnimationReady at h
    simp only [resize_fields] at h
    cases ha : s.geometryAnimation with
    | none => exact Or.inr (Or.inl rfl)
    | some a =>
      split_ifs at h
      simp [ha] at h
  case onAnimationFinished =>
    unfold onAnimationFinished at h
    cases ha : s.geometryAnimation with
    | none => exact Or.inr (Or.inl rfl)
    | some a => simp [ha] at h
  case onMinimizeAnimationFinished =>
    unfold onMinimizeAnimationFinished at h
    cases ha : s.minimizeAnimation with
    | none => exact Or.inr (Or.inr rfl)
    | some a => simp [ha] at h
  case requestMinimize =>
    simp only [requestMinimize, Option.map_eq_none'] at h
    exact Or.inl (setSurfaceState_none env _ s h)
  case requestMaximize =>
    unfold requestMaximize at h
    split_ifs at h
    exact Or.inl (setSurfaceState_none env _ s h)
  case requestCancelMaximize =>
    unfold requestCancelMaximize at h
    split_ifs at h
    exact Or.inl (setSurfaceState_none env _ s h)
  case requestToggleMaximize =>
    unfold requestToggleMaximize requestCancelMaximize requestMaximize at h
    split_ifs at h <;> exact Or.inl (setSurfaceState_none env _ s h)
  case requestFullscreen =>
    unfold requestFullscreen at h
    split_ifs at h
    exact Or.inl (setSurfaceState_none env _ s h)
  case requestCancelFullscreen =>
    unfold requestCancelFullscreen at h
    split_ifs at h
    exact Or.inl (setSurfaceState_none env _ s h)

theorem onAnimationReady_accepted (env : Env) (s : Surface)
    (hr : env.resizeSurface s s.pendingGeometry.size = true) :
    ∃ s2, onAnimationReady env s = some s2 ∧ s2.surfaceState = s.pendingState ∧
      s2.previousSurfaceState = s.surfaceState := by
  refine ⟨doSetSurfaceState s.pendingState
    (setPosition env s.pendingGeometry.topLeft (resize env s.pendingGeometry.size s).2), ?_, ?_⟩
  · unfold onAnimationReady
    simp [resize_fields, hr]
  · simp [doSetSurfaceState_states, setPosition_fields, resize_fields]

theorem setSurfaceState_cases (env : Env) (t : State) (s s1 : Surface)
    (h : setSurfaceState env t s = some s1) :
    (s1 = s ∧ (s.geometryAnimation.isSome = true ∨ s.surfaceState = t ∨
      env.filterSurfaceStateChange s t s.surfaceState = true)) ∨
    (s.geometryAnimation = none ∧ (targetGeometryFor t s).isValid = true ∧
      s1 = (startStateChangeAnimation t (targetGeometryFor t s) s).2) ∨
    s1 = doSetSurfaceState t s := by
  unfold setSurfaceState at h
  by_cases ha : s.geometryAnimation.isSome = true
  · simp [ha] at h
    exact Or.inl ⟨h.symm, Or.inl ha⟩
  · by_cases hs : s.surfaceState = t
    · simp [ha, hs] at h
      exact Or.inl ⟨h.symm, Or.inr (Or.inl hs)⟩
    · cases hc : s.container with
      | none => simp [ha, hs, hc] at h
      | some c =>
        by_cases hf : env.filterSurfaceStateChange s t s.surfaceState = true
        · simp [ha, hs, hc, hf] at h
          exact Or.inl ⟨h.symm, Or.inr (Or.inr hf)⟩
        · by_cases hv : (targetGeometryFor t s).isValid = true
          · simp [ha, hs, hc, hf, hv] at h
            refine Or.inr (Or.inl ⟨?_, hv, h.symm⟩)
            simpa using ha
          · simp [ha, hs, hc, hf, hv] at h
            exact Or.inr (Or.inr h.symm)

theorem onAnimationReady_cases (env : Env) (s s1 : Surface)
    (h : onAnimationReady env s = some s1) :
    s1 = geometryAnimationDeleteLater (resize env s.pendingGeometry.size s).2 ∨
    s1 = doSetSurfaceState s.pendingState
      (setPosition env s.pendingGeometry.topLeft (resize env s.pendingGeometry.size s).2) := by
  unfold onAnimationReady at h
  simp only [] at h
  by_cases hr : (resize env s.pendingGeometry.size s).1 = true
  · rw [hr] at h
    simp only [Bool.not_true, Bool.false_eq_true, if_false, Option.some.injEq] at h
    exact Or.inr h.symm
  · rw [Bool.not_eq_true] at hr
    rw [hr] at h
    simp only [Bool.not_false, if_true] at h
    split at h
    · exact absurd h (by simp)
    · simp only [Option.some.injEq] at h
      exact Or.inl h.symm

theorem setSurfaceState_passes (env : Env) (t : State) (s : Surface)
    (hanim : s.geometryAnimation = none) (hne : s.surfaceState ≠ t)
    (hc : s.container.isSome = true)
    (hveto : env.filterSurfaceStateChange s t s.surfaceState = false) :
    ∃ s1, setSurfaceState env t s = some s1 ∧
      (s1.surfaceState = t ∨
        (s1.surfaceState = s.surfaceState ∧ s1.pendingState = t ∧
          s1.geometryAnimation.isSome = true)) := by
  obtain ⟨c, hcc⟩ := Option.isSome_iff_exists.mp hc
  by_cases hv : (targetGeometryFor t s).isValid = true
  · refine ⟨(startStateChangeAnimation t (targetGeometryFor t s) s).2, ?_, Or.inr ?_⟩
    · unfold setSurfaceState
      simp [hanim, hne, hcc, hveto, hv]
    · simp [startStateChangeAnimation, hanim]
  · refine ⟨doSetSurfaceState t s, ?_, Or.inl (doSetSurfaceState_states t s).1⟩
    unfold setSurfaceState
    simp [hanim, hne, hcc, hveto, hv]

theorem doSetSurfaceState_fields (t : State) (s : Surface) :
    (doSetSurfaceState t s).pendingState = s.pendingState ∧
    (doSetSurfaceState t s).pendingGeometry = s.pendingGeometry ∧
    (doSetSurfaceState t s).normalGeometry = s.normalGeometry ∧
    (doSetSurfaceState t s).maximizedGeometry = s.maximizedGeometry ∧
    (doSetSurfaceState t s).fullscreenGeometry = s.fullscreenGeometry ∧
    (doSetSurfaceState t s).tilingGeometry = s.tilingGeometry ∧
    (doSetSurfaceState t s).iconGeometry = s.iconGeometry ∧
    (doSetSurfaceState t s).position = s.position ∧
    (doSetSurfaceState t s).size = s.size ∧
    (doSetSurfaceState t s).geometryAnimation = s.geometryAnimation ∧
    (doSetSurfaceState t s).minimizeAnimation = s.minimizeAnimation ∧
    (doSetSurfaceState t s).container = s.container ∧
    (doSetSurfaceState t s).mapped = s.mapped := by
  unfold doSetSurfaceState updateVisible enterState leaveState recordFlip
  simp only [updateTitleBar_eq, setNoCornerRadius_eq, setVisibleDecoration_eq]
  cases t <;> cases hs : s.surfaceState <;>
    simp [hs, updateHasActiveCapability_eq, shellSetMaximize, shellSetMinimize,
      shellSetFullScreen]

theorem activationSignals_not_start (a b : Bool) (e : Effect)
    (he : e ∈ activationSignals a b) :
    e.isStartGeometryAnimation = false ∧ e.isShellSetter = false := by
  unfold activationSignals at he
  split_ifs at he <;> simp at he <;> subst he <;> decide

theorem LogExtends.of_log_eq {P : Effect → Prop} {s s1 : Surface} (h : s1.log = s.log) :
    LogExtends P s s1 :=
  ⟨[], by simp [h], by simp⟩

theorem LogExtends.of_append {P : Effect → Prop} {s s1 : Surface} (l : List Effect)
    (h : s1.log = s.log ++ l) (hl : ∀ e ∈ l, P e) : LogExtends P s s1 :=
  ⟨l, h, hl⟩

theorem LogExtends.trans {P : Effect → Prop} {s s1 s2 : Surface}
    (h1 : LogExtends P s s1) (h2 : LogExtends P s1 s2) : LogExtends P s s2 := by
  obtain ⟨l1, e1, p1⟩ := h1
  obtain ⟨l2, e2, p2⟩ := h2
  refine ⟨l1 ++ l2, by rw [e2, e1, List.append_assoc], ?_⟩
  intro e he
  rcases List.mem_append.mp he with he | he
  · exact p1 e he
  · exact p2 e he

theorem leaveState_log (s : Surface) :
    LogExtends (fun e => e.isStartGeometryAnimation = false) s (leaveState s) := by
  unfold leaveState
  split
  · exact LogExtends.of_append [Effect.shellSetMaximize false] (by simp [shellSetMaximize])
      (by simp [Effect.isStartGeometryAnimation])
  · refine LogExtends.of_append (Effect.shellSetMinimize false :: activationSignals _ _)
      (by simp [updateHasActiveCapability_eq, shellSetMinimize]; rfl) ?_
    intro e he
    rcases List.mem_cons.mp he with he | he
    · subst he; rfl
    · exact (activationSignals_not_start _ _ e he).1
  · exact LogExtends.of_append [Effect.shellSetFullScreen false] (by simp [shellSetFullScreen])
      (by simp [Effect.isStartGeometryAnimation])
  · exact LogExtends.of_log_eq rfl
  · exact LogExtends.of_log_eq rfl

theorem enterState_log (s : Surface) :
    LogExtends (fun e => e.isStartGeometryAnimation = false) s (enterState s) := by
  unfold enterState
  split
  · exact LogExtends.of_append [Effect.shellSetMaximize true] (by simp [shellSetMaximize])
      (by simp [Effect.isStartGeometryAnimation])
  · refine LogExtends.of_append (Effect.shellSetMinimize true :: activationSignals _ _)
      (by simp [updateHasActiveCapability_eq, shellSetMinimize]; rfl) ?_
    intro e he
    rcases List.mem_cons.mp he with he | he
    · subst he; rfl
    · exact (activationSignals_not_start _ _ e he).1
  · exact LogExtends.of_append [Effect.shellSetFullScreen true] (by simp [shellSetFullScreen])
      (by simp [Effect.isStartGeometryAnimation])
  · exact LogExtends.of_log_eq rfl
  · exact LogExtends.of_log_eq rfl

theorem doSetSurfaceState_log (t : State) (s : Surface) :
    LogExtends (fun e => e.isStartGeometryAnimation = false) s (doSetSurfaceState t s) := by
  unfold doSetSurfaceState
  simp only []
  have h1 : (recordFlip t (setNoCornerRadius (t != State.Normal)
      (setVisibleDecoration (t == State.Normal) s))).log = s.log := by
    simp [recordFlip, setNoCornerRadius_eq, setVisibleDecoration_eq]
  have h2 := leaveState_log (recordFlip t (setNoCornerRadius (t != State.Normal)
      (setVisibleDecoration (t == State.Normal) s)))
  have h3 := enterState_log (leaveState (recordFlip t (setNoCornerRadius (t != State.Normal)
      (setVisibleDecoration (t == State.Normal) s))))
  have h4 : ∀ x : Surface, (updateVisible (updateTitleBar x)).log = x.log := by
    intro x
    simp [updateVisible, updateTitleBar_eq]
  exact ((LogExtends.of_log_eq h1).trans (h2.trans h3)).trans (LogExtends.of_log_eq (h4 _))

theorem doSetSurfaceState_unMinimized (t : State) (s : Surface) :
    (doSetSurfaceState t s).hasActiveCapability.unMinimized =
      if t = State.Minimized then false
      else if s.surfaceState = State.Minimized then true
      else s.hasActiveCapability.unMinimized := by
  unfold doSetSurfaceState updateVisible enterState leaveState recordFlip
  simp only [updateTitleBar_eq, setNoCornerRadius_eq, setVisibleDecoration_eq]
  cases t <;> cases hs : s.surfaceState <;>
    simp [updateHasActiveCapability_eq, shellSetMaximize, shellSetMinimize,
      shellSetFullScreen, ActiveControlStates.setFlag]

/-! ## Lemmas on the hierarchy -/

theorem SameUpToElevation.refl (sc : Scene) : SameUpToElevation sc sc :=
  ⟨rfl, rfl, rfl, fun _ => ⟨rfl, rfl, rfl, rfl, rfl⟩⟩

theorem SameUpToElevation.andThen {a b c : Scene} (h1 : SameUpToElevation a b)
    (h2 : SameUpToElevation b c) : SameUpToElevation a c := by
  obtain ⟨p1, c1, l1, w1⟩ := h1
  obtain ⟨p2, c2, l2, w2⟩ := h2
  refine ⟨p2.trans p1, c2.trans c1, l2.trans l1, fun x => ?_⟩
  obtain ⟨a1, a2, a3, a4, a5⟩ := w1 x
  obtain ⟨b1, b2, b3, b4, b5⟩ := w2 x
  exact ⟨b1.trans a1, b2.trans a2, b3.trans a3, b4.trans a4, b5.trans a5⟩

theorem setElevation_sameUpToElevation (sc : Scene) (x : SurfaceId) (e zv : Int) :
    SameUpToElevation sc
      (sc.setWrapper x { sc.wrappers x with explicitAlwaysOnTop := e, z := zv }) := by
  refine ⟨rfl, rfl, rfl, fun y => ?_⟩
  by_cases hy : y = x
  · subst hy
    simp [Scene.setWrapper]
  · simp [Scene.setWrapper, Function.update_noteq hy]

theorem foldlM_option_rel {R : Scene → Scene → Prop} (hrefl : ∀ a, R a a)
    (htrans : ∀ a b c, R a b → R b c → R a c) (f : Scene → SurfaceId → Option Scene)
    (hf : ∀ a c b, f a c = some b → R a b) :
    ∀ (subs : List SurfaceId) (start out : Scene),
      subs.foldlM f start = some out → R start out := by
  intro subs
  induction subs with
  | nil =>
    intro start out h
    simp only [List.foldlM_nil, pure, Option.some.injEq] at h
    subst h
    exact hrefl start
  | cons c cs ihc =>
    intro start out h
    simp only [List.foldlM_cons, bind, Option.bind_eq_some] at h
    obtain ⟨mid, hmid, hrest⟩ := h
    exact htrans _ _ _ (hf start c mid hmid) (ihc mid out hrest)

theorem updateExplicitAlwaysOnTop_sameUpToElevation (fuel : Nat) :
    ∀ (x : SurfaceId) (sc sc1 : Scene),
      updateExplicitAlwaysOnTop fuel x sc = some sc1 → SameUpToElevation sc sc1 := by
  induction fuel with
  | zero =>
    intro x sc sc1 h
    simp [updateExplicitAlwaysOnTop] at h
  | succ fuel ih =>
    intro x sc sc1 h
    rw [updateExplicitAlwaysOnTop] at h
    by_cases heq : (sc.wrappers x).explicitAlwaysOnTop = newExplicitAlwaysOnTop sc x
    · rw [if_pos heq] at h
      simp only [Option.some.injEq] at h
      subst h
      exact SameUpToElevation.refl sc
    · rw [if_neg heq] at h
      exact (setElevation_sameUpToElevation sc x _ _).andThen
        (foldlM_option_rel SameUpToElevation.refl (fun _ _ _ => SameUpToElevation.andThen)
          (fun acc sub => updateExplicitAlwaysOnTop fuel sub acc)
          (fun a c b hab => ih c a b hab) _ _ _ h)

theorem Ranked.of_same {sc sc1 : Scene} {rank : SurfaceId → Nat}
    (h : SameUpToElevation sc sc1) (hr : Ranked sc rank) : Ranked sc1 rank := by
  intro p c hc
  rw [(h.2.2.2 p).2.2.1] at hc
  exact hr p c hc

theorem updateExplicitAlwaysOnTop_terminates (rank : SurfaceId → Nat) (fuel : Nat) :
    ∀ (x : SurfaceId) (sc : Scene), Ranked sc rank → rank x < fuel →
      ∃ sc1, updateExplicitAlwaysOnTop fuel x sc = some sc1 := by
  induction fuel with
  | zero =>
    intro x sc _ hx
    exact absurd hx (Nat.not_lt_zero _)
  | succ fuel ih =>
    intro x sc hr hx
    rw [updateExplicitAlwaysOnTop]
    by_cases heq : (sc.wrappers x).explicitAlwaysOnTop = newExplicitAlwaysOnTop sc x
    · rw [if_pos heq]
      exact ⟨sc, rfl⟩
    · rw [if_neg heq]
      have hsub : ∀ c ∈ (sc.wrappers x).subSurfaces, rank c < fuel := by
        intro c hc
        exact Nat.lt_of_lt_of_le (hr x c hc) (Nat.le_of_lt_succ hx)
      have hstart : Ranked
          (sc.setWrapper x
            { sc.wrappers x with
              explicitAlwaysOnTop := newExplicitAlwaysOnTop sc x,
              z := if newExplicitAlwaysOnTop sc x ≠ 0 then ALWAYSONTOPLAYER else 0 }) rank :=
        Ranked.of_same (setElevation_sameUpToElevation sc x _ _) hr
      revert hstart hsub
      generalize sc.setWrapper x _ = start
      generalize (sc.wrappers x).subSurfaces = subs
      intro hsub hstart
      induction subs generalizing start with
      | nil => exact ⟨start, rfl⟩
      | cons c cs ihc =>
        obtain ⟨mid, hmid⟩ := ih c start hstart (hsub c (List.mem_cons_self c cs))
        obtain ⟨out, hout⟩ := ihc mid (fun d hd => hsub d (List.mem_cons_of_mem c hd))
          (Ranked.of_same (updateExplicitAlwaysOnTop_sameUpToElevation fuel c start mid hmid)
            hstart)
        refine ⟨out, ?_⟩
        simp only [List.foldlM_cons, bind, Option.bind_eq_some]
        exact ⟨mid, hmid, hout⟩

theorem Ranked.of_subSurfaces_eq {sc sc1 : Scene} {rank : SurfaceId → Nat}
    (h : ∀ x, (sc1.wrappers x).subSurfaces = (sc.wrappers x).subSurfaces)
    (hr : Ranked sc rank) : Ranked sc1 rank := by
  intro p c hc
  rw [h p] at hc
  exact hr p c hc

theorem setParentSurface_fields (sc : Scene) (c : SurfaceId) (v : Option SurfaceId)
    (x : SurfaceId) :
    ((sc.setWrapper c { sc.wrappers c with parentSurface := v }).wrappers x).parentSurface =
        (if x = c then v else (sc.wrappers x).parentSurface) ∧
    ((sc.setWrapper c { sc.wrappers c with parentSurface := v }).wrappers x).subSurfaces =
        (sc.wrappers x).subSurfaces ∧
    ((sc.setWrapper c { sc.wrappers c with parentSurface := v }).wrappers x).core =
        (sc.wrappers x).core ∧
    ((sc.setWrapper c { sc.wrappers c with parentSurface := v }).wrappers x).alwaysOnTop =
        (sc.wrappers x).alwaysOnTop ∧
    ((sc.setWrapper c
        { sc.wrappers c with parentSurface := v }).wrappers x).explicitAlwaysOnTop =
        (sc.wrappers x).explicitAlwaysOnTop := by
  by_cases hx : x = c
  · subst hx
    simp [Scene.setWrapper]
  · simp [Scene.setWrapper, Function.update_noteq hx, hx]

theorem setSubSurfaces_fields (sc : Scene) (p : SurfaceId) (l : List SurfaceId)
    (x : SurfaceId) :
    ((sc.setWrapper p { sc.wrappers p with subSurfaces := l }).wrappers x).parentSurface =
        (sc.wrappers x).parentSurface ∧
    ((sc.setWrapper p { sc.wrappers p with subSurfaces := l }).wrappers x).subSurfaces =
        (if x = p then l else (sc.wrappers x).subSurfaces) ∧
    ((sc.setWrapper p { sc.wrappers p with subSurfaces := l }).wrappers x).core =
        (sc.wrappers x).core ∧
    ((sc.setWrapper p { sc.wrappers p with subSurfaces := l }).wrappers x).alwaysOnTop =
        (sc.wrappers x).alwaysOnTop ∧
    ((sc.setWrapper p
        { sc.wrappers p with subSurfaces := l }).wrappers x).explicitAlwaysOnTop =
        (sc.wrappers x).explicitAlwaysOnTop := by
  by_cases hx : x = p
  · subst hx
    simp [Scene.setWrapper]
  · simp [Scene.setWrapper, Function.update_noteq hx, hx]

theorem addSubSurface_links (fuel : Nat) (self surface : SurfaceId) (sc sc1 : Scene)
    (h : addSubSurface fuel self surface sc = some sc1) :
    (∀ x, (sc1.wrappers x).parentSurface =
      if x = surface then some self else (sc.wrappers x).parentSurface) ∧
    (∀ x, (sc1.wrappers x).subSurfaces =
      if x = self then (sc.wrappers self).subSurfaces ++ [surface]
      else (sc.wrappers x).subSurfaces) ∧
    (∀ x, (sc1.wrappers x).core = (sc.wrappers x).core ∧
      (sc1.wrappers x).alwaysOnTop = (sc.wrappers x).alwaysOnTop) ∧
    sc1.parentItem = sc.parentItem ∧ sc1.childItems = sc.childItems ∧ sc1.log = sc.log := by
  unfold addSubSurface at h
  simp only [] at h
  split at h
  · exact absurd h (by simp)
  · rename_i sc2 hup
    simp only [Option.some.injEq] at h
    subst h
    have hs := updateExplicitAlwaysOnTop_sameUpToElevation fuel surface _ sc2 hup
    refine ⟨fun x => ?_, fun x => ?_, fun x => ⟨?_, ?_⟩, ?_, ?_, ?_⟩
    · rw [(setSubSurfaces_fields sc2 self _ x).1, (hs.2.2.2 x).2.1,
        (setParentSurface_fields sc surface _ x).1]
    · rw [(setSubSurfaces_fields sc2 self _ x).2.1]
      by_cases hx : x = self
      · subst hx
        rw [if_pos rfl, if_pos rfl, (hs.2.2.2 x).2.2.1, (setParentSurface_fields sc surface _ x).2.1]
      · rw [if_neg hx, if_neg hx, (hs.2.2.2 x).2.2.1,
          (setParentSurface_fields sc surface _ x).2.1]
    · rw [(setSubSurfaces_fields sc2 self _ x).2.2.1, (hs.2.2.2 x).1,
        (setParentSurface_fields sc surface _ x).2.2.1]
    · rw [(setSubSurfaces_fields sc2 self _ x).2.2.2.1, (hs.2.2.2 x).2.2.2.1,
        (setParentSurface_fields sc surface _ x).2.2.2.1]
    · exact hs.1
    · exact hs.2.1
    · exact hs.2.2.1

theorem removeSubSurface_links (fuel : Nat) (self surface : SurfaceId) (sc sc1 : Scene)
    (h : removeSubSurface fuel self surface sc = some sc1) :
    (∀ x, (sc1.wrappers x).parentSurface =
      if x = surface then none else (sc.wrappers x).parentSurface) ∧
    (∀ x, (sc1.wrappers x).subSurfaces =
      if x = self then (sc.wrappers self).subSurfaces.erase surface
      else (sc.wrappers x).subSurfaces) ∧
    (∀ x, (sc1.wrappers x).core = (sc.wrappers x).core ∧
      (sc1.wrappers x).alwaysOnTop = (sc.wrappers x).alwaysOnTop) ∧
    sc1.parentItem = sc.parentItem ∧ sc1.childItems = sc.childItems ∧ sc1.log = sc.log := by
  unfold removeSubSurface at h
  simp only [] at h
  split at h
  · exact absurd h (by simp)
  · rename_i sc2 hup
    simp only [Option.some.injEq] at h
    subst h
    have hs := updateExplicitAlwaysOnTop_sameUpToElevation fuel surface _ sc2 hup
    refine ⟨fun x => ?_, fun x => ?_, fun x => ⟨?_, ?_⟩, ?_, ?_, ?_⟩
    · rw [(setSubSurfaces_fields sc2 self _ x).1, (hs.2.2.2 x).2.1,
        (setParentSurface_fields sc surface _ x).1]
    · rw [(setSubSurfaces_fields sc2 self _ x).2.1]
      by_cases hx : x = self
      · subst hx
        rw [if_pos rfl, if_pos rfl, (hs.2.2.2 x).2.2.1, (setParentSurface_fields sc surface _ x).2.1]
      · rw [if_neg hx, if_neg hx, (hs.2.2.2 x).2.2.1,
          (setParentSurface_fields sc surface _ x).2.1]
    · rw [(setSubSurfaces_fields sc2 self _ x).2.2.1, (hs.2.2.2 x).1,
        (setParentSurface_fields sc surface _ x).2.2.1]
    · rw [(setSubSurfaces_fields sc2 self _ x).2.2.2.1, (hs.2.2.2 x).2.2.2.1,
        (setParentSurface_fields sc surface _ x).2.2.2.1]
    · exact hs.1
    · exact hs.2.1
    · exact hs.2.2.1

theorem addSubSurface_terminates (rank : SurfaceId → Nat) (fuel : Nat)
    (self surface : SurfaceId) (sc : Scene) (hr : Ranked sc rank) (hf : rank surface < fuel) :
    ∃ sc1, addSubSurface fuel self surface sc = some sc1 := by
  unfold addSubSurface
  obtain ⟨sc2, h2⟩ := updateExplicitAlwaysOnTop_terminates rank fuel surface
    (sc.setWrapper surface { sc.wrappers surface with parentSurface := some self })
    (Ranked.of_subSurfaces_eq (fun x => (setParentSurface_fields sc surface _ x).2.1) hr) hf
  simp only [h2]
  exact ⟨_, rfl⟩

theorem removeSubSurface_terminates (rank : SurfaceId → Nat) (fuel : Nat)
    (self surface : SurfaceId) (sc : Scene) (hr : Ranked sc rank) (hf : rank surface < fuel) :
    ∃ sc1, removeSubSurface fuel self surface sc = some sc1 := by
  unfold removeSubSurface
  obtain ⟨sc2, h2⟩ := updateExplicitAlwaysOnTop_terminates rank fuel surface
    (sc.setWrapper surface { sc.wrappers surface with parentSurface := none })
    (Ranked.of_subSurfaces_eq (fun x => (setParentSurface_fields sc surface _ x).2.1) hr) hf
  simp only [h2]
  exact ⟨_, rfl⟩

theorem isAncestor_depth {sc : Scene} (depth : SurfaceId → Nat)
    (hd : ∀ c p, IsParentOf sc c p → depth p < depth c) :
    ∀ a x, IsAncestor sc a x → depth a < depth x := by
  intro a x h
  unfold IsAncestor at h
  induction h with
  | single h1 => exact hd _ _ h1
  | tail _ h2 ih => exact Nat.lt_trans (hd _ _ h2) ih

theorem acyclic_of_depth {sc : Scene} (depth : SurfaceId → Nat)
    (hd : ∀ c p, IsParentOf sc c p → depth p < depth c) : Acyclic sc :=
  fun x h => Nat.lt_irrefl _ (isAncestor_depth depth hd x x h)

/-- A path over the parent pointers after the pointer of `s` was set to `t`
either is a path of the old pointers, or leads to `s` and leaves from `t` over
old pointers. -/
theorem transGen_redirect {R R1 : SurfaceId → SurfaceId → Prop} {s t : SurfaceId}
    (hR : ∀ c p, R1 c p → (c = s ∧ p = t) ∨ R c p) :
    ∀ x y, Relation.TransGen R1 x y →
      Relation.TransGen R x y ∨
        (Relation.ReflTransGen R x s ∧ Relation.ReflTransGen R t y) := by
  intro x y h
  induction h with
  | single h1 =>
    rcases hR _ _ h1 with ⟨hc, hp⟩ | hold
    · subst hc; subst hp
      exact Or.inr ⟨Relation.ReflTransGen.refl, Relation.ReflTransGen.refl⟩
    · exact Or.inl (Relation.TransGen.single hold)
  | tail _ h2 ih =>
    rcases hR _ _ h2 with ⟨hc, hp⟩ | hold
    · subst hc; subst hp
      rcases ih with ih | ⟨ih1, _⟩
      · exact Or.inr ⟨ih.to_reflTransGen, Relation.ReflTransGen.refl⟩
      · exact Or.inr ⟨ih1, Relation.ReflTransGen.refl⟩
    · rcases ih with ih | ⟨ih1, ih2⟩
      · exact Or.inl (ih.tail hold)
      · exact Or.inr ⟨ih1, ih2.tail hold⟩

theorem pairScene_parent (c p : SurfaceId) (h : IsParentOf pairScene c p) : c = 1 ∧ p = 0 := by
  unfold IsParentOf pairScene sceneOf at h
  match c with
  | 0 => simp at h
  | 1 =>
    simp at h
    exact ⟨rfl, h.symm⟩
  | _ + 2 => simp at h

theorem adoptionScene_parent (c p : SurfaceId) (h : IsParentOf adoptionScene c p) :
    c = 2 ∧ p = 0 := by
  unfold IsParentOf adoptionScene sceneOf at h
  match c with
  | 0 => simp at h
  | 1 => simp at h
  | 2 =>
    simp at h
    exact ⟨rfl, h.symm⟩
  | _ + 3 => simp at h

theorem detachSubSurfaces_fields (subs : List SurfaceId) :
    ∀ sc : Scene,
      (detachSubSurfaces subs sc).parentItem = sc.parentItem ∧
      (detachSubSurfaces subs sc).childItems = sc.childItems ∧
      (detachSubSurfaces subs sc).log = sc.log ∧
      ∀ x, ((detachSubSurfaces subs sc).wrappers x).parentSurface =
          (if x ∈ subs then none else (sc.wrappers x).parentSurface) ∧
        ((detachSubSurfaces subs sc).wrappers x).subSurfaces = (sc.wrappers x).subSurfaces ∧
        ((detachSubSurfaces subs sc).wrappers x).core = (sc.wrappers x).core ∧
        ((detachSubSurfaces subs sc).wrappers x).ownsOutput = (sc.wrappers x).ownsOutput := by
  induction subs with
  | nil =>
    intro sc
    simp [detachSubSurfaces]
  | cons c cs ih =>
    intro sc
    have h := ih (sc.setWrapper c { sc.wrappers c with parentSurface := none })
    have hunf : detachSubSurfaces (c :: cs) sc =
        detachSubSurfaces cs (sc.setWrapper c { sc.wrappers c with parentSurface := none }) := rfl
    rw [hunf]
    refine ⟨h.1, h.2.1, h.2.2.1, fun x => ?_⟩
    obtain ⟨h1, h2, h3, h4⟩ := h.2.2.2 x
    refine ⟨?_, ?_, ?_, ?_⟩
    · rw [h1, (setParentSurface_fields sc c none x).1]
      by_cases hx : x = c
      · subst hx
        simp
      · by_cases hm : x ∈ cs
        · simp [hm]
        · simp [hm, hx]
    · rw [h2, (setParentSurface_fields sc c none x).2.1]
    · rw [h3, (setParentSurface_fields sc c none x).2.2.1]
    · rw [h4]
      by_cases hx : x = c
      · subst hx
        simp [Scene.setWrapper]
      · simp [Scene.setWrapper, Function.update_noteq hx]

theorem setWrapper_self (sc : Scene) (id : SurfaceId) (w : Wrapper) :
    (sc.setWrapper id w).wrappers id = w := by
  simp [Scene.setWrapper]

theorem setWrapper_other (sc : Scene) (id : SurfaceId) (w : Wrapper) (x : SurfaceId)
    (hx : x ≠ id) : (sc.setWrapper id w).wrappers x = sc.wrappers x := by
  simp [Scene.setWrapper, Function.update_noteq hx]

@[simp] theorem setWrapper_log (sc : Scene) (id : SurfaceId) (w : Wrapper) :
    (sc.setWrapper id w).log = sc.log := rfl

@[simp] theorem setWrapper_parentItem (sc : Scene) (id : SurfaceId) (w : Wrapper) :
    (sc.setWrapper id w).parentItem = sc.parentItem := rfl

@[simp] theorem setWrapper_childItems (sc : Scene) (id : SurfaceId) (w : Wrapper) :
    (sc.setWrapper id w).childItems = sc.childItems := rfl

theorem releaseFromOutputAndContainer_fields (self : SurfaceId) (sc : Scene) :
    (releaseFromOutputAndContainer self sc).parentItem = sc.parentItem ∧
    (releaseFromOutputAndContainer self sc).childItems = sc.childItems ∧
    (releaseFromOutputAndContainer self sc).log =
      sc.log ++
        (match (sc.wrappers self).ownsOutput with
          | some o => [SceneEffect.outputRemoveSurface o self]
          | none => []) ++
        (match (sc.wrappers self).core.container with
          | some c => [SceneEffect.containerRemoveSurface c self]
          | none => []) ∧
    ((releaseFromOutputAndContainer self sc).wrappers self).ownsOutput = none ∧
    ((releaseFromOutputAndContainer self sc).wrappers self).core.container = none ∧
    ((releaseFromOutputAndContainer self sc).wrappers self).core.destroyed =
      (sc.wrappers self).core.destroyed ∧
    (∀ x, x ≠ self →
      (releaseFromOutputAndContainer self sc).wrappers x = sc.wrappers x) ∧
    ∀ x, ((releaseFromOutputAndContainer self sc).wrappers x).parentSurface =
        (sc.wrappers x).parentSurface ∧
      ((releaseFromOutputAndContainer self sc).wrappers x).subSurfaces =
        (sc.wrappers x).subSurfaces ∧
      ((releaseFromOutputAndContainer self sc).wrappers x).alwaysOnTop =
        (sc.wrappers x).alwaysOnTop ∧
      ((releaseFromOutputAndContainer self sc).wrappers x).explicitAlwaysOnTop =
        (sc.wrappers x).explicitAlwaysOnTop := by
  have hall : ∀ x, x ≠ self →
      (releaseFromOutputAndContainer self sc).wrappers x = sc.wrappers x := by
    intro x hx
    unfold releaseFromOutputAndContainer
    cases ho : (sc.wrappers self).ownsOutput <;>
      cases hc : (sc.wrappers self).core.container <;>
      simp [setWrapper_self, setWrapper_other _ _ _ _ hx, ho, hc]
  have hself : ((releaseFromOutputAndContainer self sc).wrappers self).ownsOutput = none ∧
      ((releaseFromOutputAndContainer self sc).wrappers self).core.container = none ∧
      ((releaseFromOutputAndContainer self sc).wrappers self).core.destroyed =
        (sc.wrappers self).core.destroyed ∧
      ((releaseFromOutputAndContainer self sc).wrappers self).parentSurface =
        (sc.wrappers self).parentSurface ∧
      ((releaseFromOutputAndContainer self sc).wrappers self).subSurfaces =
        (sc.wrappers self).subSurfaces ∧
      ((releaseFromOutputAndContainer self sc).wrappers self).alwaysOnTop =
        (sc.wrappers self).alwaysOnTop ∧
      ((releaseFromOutputAndContainer self sc).wrappers self).explicitAlwaysOnTop =
        (sc.wrappers self).explicitAlwaysOnTop := by
    unfold releaseFromOutputAndContainer
    cases ho : (sc.wrappers self).ownsOutput <;>
      cases hc : (sc.wrappers self).core.container <;>
      simp [setWrapper_self, ho, hc]
  refine ⟨?_, ?_, ?_, hself.1, hself.2.1, hself.2.2.1, hall, fun x => ?_⟩
  · unfold releaseFromOutputAndContainer
    cases ho : (sc.wrappers self).ownsOutput <;>
      cases hc : (sc.wrappers self).core.container <;>
      simp [setWrapper_self, ho, hc]
  · unfold releaseFromOutputAndContainer
    cases ho : (sc.wrappers self).ownsOutput <;>
      cases hc : (sc.wrappers self).core.container <;>
      simp [setWrapper_self, ho, hc]
  · unfold releaseFromOutputAndContainer
    cases ho : (sc.wrappers self).ownsOutput <;>
      cases hc : (sc.wrappers self).core.container <;>
      simp [setWrapper_self, ho, hc]
  · by_cases hx : x = self
    · subst hx
      exact hself.2.2.2
    · rw [hall x hx]
      exact ⟨rfl, rfl, rfl, rfl⟩

theorem markDestroyed_fields (sc : Scene) (self x : SurfaceId) :
    ((sc.setWrapper self
        { sc.wrappers self with
          core := { (sc.wrappers self).core with destroyed := true } }).wrappers x).parentSurface =
      (sc.wrappers x).parentSurface ∧
    ((sc.setWrapper self
        { sc.wrappers self with
          core := { (sc.wrappers self).core with destroyed := true } }).wrappers x).subSurfaces =
      (sc.wrappers x).subSurfaces ∧
    ((sc.setWrapper self
        { sc.wrappers self with
          core := { (sc.wrappers self).core with destroyed := true } }).wrappers x).ownsOutput =
      (sc.wrappers x).ownsOutput ∧
    ((sc.setWrapper self
        { sc.wrappers self with
          core := { (sc.wrappers self).core with destroyed := true } }).wrappers x).core.container =
      (sc.wrappers x).core.container ∧
    ((sc.setWrapper self
        { sc.wrappers self with
          core := { (sc.wrappers self).core with destroyed := true } }).wrappers x).core.destroyed =
      (if x = self then true else (sc.wrappers x).core.destroyed) ∧
    (x ≠ self →
      (sc.setWrapper self
        { sc.wrappers self with
          core := { (sc.wrappers self).core with destroyed := true } }).wrappers x =
      sc.wrappers x) := by
  by_cases hx : x = self
  · subst hx
    simp [setWrapper_self]
  · simp [setWrapper_other _ _ _ _ hx, hx]

theorem destroySurface_fields (fuel : Nat) (self : SurfaceId) (sc sc1 : Scene)
    (h : destroySurface fuel self sc = some sc1) :
    sc1.parentItem = sc.parentItem ∧ sc1.childItems = sc.childItems ∧
    sc1.log =
      sc.log ++
        (match (sc.wrappers self).ownsOutput with
          | some o => [SceneEffect.outputRemoveSurface o self]
          | none => []) ++
        (match (sc.wrappers self).core.container with
          | some c => [SceneEffect.containerRemoveSurface c self]
          | none => []) ∧
    (∀ x, (sc1.wrappers x).parentSurface =
      if x ∈ (sc.wrappers self).subSurfaces ∨ x = self then none
      else (sc.wrappers x).parentSurface) ∧
    (∀ x, (sc1.wrappers x).subSurfaces =
      if self ∉ (sc.wrappers self).subSurfaces ∧ (sc.wrappers self).parentSurface = some x
      then (sc.wrappers x).subSurfaces.erase self
      else (sc.wrappers x).subSurfaces) ∧
    (∀ x, x ≠ self → (sc1.wrappers x).core = (sc.wrappers x).core) ∧
    ((sc1.wrappers self).ownsOutput = none ∧ (sc1.wrappers self).core.container = none ∧
      (sc1.wrappers self).core.destroyed = true) := by
  have hrel := releaseFromOutputAndContainer_fields self sc
  obtain ⟨r1, r2, r3, r4, r5, -, r7, r8⟩ := hrel
  have hdet := detachSubSurfaces_fields
    ((releaseFromOutputAndContainer self sc).wrappers self).subSurfaces
    (releaseFromOutputAndContainer self sc)
  obtain ⟨d1, d2, d3, d4⟩ := hdet
  rw [(r8 self).2.1] at d1 d2 d3 d4
  unfold destroySurface at h
  simp only [] at h
  rw [(r8 self).2.1] at h
  generalize hsc4 : detachSubSurfaces (sc.wrappers self).subSurfaces
    (releaseFromOutputAndContainer self sc) = sc4 at h d1 d2 d3 d4
  have hpar : ∀ x, (sc4.wrappers x).parentSurface =
      if x ∈ (sc.wrappers self).subSurfaces then none else (sc.wrappers x).parentSurface := by
    intro x
    rw [(d4 x).1, (r8 x).1]
  have hsubs : ∀ x, (sc4.wrappers x).subSurfaces = (sc.wrappers x).subSurfaces := by
    intro x
    rw [(d4 x).2.1, (r8 x).2.1]
  have hcore : ∀ x, x ≠ self → (sc4.wrappers x).core = (sc.wrappers x).core := by
    intro x hx
    rw [(d4 x).2.2.1, r7 x hx]
  have hown : (sc4.wrappers self).ownsOutput = none := by rw [(d4 self).2.2.2, r4]
  have hcont : (sc4.wrappers self).core.container = none := by rw [(d4 self).2.2.1, r5]
  cases hp : (sc4.wrappers self).parentSurface with
  | none =>
    rw [hp] at h
    simp only [Option.map_some', Option.some.injEq] at h
    subst h
    have hcondF : ¬ (self ∉ (sc.wrappers self).subSurfaces ∧
        ∃ x, (sc.wrappers self).parentSurface = some x) := by
      rintro ⟨hn, x, hx⟩
      rw [hpar self, if_neg hn, hx] at hp
      exact absurd hp (by simp)
    refine ⟨by simp [d1, r1], by simp [d2, r2], by simp [d3, r3], fun x => ?_, fun x => ?_,
      fun x hx => ?_, ?_, ?_, ?_⟩
    · rw [(markDestroyed_fields sc4 self x).1]
      by_cases hx : x = self
      · subst hx
        rw [hp]
        simp
      · rw [hpar x]
        simp [hx]
    · rw [(markDestroyed_fields sc4 self x).2.1, hsubs x, if_neg]
      intro hc
      exact hcondF ⟨hc.1, x, hc.2⟩
    · rw [(markDestroyed_fields sc4 self x).2.2.2.2.2 hx, hcore x hx]
    · rw [(markDestroyed_fields sc4 self self).2.2.1, hown]
    · rw [(markDestroyed_fields sc4 self self).2.2.2.1, hcont]
    · rw [(markDestroyed_fields sc4 self self).2.2.2.2.1, if_pos rfl]
  | some p =>
    rw [hp] at h
    simp only [] at h
    cases hrem : removeSubSurface fuel p self sc4 with
    | none =>
      rw [hrem] at h
      exact absurd h (by simp)
    | some sc6 =>
      rw [hrem] at h
      simp only [Option.map_some', Option.some.injEq] at h
      subst h
      obtain ⟨l1, l2, l3, l4, l5, l6⟩ := removeSubSurface_links fuel p self sc4 sc6 hrem
      have hnot : self ∉ (sc.wrappers self).subSurfaces := by
        intro hm
        rw [hpar self, if_pos hm] at hp
        exact absurd hp (by simp)
      have hpp : (sc.wrappers self).parentSurface = some p := by
        rw [hpar self, if_neg hnot] at hp
        exact hp
      have hsix : (sc6.wrappers self).ownsOutput = none ∧
          (sc6.wrappers self).core.container = none := by
        unfold removeSubSurface at hrem
        simp only [] at hrem
        split at hrem
        · exact absurd hrem (by simp)
        · rename_i sc2 hup
          simp only [Option.some.injEq] at hrem
          subst hrem
          have hs := updateExplicitAlwaysOnTop_sameUpToElevation fuel self _ sc2 hup
          have e1 : ((sc2.setWrapper p
              { sc2.wrappers p with
                subSurfaces := (sc2.wrappers p).subSurfaces.erase self }).wrappers
                  self).ownsOutput = (sc2.wrappers self).ownsOutput := by
            by_cases hx : self = p
            · rw [← hx, setWrapper_self]
            · rw [setWrapper_other _ _ _ _ hx]
          have e2 : ((sc2.setWrapper p
              { sc2.wrappers p with
                subSurfaces := (sc2.wrappers p).subSurfaces.erase self }).wrappers
                  self).core = (sc2.wrappers self).core :=
            (setSubSurfaces_fields sc2 p _ self).2.2.1
          rw [e1, e2, (hs.2.2.2 self).2.2.2.2, (hs.2.2.2 self).1, setWrapper_self]
          exact ⟨hown, hcont⟩
      refine ⟨by simp [l4, d1, r1], by simp [l5, d2, r2], by simp [l6, d3, r3], fun x => ?_,
        fun x => ?_, fun x hx => ?_, ?_, ?_, ?_⟩
      · rw [(markDestroyed_fields sc6 self x).1, l1 x]
        by_cases hx : x = self
        · simp [hx]
        · rw [if_neg hx, hpar x]
          simp [hx]
      · rw [(markDestroyed_fields sc6 self x).2.1, l2 x, hsubs p]
        by_cases hx : x = p
        · subst hx
          rw [if_pos rfl, if_pos ⟨hnot, hpp⟩]
        · rw [if_neg hx, hsubs x, if_neg]
          intro hc
          rw [hpp] at hc
          exact hx (Option.some.inj hc.2).symm
      · rw [(markDestroyed_fields sc6 self x).2.2.2.2.2 hx, (l3 x).1, hcore x hx]
      · rw [(markDestroyed_fields sc6 self self).2.2.1, hsix.1]
      · rw [(markDestroyed_fields sc6 self self).2.2.2.1, hsix.2]
      · rw [(markDestroyed_fields sc6 self self).2.2.2.2.1, if_pos rfl]

theorem destroySurface_terminates (rank : SurfaceId → Nat) (fuel : Nat) (self : SurfaceId)
    (sc : Scene) (hr : Ranked sc rank) (hf : rank self < fuel) :
    ∃ sc1, destroySurface fuel self sc = some sc1 := by
  unfold destroySurface
  simp only []
  generalize hsc4 : detachSubSurfaces
    ((releaseFromOutputAndContainer self sc).wrappers self).subSurfaces
    (releaseFromOutputAndContainer self sc) = sc4
  have hr4 : Ranked sc4 rank := by
    refine Ranked.of_subSurfaces_eq (fun x => ?_) hr
    rw [← hsc4, ((detachSubSurfaces_fields _ _).2.2.2 x).2.1,
      ((releaseFromOutputAndContainer_fields self sc).2.2.2.2.2.2.2 x).2.1]
  cases hp : (sc4.wrappers self).parentSurface with
  | none => exact ⟨_, rfl⟩
  | some p =>
    obtain ⟨sc6, h6⟩ := removeSubSurface_terminates rank fuel p self sc4 hr4 hf
    simp only [h6]
    exact ⟨_, rfl⟩

theorem createNewOrClose_running (d : Nat) (s : Surface) (h : s.newAnimation.isSome = true) :
    createNewOrClose d s = s := by
  unfold createNewOrClose
  rw [if_pos h]

theorem Reaches.of_lists_eq {sc sc1 : Scene}
    (h : ∀ x, (sc1.wrappers x).subSurfaces = (sc.wrappers x).subSurfaces) {a x : SurfaceId}
    (hr : Reaches sc1 a x) : Reaches sc a x := by
  unfold Reaches at hr ⊢
  refine Relation.ReflTransGen.mono (fun p c hc => ?_) hr
  rw [h p] at hc
  exact hc

theorem Reaches.rank_le {sc : Scene} {rank : SurfaceId → Nat} (hr : Ranked sc rank)
    {a x : SurfaceId} (h : Reaches sc a x) : rank x ≤ rank a := by
  unfold Reaches at h
  induction h with
  | refl => exact Nat.le_refl _
  | tail _ h2 ih => exact Nat.le_trans (Nat.le_of_lt (hr _ _ h2)) ih

theorem PropagationHolds.of_eq {sc sc1 : Scene} {x : SurfaceId}
    (he : (sc1.wrappers x).explicitAlwaysOnTop = (sc.wrappers x).explicitAlwaysOnTop)
    (hf : (sc1.wrappers x).alwaysOnTop = (sc.wrappers x).alwaysOnTop)
    (hp : (sc1.wrappers x).parentSurface = (sc.wrappers x).parentSurface)
    (hpe : ∀ p, (sc.wrappers x).parentSurface = some p →
      (sc1.wrappers p).explicitAlwaysOnTop = (sc.wrappers p).explicitAlwaysOnTop)
    (h : PropagationHolds sc x) : PropagationHolds sc1 x := by
  unfold PropagationHolds at h ⊢
  rw [he, hf, hp, h]
  cases hpar : (sc.wrappers x).parentSurface with
  | none => rfl
  | some p => simp only [hpe p hpar]

theorem foldlM_establishes (f : Scene → SurfaceId → Option Scene)
    (R : Scene → Scene → Prop) (hrefl : ∀ a, R a a) (htrans : ∀ a b c, R a b → R b c → R a c)
    (G : Scene → SurfaceId → Prop) (base : Scene) :
    ∀ (subs : List SurfaceId),
      (∀ d ∈ subs, ∀ acc, R base acc →
        ∃ out, f acc d = some out ∧ R acc out ∧ G out d ∧ ∀ x, x ≠ d → G acc x → G out x) →
      ∀ acc, R base acc →
        ∃ out, subs.foldlM f acc = some out ∧ R acc out ∧
          (∀ x, x ∉ subs → G acc x → G out x) ∧ ∀ x ∈ subs, G out x := by
  intro subs
  induction subs with
  | nil =>
    intro _ acc _
    exact ⟨acc, rfl, hrefl acc, fun _ _ h => h, fun x hx => absurd hx (List.not_mem_nil x)⟩
  | cons d rest ih =>
    intro hstep acc hacc
    obtain ⟨mid, hmid, hR, hGd, hGx⟩ := hstep d (List.mem_cons_self d rest) acc hacc
    obtain ⟨out, hout, hR2, hkeep, hall⟩ :=
      ih (fun e he => hstep e (List.mem_cons_of_mem d he)) mid (htrans _ _ _ hacc hR)
    refine ⟨out, ?_, htrans _ _ _ hR hR2, fun x hx hG => ?_, fun x hx => ?_⟩
    · simp only [List.foldlM_cons, bind, Option.bind_eq_some]
      exact ⟨mid, hmid, hout⟩
    · have hxd : x ≠ d := fun h => hx (h ▸ List.mem_cons_self d rest)
      have hxr : x ∉ rest := fun h => hx (List.mem_cons_of_mem d h)
      exact hkeep x hxr (hGx x hxd hG)
    · by_cases hxr : x ∈ rest
      · exact hall x hxr
      · have hxd : x = d := by
          rcases List.mem_cons.1 hx with h | h
          · exact h
          · exact absurd h hxr
        subst hxd
        exact hkeep x hxr hGd

theorem updateExplicitAlwaysOnTop_establishes (rank : SurfaceId → Nat) (fuel : Nat) :
    ∀ (c : SurfaceId) (sc : Scene), Ranked sc rank → rank c < fuel →
      (∀ n y, (sc.wrappers n).parentSurface = some y → Reaches sc c y →
        n ∈ (sc.wrappers y).subSurfaces) →
      ∃ sc1, updateExplicitAlwaysOnTop fuel c sc = some sc1 ∧ PropagationHolds sc1 c ∧
        ∀ x, x ≠ c → PropagationHolds sc x → PropagationHolds sc1 x := by
  induction fuel with
  | zero =>
    intro c sc _ hc
    exact absurd hc (Nat.not_lt_zero _)
  | succ fuel ih =>
    intro c sc hr hc hcomp
    rw [updateExplicitAlwaysOnTop]
    by_cases heq : (sc.wrappers c).explicitAlwaysOnTop = newExplicitAlwaysOnTop sc c
    · rw [if_pos heq]
      exact ⟨sc, rfl, heq, fun _ _ h => h⟩
    · rw [if_neg heq]
      have hpc : ∀ x, (sc.wrappers x).parentSurface = some c → x ∈ (sc.wrappers c).subSurfaces :=
        fun x hx => hcomp x c hx Relation.ReflTransGen.refl
      have hcc : (sc.wrappers c).parentSurface ≠ some c := fun h =>
        Nat.lt_irrefl _ (hr c c (hpc c h))
      have hsame := setElevation_sameUpToElevation sc c (newExplicitAlwaysOnTop sc c)
        (if newExplicitAlwaysOnTop sc c ≠ 0 then ALWAYSONTOPLAYER else 0)
      generalize hstart : sc.setWrapper c
        { sc.wrappers c with
          explicitAlwaysOnTop := newExplicitAlwaysOnTop sc c,
          z := if newExplicitAlwaysOnTop sc c ≠ 0 then ALWAYSONTOPLAYER else 0 } = start
        at hsame
      have hexp_c : (start.wrappers c).explicitAlwaysOnTop = newExplicitAlwaysOnTop sc c := by
        rw [← hstart, setWrapper_self]
      have hexp_x : ∀ x, x ≠ c →
          (start.wrappers x).explicitAlwaysOnTop = (sc.wrappers x).explicitAlwaysOnTop := by
        intro x hx
        rw [← hstart, setWrapper_other _ _ _ _ hx]
      have hGc : PropagationHolds start c := by
        unfold PropagationHolds
        rw [hexp_c, (hsame.2.2.2 c).2.2.2.1, (hsame.2.2.2 c).2.1]
        unfold newExplicitAlwaysOnTop
        cases hpar : (sc.wrappers c).parentSurface with
        | none => rfl
        | some p =>
          have hp : p ≠ c := fun h => hcc (h ▸ hpar)
          simp only [hexp_x p hp]
      have hGx : ∀ x, x ≠ c → (sc.wrappers x).parentSurface ≠ some c →
          PropagationHolds sc x → PropagationHolds start x := by
        intro x hx hpx hG
        refine PropagationHolds.of_eq (hexp_x x hx) (hsame.2.2.2 x).2.2.2.1
          (hsame.2.2.2 x).2.1 (fun p hp => hexp_x p (fun h => hpx (h ▸ hp))) hG
      obtain ⟨out, hout, -, hkeep, hall⟩ :=
        foldlM_establishes (fun acc sub => updateExplicitAlwaysOnTop fuel sub acc)
          SameUpToElevation (fun a => SameUpToElevation.refl a)
          (fun _ _ _ => SameUpToElevation.andThen) PropagationHolds sc
          (sc.wrappers c).subSurfaces
          (fun d hd acc hacc => by
            have hra : Ranked acc rank := Ranked.of_same hacc hr
            have hdf : rank d < fuel := Nat.lt_of_lt_of_le (hr c d hd) (Nat.le_of_lt_succ hc)
            obtain ⟨o, ho, hGd, hGo⟩ := ih d acc hra hdf (fun n y hn hreach => by
              rw [(hacc.2.2.2 n).2.1] at hn
              rw [(hacc.2.2.2 y).2.2.1]
              have h1 : Reaches sc d y :=
                Reaches.of_lists_eq (fun x => (hacc.2.2.2 x).2.2.1) hreach
              exact hcomp n y hn (Relation.ReflTransGen.head hd h1))
            exact ⟨o, ho, updateExplicitAlwaysOnTop_sameUpToElevation fuel d acc o ho, hGd, hGo⟩)
          start hsame
      refine ⟨out, hout, ?_, fun x hx hG => ?_⟩
      · exact hkeep c (fun h => Nat.lt_irrefl _ (hr c c h)) hGc
      · by_cases hm : x ∈ (sc.wrappers c).subSurfaces
        · exact hall x hm
        · exact hkeep x hm (hGx x hx (fun h => hm (hpc x h)) hG)

theorem setAlwaysOnTopFlag_fields (sc : Scene) (c : SurfaceId) (v : Bool) (x : SurfaceId) :
    ((sc.setWrapper c { sc.wrappers c with alwaysOnTop := v }).wrappers x).parentSurface =
        (sc.wrappers x).parentSurface ∧
    ((sc.setWrapper c { sc.wrappers c with alwaysOnTop := v }).wrappers x).subSurfaces =
        (sc.wrappers x).subSurfaces ∧
    ((sc.setWrapper c { sc.wrappers c with alwaysOnTop := v }).wrappers x).explicitAlwaysOnTop =
        (sc.wrappers x).explicitAlwaysOnTop ∧
    ((sc.setWrapper c { sc.wrappers c with alwaysOnTop := v }).wrappers x).alwaysOnTop =
        (if x = c then v else (sc.wrappers x).alwaysOnTop) := by
  by_cases hx : x = c
  · subst hx
    simp [Scene.setWrapper]
  · simp [Scene.setWrapper, Function.update_noteq hx, hx]

theorem setAlwaysOnTop_propagation (rank : SurfaceId → Nat) (fuel : Nat) (self : SurfaceId)
    (v : Bool) (sc : Scene) (hinv : ∀ x, PropagationHolds sc x) (hcomp : ListsComplete sc)
    (hr : Ranked sc rank) (hf : rank self < fuel) :
    ∃ sc1, setAlwaysOnTop fuel self v sc = some sc1 ∧ (∀ x, PropagationHolds sc1 x) ∧
      ListsComplete sc1 ∧ Ranked sc1 rank ∧
      (sc1.wrappers self).alwaysOnTop = v ∧
      ∀ x, x ≠ self → (sc1.wrappers x).alwaysOnTop = (sc.wrappers x).alwaysOnTop := by
  unfold setAlwaysOnTop
  by_cases hsame : (sc.wrappers self).alwaysOnTop = v
  · rw [if_pos hsame]
    exact ⟨sc, rfl, hinv, hcomp, hr, hsame, fun _ _ => rfl⟩
  · rw [if_neg hsame]
    have hfl := setAlwaysOnTopFlag_fields sc self v
    generalize sc.setWrapper self { sc.wrappers self with alwaysOnTop := v } = sc0 at hfl
    have hr0 : Ranked sc0 rank := Ranked.of_subSurfaces_eq (fun x => (hfl x).2.1) hr
    obtain ⟨sc1, h1, hG, hGx⟩ := updateExplicitAlwaysOnTop_establishes rank fuel self sc0 hr0 hf
      (fun n y hn _ => by
        rw [(hfl n).1] at hn
        rw [(hfl y).2.1]
        exact hcomp n y hn)
    have hs := updateExplicitAlwaysOnTop_sameUpToElevation fuel self sc0 sc1 h1
    refine ⟨sc1, h1, fun x => ?_, fun n y hn => ?_, ?_, ?_, fun x hx => ?_⟩
    · by_cases hx : x = self
      · subst hx
        exact hG
      · refine hGx x hx (PropagationHolds.of_eq (hfl x).2.2.1 ?_ (hfl x).1
          (fun p _ => (hfl p).2.2.1) (hinv x))
        rw [(hfl x).2.2.2, if_neg hx]
    · rw [(hs.2.2.2 n).2.1, (hfl n).1] at hn
      rw [(hs.2.2.2 y).2.2.1, (hfl y).2.1]
      exact hcomp n y hn
    · exact Ranked.of_same hs hr0
    · rw [(hs.2.2.2 self).2.2.2.1, (hfl self).2.2.2, if_pos rfl]
    · rw [(hs.2.2.2 x).2.2.2.1, (hfl x).2.2.2, if_neg hx]

theorem setParentSurface_propagation (sc : Scene) (surface : SurfaceId)
    (v : Option SurfaceId) (hinv : ∀ x, PropagationHolds sc x) (x : SurfaceId)
    (hx : x ≠ surface) :
    PropagationHolds (sc.setWrapper surface { sc.wrappers surface with parentSurface := v }) x := by
  have hp := setParentSurface_fields sc surface v
  refine PropagationHolds.of_eq (hp x).2.2.2.2 (hp x).2.2.2.1 ?_
    (fun p _ => (hp p).2.2.2.2) (hinv x)
  rw [(hp x).1, if_neg hx]

theorem setSubSurfaces_propagation (sc : Scene) (self : SurfaceId) (l : List SurfaceId)
    (hinv : ∀ x, PropagationHolds sc x) (x : SurfaceId) :
    PropagationHolds (sc.setWrapper self { sc.wrappers self with subSurfaces := l }) x := by
  have hp := setSubSurfaces_fields sc self l
  exact PropagationHolds.of_eq (hp x).2.2.2.2 (hp x).2.2.2.1 (hp x).1
    (fun p _ => (hp p).2.2.2.2) (hinv x)

theorem removeSubSurface_propagation (rank : SurfaceId → Nat) (fuel : Nat)
    (self surface : SurfaceId) (sc : Scene) (hinv : ∀ x, PropagationHolds sc x)
    (hcomp : ListsComplete sc) (hr : Ranked sc rank) (hf : rank surface < fuel) :
    ∃ sc1, removeSubSurface fuel self surface sc = some sc1 ∧ (∀ x, PropagationHolds sc1 x) ∧
      ListsComplete sc1 ∧ Ranked sc1 rank := by
  unfold removeSubSurface
  simp only []
  have hp := setParentSurface_fields sc surface none
  have hG0 := setParentSurface_propagation sc surface none hinv
  generalize sc.setWrapper surface { sc.wrappers surface with parentSurface := none } = sc0
    at hp hG0
  have hr0 : Ranked sc0 rank := Ranked.of_subSurfaces_eq (fun x => (hp x).2.1) hr
  have hcomp0 : ListsComplete sc0 := by
    intro n y hn
    rw [(hp n).1] at hn
    rw [(hp y).2.1]
    by_cases hns : n = surface
    · rw [if_pos hns] at hn
      exact absurd hn (by simp)
    · rw [if_neg hns] at hn
      exact hcomp n y hn
  obtain ⟨sc2, h2, hG, hGx⟩ := updateExplicitAlwaysOnTop_establishes rank fuel surface sc0 hr0 hf
    (fun n y hn _ => hcomp0 n y hn)
  have hs := updateExplicitAlwaysOnTop_sameUpToElevation fuel surface sc0 sc2 h2
  have hinv2 : ∀ x, PropagationHolds sc2 x := by
    intro x
    by_cases hx : x = surface
    · subst hx
      exact hG
    · exact hGx x hx (hG0 x hx)
  rw [h2]
  have hl := setSubSurfaces_fields sc2 self ((sc2.wrappers self).subSurfaces.erase surface)
  refine ⟨_, rfl, setSubSurfaces_propagation sc2 self _ hinv2, fun n y hn => ?_,
    fun p c hc => ?_⟩
  · rw [(hl n).1, (hs.2.2.2 n).2.1] at hn
    have hns : n ≠ surface := by
      intro hns
      rw [(hp n).1, if_pos hns] at hn
      exact absurd hn (by simp)
    have hmem : n ∈ (sc2.wrappers y).subSurfaces := by
      rw [(hs.2.2.2 y).2.2.1]
      exact hcomp0 n y hn
    rw [(hl y).2.1]
    by_cases hy : y = self
    · rw [if_pos hy]
      rw [hy] at hmem
      exact (List.mem_erase_of_ne hns).2 hmem
    · rw [if_neg hy]
      exact hmem
  · rw [(hl p).2.1] at hc
    have hmem : c ∈ (sc2.wrappers p).subSurfaces := by
      by_cases hy : p = self
      · rw [if_pos hy] at hc
        rw [hy]
        exact List.mem_of_mem_erase hc
      · rw [if_neg hy] at hc
        exact hc
    rw [(hs.2.2.2 p).2.2.1] at hmem
    exact hr0 p c hmem

theorem addSubSurface_propagation (rank : SurfaceId → Nat) (fuel : Nat)
    (self surface : SurfaceId) (sc : Scene) (hinv : ∀ x, PropagationHolds sc x)
    (hcomp : ListsComplete sc) (hr : Ranked sc rank) (hf : rank surface < fuel)
    (hno : ¬ Reaches sc surface self) :
    ∃ sc1, addSubSurface fuel self surface sc = some sc1 ∧ (∀ x, PropagationHolds sc1 x) ∧
      ListsComplete sc1 ∧ ∃ rank1, Ranked sc1 rank1 := by
  unfold addSubSurface
  simp only []
  have hp := setParentSurface_fields sc surface (some self)
  have hG0 := setParentSurface_propagation sc surface (some self) hinv
  generalize sc.setWrapper surface { sc.wrappers surface with parentSurface := some self } = sc0
    at hp hG0
  have hr0 : Ranked sc0 rank := Ranked.of_subSurfaces_eq (fun x => (hp x).2.1) hr
  obtain ⟨sc2, h2, hG, hGx⟩ := updateExplicitAlwaysOnTop_establishes rank fuel surface sc0 hr0 hf
    (fun n y hn hreach => by
      rw [(hp n).1] at hn
      rw [(hp y).2.1]
      by_cases hns : n = surface
      · rw [if_pos hns] at hn
        have hy : y = self := (Option.some.inj hn).symm
        rw [hy] at hreach
        exact absurd (Reaches.of_lists_eq (fun x => (hp x).2.1) hreach) hno
      · rw [if_neg hns] at hn
        exact hcomp n y hn)
  have hs := updateExplicitAlwaysOnTop_sameUpToElevation fuel surface sc0 sc2 h2
  have hinv2 : ∀ x, PropagationHolds sc2 x := by
    intro x
    by_cases hx : x = surface
    · subst hx
      exact hG
    · exact hGx x hx (hG0 x hx)
  rw [h2]
  have hl := setSubSurfaces_fields sc2 self ((sc2.wrappers self).subSurfaces ++ [surface])
  have hsubs : ∀ p c, c ∈ ((sc2.setWrapper self
      { sc2.wrappers self with
        subSurfaces := (sc2.wrappers self).subSurfaces ++ [surface] }).wrappers p).subSurfaces ↔
      c ∈ (sc.wrappers p).subSurfaces ∨ (p = self ∧ c = surface) := by
    intro p c
    rw [(hl p).2.1]
    by_cases hy : p = self
    · rw [if_pos hy, List.mem_append, List.mem_singleton, ← hy, (hs.2.2.2 p).2.2.1, (hp p).2.1]
      simp
    · rw [if_neg hy, (hs.2.2.2 p).2.2.1, (hp p).2.1]
      simp [hy]
  refine ⟨_, rfl, setSubSurfaces_propagation sc2 self _ hinv2, fun n y hn => ?_, ?_⟩
  · rw [(hl n).1, (hs.2.2.2 n).2.1, (hp n).1] at hn
    rw [hsubs]
    by_cases hns : n = surface
    · rw [if_pos hns] at hn
      exact Or.inr ⟨(Option.some.inj hn).symm, hns⟩
    · rw [if_neg hns] at hn
      exact Or.inl (hcomp n y hn)
  · classical
    refine ⟨fun x => if Reaches sc surface x then rank x else rank x + rank surface + 1, ?_⟩
    intro p c hc
    rw [hsubs] at hc
    rcases hc with hold | ⟨hps, hcs⟩
    · have hlt := hr p c hold
      by_cases hrp : Reaches sc surface p
      · have hrc : Reaches sc surface c := Relation.ReflTransGen.tail hrp hold
        simp only [if_pos hrp, if_pos hrc]
        exact hlt
      · by_cases hrc : Reaches sc surface c
        · simp only [if_neg hrp, if_pos hrc]
          omega
        · simp only [if_neg hrp, if_neg hrc]
          omega
    · subst hps
      subst hcs
      have hrc : Reaches sc c c := Relation.ReflTransGen.refl
      simp only [if_neg hno, if_pos hrc]
      omega

theorem flagCount_nonneg (sc : Scene) : ∀ (n : Nat) (x : SurfaceId), 0 ≤ flagCount n sc x := by
  intro n
  induction n with
  | zero =>
    intro x
    exact Int.le_refl 0
  | succ n ih =>
    intro x
    unfold flagCount
    cases hp : (sc.wrappers x).parentSurface with
    | none =>
      cases (sc.wrappers x).alwaysOnTop <;> simp
    | some p =>
      have := ih p
      cases (sc.wrappers x).alwaysOnTop <;> simp <;> omega

theorem explicit_eq_flagCount (sc : Scene) (hinv : ∀ x, PropagationHolds sc x)
    (depth : SurfaceId → Nat) (hd : ∀ c p, IsParentOf sc c p → depth p < depth c) :
    ∀ (n : Nat) (x : SurfaceId), depth x < n →
      (sc.wrappers x).explicitAlwaysOnTop = flagCount n sc x := by
  intro n
  induction n with
  | zero =>
    intro x hx
    exact absurd hx (Nat.not_lt_zero _)
  | succ n ih =>
    intro x hx
    have h := hinv x
    unfold PropagationHolds at h
    rw [h]
    unfold flagCount
    cases hp : (sc.wrappers x).parentSurface with
    | none => rfl
    | some p =>
      have hlt : depth p < n := Nat.lt_of_lt_of_le (hd x p hp) (Nat.le_of_lt_succ hx)
      simp only [ih p hlt]

theorem elevatedPairScene_rest (n : Nat) : elevatedPairScene.wrappers (n + 2) = {} := by
  unfold elevatedPairScene
  have h1 : n + 2 ≠ 1 := by omega
  have h0 : n + 2 ≠ 0 := by omega
  rw [setWrapper_other _ _ _ _ h1, setWrapper_other _ _ _ _ h0]
  simp [pairScene, sceneOf]

theorem elevatedPairScene_propagation : ∀ x, PropagationHolds elevatedPairScene x := by
  intro x
  match x with
  | 0 =>
    unfold PropagationHolds
    decide
  | 1 =>
    unfold PropagationHolds
    decide
  | n + 2 =>
    unfold PropagationHolds
    rw [elevatedPairScene_rest]
    rfl

theorem elevatedPairScene_parent (c p : SurfaceId) (h : IsParentOf elevatedPairScene c p) :
    c = 1 ∧ p = 0 := by
  unfold IsParentOf at h
  match c with
  | 0 =>
    have h0 : (elevatedPairScene.wrappers 0).parentSurface = none := by decide
    rw [h0] at h
    exact absurd h (by simp)
  | 1 =>
    have h1 : (elevatedPairScene.wrappers 1).parentSurface = some 0 := by decide
    rw [h1] at h
    exact ⟨rfl, (Option.some.inj h).symm⟩
  | n + 2 =>
    rw [elevatedPairScene_rest] at h
    exact absurd h (by simp)

theorem elevatedPairScene_subSurfaces (p c : SurfaceId)
    (h : c ∈ (elevatedPairScene.wrappers p).subSurfaces) : p = 0 ∧ c = 1 := by
  match p with
  | 0 =>
    have h1 : (elevatedPairScene.wrappers 0).subSurfaces = [1] := by decide
    rw [h1] at h
    exact ⟨rfl, List.mem_singleton.1 h⟩
  | 1 =>
    have h1 : (elevatedPairScene.wrappers 1).subSurfaces = [] := by decide
    rw [h1] at h
    exact absurd h (List.not_mem_nil c)
  | n + 2 =>
    rw [elevatedPairScene_rest] at h
    exact absurd h (List.not_mem_nil c)

/-! ## Lemmas on the moves in a list -/

theorem lastIndexOf_of_not_mem {α : Type} [DecidableEq α] (x : α) :
    ∀ l : List α, x ∉ l → lastIndexOf l x = -1 := by
  intro l
  induction l with
  | nil => intro _; rfl
  | cons y ys ih =>
    intro h
    have hy : y ≠ x := fun e => h (e ▸ List.mem_cons_self y ys)
    have hys : x ∉ ys := fun e => h (List.mem_cons_of_mem y e)
    simp [lastIndexOf, ih hys, hy]

theorem lastIndexOf_append_cons {α : Type} [DecidableEq α] (x : α) (R : List α) (h : x ∉ R) :
    ∀ X : List α, lastIndexOf (X ++ x :: R) x = X.length := by
  intro X
  induction X with
  | nil => simp [lastIndexOf, lastIndexOf_of_not_mem x R h]
  | cons y ys ih =>
    have hne : (ys.length : Int) ≠ -1 := by omega
    show lastIndexOf (y :: (ys ++ x :: R)) x = _
    rw [lastIndexOf, ih, if_pos hne]
    simp

theorem insertIdx_append_length {α : Type} (x : α) (Q : List α) :
    ∀ P : List α, (P ++ Q).insertIdx P.length x = P ++ x :: Q := by
  intro P
  induction P with
  | nil => simp
  | cons y ys ih => simp [List.insertIdx_succ_cons, ih]

theorem eraseIdx_append_length {α : Type} (x : α) (R : List α) :
    ∀ X : List α, (X ++ x :: R).eraseIdx X.length = X ++ R := by
  intro X
  induction X with
  | nil => simp
  | cons y ys ih => simp [ih]

theorem get?_append_length {α : Type} (x : α) (R : List α) :
    ∀ X : List α, (X ++ x :: R).get? X.length = some x := by
  intro X
  induction X with
  | nil => simp
  | cons y ys ih => simpa using ih

theorem listMove_append_cons {α : Type} (X R P Q : List α) (x : α)
    (h : X ++ R = P ++ Q) :
    listMove (X ++ x :: R) (X.length : Int) (P.length : Int) = P ++ x :: Q := by
  unfold listMove
  have hlen : P.length < (X ++ x :: R).length := by
    have := congrArg List.length h
    simp at this
    simp
    omega
  have hX : X.length < (X ++ x :: R).length := by simp
  rw [if_pos ⟨by omega, by exact_mod_cast hX, by omega, by exact_mod_cast hlen⟩]
  simp only [Int.toNat_ofNat, get?_append_length, eraseIdx_append_length]
  rw [h, insertIdx_append_length]

theorem moveAfter_right {α : Type} [DecidableEq α] (X M Z : List α) (x y : α)
    (hx : x ∉ M ++ y :: Z) (hy : y ∉ Z) :
    moveAfter (X ++ x :: M ++ y :: Z) x y = X ++ M ++ y :: x :: Z := by
  have hmy : lastIndexOf (X ++ x :: M ++ y :: Z) x = X.length := by
    have := lastIndexOf_append_cons x (M ++ y :: Z) hx X
    simpa using this
  have hsib : lastIndexOf (X ++ x :: M ++ y :: Z) y = ((X ++ x :: M).length : Int) := by
    have := lastIndexOf_append_cons y Z hy (X ++ x :: M)
    simpa using this
  unfold moveAfter
  simp only [hmy, hsib]
  have hlen : ((X ++ x :: M).length : Int) = X.length + 1 + M.length := by
    simp
    omega
  rw [if_pos (by rw [hlen]; omega), if_neg (by rw [hlen]; omega)]
  have h := listMove_append_cons X (M ++ y :: Z) (X ++ M ++ [y]) Z x (by simp)
  have e1 : ((X ++ M ++ [y]).length : Int) = ((X ++ x :: M).length : Int) := by
    simp
  rw [e1] at h
  simpa using h

theorem moveAfter_left {α : Type} [DecidableEq α] (U M Z : List α) (x y : α)
    (hx : x ∉ Z) (hy : y ∉ M ++ x :: Z) :
    moveAfter (U ++ y :: M ++ x :: Z) x y = U ++ y :: x :: M ++ Z := by
  have hmy : lastIndexOf (U ++ y :: M ++ x :: Z) x = ((U ++ y :: M).length : Int) := by
    have := lastIndexOf_append_cons x Z hx (U ++ y :: M)
    simpa using this
  have hsib : lastIndexOf (U ++ y :: M ++ x :: Z) y = U.length := by
    have := lastIndexOf_append_cons y (M ++ x :: Z) hy U
    simpa using this
  unfold moveAfter
  simp only [hmy, hsib]
  have hlen : ((U ++ y :: M).length : Int) = U.length + 1 + M.length := by
    simp
    omega
  by_cases hM : M = []
  · subst hM
    rw [if_neg (by rw [hlen]; simp)]
    simp
  · have hpos : 0 < M.length := List.length_pos.2 hM
    rw [if_pos (by rw [hlen]; omega), if_pos (by rw [hlen]; omega)]
    have h := listMove_append_cons (U ++ y :: M) Z (U ++ [y]) (M ++ Z) x (by simp)
    have e1 : ((U ++ [y]).length : Int) = (U.length : Int) + 1 := by simp
    rw [e1] at h
    simpa using h

theorem moveBefore_right {α : Type} [DecidableEq α] (X M Z : List α) (x y : α)
    (hx : x ∉ M ++ y :: Z) (hy : y ∉ Z) :
    moveBefore (X ++ x :: M ++ y :: Z) x y = X ++ M ++ x :: y :: Z := by
  have hmy : lastIndexOf (X ++ x :: M ++ y :: Z) x = X.length := by
    have := lastIndexOf_append_cons x (M ++ y :: Z) hx X
    simpa using this
  have hsib : lastIndexOf (X ++ x :: M ++ y :: Z) y = ((X ++ x :: M).length : Int) := by
    have := lastIndexOf_append_cons y Z hy (X ++ x :: M)
    simpa using this
  unfold moveBefore
  simp only [hmy, hsib]
  have hlen : ((X ++ x :: M).length : Int) = X.length + 1 + M.length := by
    simp
    omega
  by_cases hM : M = []
  · subst hM
    rw [if_neg (by rw [hlen]; simp)]
    simp
  · have hpos : 0 < M.length := List.length_pos.2 hM
    rw [if_pos (by rw [hlen]; omega), if_pos (by rw [hlen]; omega)]
    have h := listMove_append_cons X (M ++ y :: Z) (X ++ M) (y :: Z) x (by simp)
    have e1 : ((X ++ M).length : Int) = ((X ++ x :: M).length : Int) - 1 := by
      simp
      omega
    rw [e1] at h
    simpa using h

theorem moveBefore_left {α : Type} [DecidableEq α] (U M Z : List α) (x y : α)
    (hx : x ∉ Z) (hy : y ∉ M ++ x :: Z) :
    moveBefore (U ++ y :: M ++ x :: Z) x y = U ++ x :: y :: M ++ Z := by
  have hmy : lastIndexOf (U ++ y :: M ++ x :: Z) x = ((U ++ y :: M).length : Int) := by
    have := lastIndexOf_append_cons x Z hx (U ++ y :: M)
    simpa using this
  have hsib : lastIndexOf (U ++ y :: M ++ x :: Z) y = U.length := by
    have := lastIndexOf_append_cons y (M ++ x :: Z) hy U
    simpa using this
  unfold moveBefore
  simp only [hmy, hsib]
  have hlen : ((U ++ y :: M).length : Int) = U.length + 1 + M.length := by
    simp
    omega
  rw [if_pos (by rw [hlen]; omega), if_neg (by rw [hlen]; omega)]
  have h := listMove_append_cons (U ++ y :: M) Z U (y :: M ++ Z) x (by simp)
  simpa using h

theorem perm_of_count {α : Type} [DecidableEq α] {l1 l2 : List α}
    (h : ∀ a, l1.count a = l2.count a) : l1.Perm l2 :=
  List.perm_iff_count.2 h

theorem restackList_spec {α : Type} [DecidableEq α] (F : List α) :
    ∀ (cs U I : List α) (last : α) (V : List α),
      (U ++ I ++ last :: F ++ V).Nodup → (∀ c ∈ cs, c ∈ U ∨ c ∈ V) → cs.Nodup →
      ∃ U1 V1,
        restackList (U ++ I ++ last :: F ++ V) last cs = U1 ++ I ++ last :: cs ++ F ++ V1 ∧
        (U1 ++ I ++ last :: cs ++ F ++ V1).Perm (U ++ I ++ last :: F ++ V) := by
  intro cs
  induction cs with
  | nil =>
    intro U I last V _ _ _
    exact ⟨U, V, by simp [restackList], by simp⟩
  | cons c rest ih =>
    intro U I last V hnd hmem hcs
    have hrest : ∀ d ∈ rest, d ≠ c := by
      intro d hd e
      subst e
      exact (List.nodup_cons.1 hcs).1 hd
    rcases hmem c (List.mem_cons_self c rest) with hU | hV
    · obtain ⟨X, Y, hXY⟩ := List.append_of_mem hU
      subst hXY
      have hnd1 := hnd
      simp only [List.append_assoc, List.cons_append, List.nodup_append, List.nodup_cons,
        List.mem_append, List.mem_cons] at hnd1
      have hmove : moveAfter (X ++ c :: Y ++ I ++ last :: F ++ V) c last =
          (X ++ Y) ++ (I ++ [last]) ++ c :: F ++ V := by
        have := moveAfter_right X (Y ++ I) (F ++ V) c last
          (by simp only [List.mem_append, List.mem_cons]; tauto)
          (by simp only [List.mem_append]; tauto)
        simpa using this
      have hperm : ((X ++ Y) ++ (I ++ [last]) ++ c :: F ++ V).Perm
          (X ++ c :: Y ++ I ++ last :: F ++ V) := by
        refine perm_of_count (fun a => ?_)
        simp only [List.count_append, List.count_cons, List.count_nil]
        omega
      obtain ⟨U1, V1, h1, h2⟩ := ih (X ++ Y) (I ++ [last]) c V
        (hperm.nodup_iff.2 hnd)
        (fun d hd => by
          rcases hmem d (List.mem_cons_of_mem c hd) with h | h
          · left
            rw [List.mem_append, List.mem_cons] at h
            rw [List.mem_append]
            have := hrest d hd
            tauto
          · exact Or.inr h)
        (List.nodup_cons.1 hcs).2
      refine ⟨U1, V1, ?_, ?_⟩
      · rw [restackList, hmove, h1]
        simp
      · refine List.Perm.trans ?_ (h2.trans hperm)
        simp
    · obtain ⟨X, Y, hXY⟩ := List.append_of_mem hV
      subst hXY
      have hnd1 := hnd
      simp only [List.append_assoc, List.cons_append, List.nodup_append, List.nodup_cons,
        List.mem_append, List.mem_cons] at hnd1
      have hmove : moveAfter (U ++ I ++ last :: F ++ (X ++ c :: Y)) c last =
          U ++ (I ++ [last]) ++ c :: F ++ (X ++ Y) := by
        have := moveAfter_left (U ++ I) (F ++ X) Y c last
          (by tauto)
          (by simp only [List.mem_append, List.mem_cons]; tauto)
        simpa using this
      have hperm : (U ++ (I ++ [last]) ++ c :: F ++ (X ++ Y)).Perm
          (U ++ I ++ last :: F ++ (X ++ c :: Y)) := by
        refine perm_of_count (fun a => ?_)
        simp only [List.count_append, List.count_cons, List.count_nil]
        omega
      obtain ⟨U1, V1, h1, h2⟩ := ih U (I ++ [last]) c (X ++ Y)
        (hperm.nodup_iff.2 hnd)
        (fun d hd => by
          rcases hmem d (List.mem_cons_of_mem c hd) with h | h
          · exact Or.inl h
          · right
            rw [List.mem_append, List.mem_cons] at h
            rw [List.mem_append]
            have := hrest d hd
            tauto)
        (List.nodup_cons.1 hcs).2
      refine ⟨U1, V1, ?_, ?_⟩
      · rw [restackList, hmove, h1]
        simp
      · refine List.Perm.trans ?_ (h2.trans hperm)
        simp

theorem split_two {α : Type} {l : List α} {x y : α} (hx : x ∈ l) (hy : y ∈ l) (hxy : x ≠ y) :
    (∃ X M Z, l = X ++ x :: M ++ y :: Z) ∨ (∃ U M Z, l = U ++ y :: M ++ x :: Z) := by
  obtain ⟨X, R, hl⟩ := List.append_of_mem hx
  subst hl
  rcases List.mem_append.1 hy with h | h
  · obtain ⟨U, M, hU⟩ := List.append_of_mem h
    subst hU
    exact Or.inr ⟨U, M, R, by simp⟩
  · rcases List.mem_cons.1 h with h | h
    · exact absurd h.symm hxy
    · obtain ⟨M, Z, hR⟩ := List.append_of_mem h
      subst hR
      exact Or.inl ⟨X, M, Z, by simp⟩

theorem moveBefore_adjacent {α : Type} [DecidableEq α] {l : List α} {x y : α}
    (hnd : l.Nodup) (hx : x ∈ l) (hy : y ∈ l) (hxy : x ≠ y) :
    ∃ U V, moveBefore l x y = U ++ x :: y :: V ∧ (U ++ x :: y :: V).Perm l := by
  rcases split_two hx hy hxy with ⟨X, M, Z, hl⟩ | ⟨U, M, Z, hl⟩
  · subst hl
    have hnd1 := hnd
    simp only [List.append_assoc, List.cons_append, List.nodup_append, List.nodup_cons,
      List.mem_append, List.mem_cons] at hnd1
    refine ⟨X ++ M, Z, ?_, ?_⟩
    · exact moveBefore_right X M Z x y
        (by simp only [List.mem_append, List.mem_cons]; tauto) (by tauto)
    · refine perm_of_count (fun a => ?_)
      simp only [List.count_append, List.count_cons, List.count_nil]
      omega
  · subst hl
    have hnd1 := hnd
    simp only [List.append_assoc, List.cons_append, List.nodup_append, List.nodup_cons,
      List.mem_append, List.mem_cons] at hnd1
    refine ⟨U, M ++ Z, ?_, ?_⟩
    · have := moveBefore_left U M Z x y (by tauto)
        (by simp only [List.mem_append, List.mem_cons]; tauto)
      simpa using this
    · refine perm_of_count (fun a => ?_)
      simp only [List.count_append, List.count_cons, List.count_nil]
      omega

theorem moveAfter_adjacent {α : Type} [DecidableEq α] {l : List α} {x y : α}
    (hnd : l.Nodup) (hx : x ∈ l) (hy : y ∈ l) (hxy : x ≠ y) :
    ∃ U V, moveAfter l x y = U ++ y :: x :: V ∧ (U ++ y :: x :: V).Perm l := by
  rcases split_two hx hy hxy with ⟨X, M, Z, hl⟩ | ⟨U, M, Z, hl⟩
  · subst hl
    have hnd1 := hnd
    simp only [List.append_assoc, List.cons_append, List.nodup_append, List.nodup_cons,
      List.mem_append, List.mem_cons] at hnd1
    refine ⟨X ++ M, Z, ?_, ?_⟩
    · exact moveAfter_right X M Z x y
        (by simp only [List.mem_append, List.mem_cons]; tauto) (by tauto)
    · refine perm_of_count (fun a => ?_)
      simp only [List.count_append, List.count_cons, List.count_nil]
      omega
  · subst hl
    have hnd1 := hnd
    simp only [List.append_assoc, List.cons_append, List.nodup_append, List.nodup_cons,
      List.mem_append, List.mem_cons] at hnd1
    refine ⟨U, M ++ Z, ?_, ?_⟩
    · have := moveAfter_left U M Z x y (by tauto)
        (by simp only [List.mem_append, List.mem_cons]; tauto)
      simpa using this
    · refine perm_of_count (fun a => ?_)
      simp only [List.count_append, List.count_cons, List.count_nil]
      omega

theorem moveAfter_consecutive {α : Type} [DecidableEq α] (P Q : List α) (x y : α)
    (hnd : (P ++ y :: x :: Q).Nodup) : moveAfter (P ++ y :: x :: Q) x y = P ++ y :: x :: Q := by
  have hnd1 := hnd
  simp only [List.nodup_append, List.nodup_cons, List.mem_append, List.mem_cons] at hnd1
  have := moveAfter_left P [] Q x y (by tauto)
    (by simp only [List.nil_append, List.mem_cons]; tauto)
  simpa using this

theorem anyM_option_eq {α : Type} (g : α → Option Bool) (h : α → Bool) :
    ∀ l : List α, (∀ c ∈ l, g c = some (h c)) → l.anyM g = some (l.any h) := by
  intro l
  induction l with
  | nil =>
    intro _
    rfl
  | cons c cs ih =>
    intro hg
    have hc := hg c (List.mem_cons_self c cs)
    have hcs := ih (fun d hd => hg d (List.mem_cons_of_mem c hd))
    simp only [List.anyM, hc, List.any_cons, bind, Option.bind]
    cases h c
    · simpa using hcs
    · simp [pure]

/-! ## Lemmas on stacking a surface with sub-surfaces that have none -/

theorem setChildItems_same (sc : Scene) (p : Nat) : sc.setChildItems p (sc.childItems p) = sc := by
  unfold Scene.setChildItems
  rw [Function.update_eq_self]

theorem setChildItems_twice (sc : Scene) (p : Nat) (l1 l2 : List Item) :
    (sc.setChildItems p l1).setChildItems p l2 = sc.setChildItems p l2 := by
  unfold Scene.setChildItems
  simp

theorem setChildItems_childItems (sc : Scene) (p : Nat) (l : List Item) :
    (sc.setChildItems p l).childItems p = l := by
  simp [Scene.setChildItems]

theorem hasChild_leaf (f : Nat) (sc : Scene) (s x : SurfaceId)
    (h : (sc.wrappers s).subSurfaces = []) : hasChild (f + 1) sc s x = some false := by
  rw [hasChild, h]
  rfl

theorem hasChild_leafChildren (f : Nat) (sc : Scene) (s x : SurfaceId)
    (h : ∀ c ∈ (sc.wrappers s).subSurfaces, (sc.wrappers c).subSurfaces = []) :
    hasChild (f + 2) sc s x = some ((sc.wrappers s).subSurfaces.any (fun c => decide (c = x))) := by
  rw [hasChild]
  refine anyM_option_eq _ _ _ (fun c hc => ?_)
  by_cases hcx : c = x
  · simp [hcx]
  · rw [if_neg hcx, hasChild_leaf f sc c x (h c hc)]
    simp [hcx]

theorem stackLastSurface_leaf (f : Nat) (sc : Scene) (s : SurfaceId)
    (h : (sc.wrappers s).subSurfaces = []) : stackLastSurface (f + 1) sc s = some s := by
  rw [stackLastSurface, h]
  rfl

theorem stackFirstSurface_leaf (f : Nat) (sc : Scene) (s : SurfaceId)
    (h : (sc.wrappers s).subSurfaces = []) : stackFirstSurface (f + 1) sc s = some s := by
  rw [stackFirstSurface, h]
  rfl

theorem updateSubSurfaceStacking_leaf (f : Nat) (sc : Scene) (s : SurfaceId)
    (h : (sc.wrappers s).subSurfaces = []) : updateSubSurfaceStacking (f + 1) s sc = some sc := by
  rw [updateSubSurfaceStacking, h]
  cases f <;> rfl

theorem LeafFamily.setChildItems {sc : Scene} {p : Nat} {a : SurfaceId} {cs : List SurfaceId}
    (h : LeafFamily sc p a cs) (l : List Item) : LeafFamily (sc.setChildItems p l) p a cs := h

theorem itemStackAfter_eq (sc : Scene) (p : Nat) (x y : Item)
    (hx : sc.parentItem x = some p) (hy : sc.parentItem y = some p) (hxy : y ≠ x) :
    itemStackAfter x y sc = sc.setChildItems p (moveAfter (sc.childItems p) x y) := by
  unfold itemStackAfter
  rw [hx]
  simp only []
  rw [if_neg]
  rintro (h | h)
  · exact hxy h
  · exact h hy

theorem itemStackBefore_eq (sc : Scene) (p : Nat) (x y : Item)
    (hx : sc.parentItem x = some p) (hy : sc.parentItem y = some p) (hxy : y ≠ x) :
    itemStackBefore x y sc = sc.setChildItems p (moveBefore (sc.childItems p) x y) := by
  unfold itemStackBefore
  rw [hx]
  simp only []
  rw [if_neg]
  rintro (h | h)
  · exact hxy h
  · exact h hy

theorem setWrapper_same (sc : Scene) (x : SurfaceId) : sc.setWrapper x (sc.wrappers x) = sc := by
  unfold Scene.setWrapper
  rw [Function.update_eq_self]

theorem stackAfter_leafChild (f : Nat) (sc : Scene) (p : Nat) (a : SurfaceId)
    (cs : List SurfaceId) (c last : SurfaceId) (hfam : LeafFamily sc p a cs) (hc : c ∈ cs)
    (hlast : last = a ∨ ∃ P Q, cs = P ++ last :: c :: Q) :
    stackAfter (f + 3) c (Item.surface last) sc =
      some (true, sc.setChildItems p
        (moveAfter (sc.childItems p) (Item.surface c) (Item.surface last))) := by
  obtain ⟨hpa, hsub, hnd, hacs, hall⟩ := hfam
  obtain ⟨hpc, hparc, hleafc⟩ := hall c hc
  have hne : c ≠ last := by
    rcases hlast with h | ⟨P, Q, h⟩
    · rw [h]
      exact fun e => hacs (e ▸ hc)
    · intro e
      subst e
      rw [h] at hnd
      simp [List.nodup_append, List.nodup_cons] at hnd
  have hplast : sc.parentItem (Item.surface last) = some p := by
    rcases hlast with h | ⟨P, Q, h⟩
    · rw [h]
      exact hpa
    · exact (hall last (by rw [h]; simp)).1
  have hmove := itemStackAfter_eq sc p (Item.surface c) (Item.surface last) hpc hplast
    (fun e => hne (Item.surface.inj e).symm)
  have h1 : hasChild (f + 2) sc c last = some false := hasChild_leaf (f + 1) sc c last hleafc
  rw [stackAfter]
  rw [if_neg (by rw [hpc, hplast]; simp), if_neg (fun e => hne (Item.surface.inj e))]
  simp only [h1]
  rcases hlast with h | ⟨P, Q, h⟩
  · subst h
    have h2 : hasChild (f + 2) sc last c = some true := by
      rw [hasChild_leafChildren f sc last c (fun d hd => (hall d (hsub ▸ hd)).2.2), hsub]
      simp [hc]
    have hu : updateSubSurfaceStacking (f + 2) c (sc.setChildItems p
        (moveAfter (sc.childItems p) (Item.surface c) (Item.surface last))) = some _ :=
      updateSubSurfaceStacking_leaf (f + 1) _ c hleafc
    simp only [h2, hmove, hu]
  · have hleafl : (sc.wrappers last).subSurfaces = [] := (hall last (by rw [h]; simp)).2.2
    have hparl : (sc.wrappers last).parentSurface = some a :=
      (hall last (by rw [h]; simp)).2.1
    have h2 : hasChild (f + 2) sc last c = some false := hasChild_leaf (f + 1) sc last c hleafl
    have h3 : stackLastSurface (f + 2) sc last = some last :=
      stackLastSurface_leaf (f + 1) sc last hleafl
    simp only [h2, h3, hparc, hparl, hmove]
    have hkeep : moveAfter ((sc.setChildItems p
        (moveAfter (sc.childItems p) (Item.surface c) (Item.surface last))).wrappers
          a).subSurfaces c last = (sc.wrappers a).subSurfaces := by
      show moveAfter (sc.wrappers a).subSurfaces c last = _
      rw [hsub, h]
      exact moveAfter_consecutive P Q c last (h ▸ hnd)
    simp only [hkeep]
    have hu : updateSubSurfaceStacking (f + 2) c (sc.setChildItems p
        (moveAfter (sc.childItems p) (Item.surface c) (Item.surface last))) = some _ :=
      updateSubSurfaceStacking_leaf (f + 1) _ c hleafc
    simp only [ne_eq, not_false_eq_true, Option.some.injEq, and_self, reduceCtorEq, ite_true]
    generalize hS : Scene.setWrapper _ a _ = S
    have hSX : S = sc.setChildItems p
        (moveAfter (sc.childItems p) (Item.surface c) (Item.surface last)) := by
      rw [← hS]
      exact setWrapper_same _ a
    rw [hSX, hu]

theorem restackLoop_leafFamily (p : Nat) (a : SurfaceId) (cs : List SurfaceId) :
    ∀ (rest : List SurfaceId) (fuel : Nat) (last : SurfaceId) (sc : Scene),
      LeafFamily sc p a cs → ((last = a ∧ cs = rest) ∨ ∃ P, cs = P ++ last :: rest) →
      rest.length + 3 ≤ fuel →
      restackLoop fuel rest last sc =
        some (sc.setChildItems p
          (restackList (sc.childItems p) (Item.surface last) (rest.map Item.surface))) := by
  intro rest
  induction rest with
  | nil =>
    intro fuel last sc _ _ _
    rw [restackLoop]
    simp only [List.map_nil, restackList]
    rw [setChildItems_same]
  | cons c rest ih =>
    intro fuel last sc hfam hlast hfuel
    obtain ⟨g, rfl⟩ : ∃ g, fuel = g + 4 := ⟨fuel - 4, by simp at hfuel; omega⟩
    have hc : c ∈ cs := by
      rcases hlast with ⟨_, h⟩ | ⟨P, h⟩
      · rw [h]
        exact List.mem_cons_self c rest
      · rw [h]
        simp
    have hstep := stackAfter_leafChild g sc p a cs c last hfam hc (by
      rcases hlast with ⟨h, _⟩ | ⟨P, h⟩
      · exact Or.inl h
      · exact Or.inr ⟨P, rest, h⟩)
    have hleaf : (sc.wrappers c).subSurfaces = [] := (hfam.2.2.2.2 c hc).2.2
    have hl : stackLastSurface (g + 3) (sc.setChildItems p
        (moveAfter (sc.childItems p) (Item.surface c) (Item.surface last))) c = some c :=
      stackLastSurface_leaf (g + 2) _ c hleaf
    have hnext := ih (g + 3) c (sc.setChildItems p
        (moveAfter (sc.childItems p) (Item.surface c) (Item.surface last)))
      (hfam.setChildItems _) (Or.inr (by
        rcases hlast with ⟨_, h⟩ | ⟨P, h⟩
        · exact ⟨[], by rw [h]; rfl⟩
        · exact ⟨P ++ [last], by rw [h]; simp⟩)) (by simp at hfuel; omega)
    rw [restackLoop, hstep]
    simp only [hl, hnext, setChildItems_twice, setChildItems_childItems, List.map_cons,
      restackList]

theorem StackPair.transport {sc sc1 : Scene} {p : Nat} {a b : SurfaceId} {cs : List SurfaceId}
    (h : StackPair sc p a b cs) (hpi : sc1.parentItem = sc.parentItem)
    (hw : ∀ x ∈ a :: b :: cs, sc1.wrappers x = sc.wrappers x)
    (hperm : (sc1.childItems p).Perm (sc.childItems p)) : StackPair sc1 p a b cs := by
  obtain ⟨⟨f1, f2, f3, f4, f5⟩, h2, h3, h4, h5, h6, h7, h8⟩ := h
  have hwa := hw a (List.mem_cons_self _ _)
  have hwb := hw b (List.mem_cons_of_mem _ (List.mem_cons_self _ _))
  have hwc : ∀ c ∈ cs, sc1.wrappers c = sc.wrappers c := fun c hc =>
    hw c (List.mem_cons_of_mem _ (List.mem_cons_of_mem _ hc))
  refine ⟨⟨by rw [hpi]; exact f1, by rw [hwa]; exact f2, f3, f4, fun c hc => ?_⟩, h2, h3,
    by rw [hpi]; exact h4, by rw [hwb]; exact h5, hperm.nodup_iff.2 h6,
    fun x hx => hperm.mem_iff.2 (h7 x hx), ?_⟩
  · rw [hpi, hwc c hc]
    exact f5 c hc
  · rw [hwa, hwb]
    exact h8

theorem updateSubSurfaceStacking_stackPair (fuel : Nat) (sc : Scene) (p : Nat)
    (a b : SurfaceId) (cs : List SurfaceId) (U I F V : List Item)
    (h : StackPair sc p a b cs) (hfuel : cs.length + 4 ≤ fuel)
    (hl : sc.childItems p = U ++ I ++ Item.surface a :: F ++ V)
    (hIF : ∀ c ∈ cs, Item.surface c ∉ I ++ F) :
    ∃ sc1 U1 V1, updateSubSurfaceStacking fuel a sc = some sc1 ∧
      sc1.childItems p = U1 ++ I ++ Item.surface a :: cs.map Item.surface ++ F ++ V1 ∧
      StackPair sc1 p a b cs := by
  obtain ⟨g, rfl⟩ : ∃ g, fuel = g + 1 := ⟨fuel - 1, by omega⟩
  have hfam := h.1
  have hnd : (U ++ I ++ Item.surface a :: F ++ V).Nodup := hl ▸ h.2.2.2.2.2.1
  have hmem : ∀ c ∈ cs.map Item.surface, c ∈ U ∨ c ∈ V := by
    intro i hi
    obtain ⟨c, hc, rfl⟩ := List.mem_map.1 hi
    have hin := h.2.2.2.2.2.2.1 c (List.mem_cons_of_mem _ (List.mem_cons_of_mem _ hc))
    rw [hl] at hin
    have hno := hIF c hc
    have hca : Item.surface c ≠ Item.surface a := fun e =>
      hfam.2.2.2.1 ((Item.surface.inj e) ▸ hc)
    simp only [List.mem_append, List.mem_cons] at hin hno
    tauto
  have hcsnd : (cs.map Item.surface).Nodup :=
    List.Nodup.map (fun _ _ e => Item.surface.inj e) hfam.2.2.1
  obtain ⟨U1, V1, hres, hperm⟩ :=
    restackList_spec F (cs.map Item.surface) U I (Item.surface a) V hnd hmem hcsnd
  refine ⟨sc.setChildItems p (U1 ++ I ++ Item.surface a :: cs.map Item.surface ++ F ++ V1),
    U1, V1, ?_, setChildItems_childItems _ _ _, ?_⟩
  · rw [updateSubSurfaceStacking, hfam.2.1,
      restackLoop_leafFamily p a cs cs g a sc hfam (Or.inl ⟨rfl, rfl⟩) (by omega), hl, hres]
  · refine h.transport rfl (fun _ _ => rfl) ?_
    rw [setChildItems_childItems, hl]
    exact hperm

theorem stackBefore_stackPair (fuel : Nat) (sc : Scene) (p : Nat) (a b : SurfaceId)
    (cs : List SurfaceId) (h : StackPair sc p a b cs) (hfuel : cs.length + 5 ≤ fuel) :
    ∃ sc1 pre post, stackBefore fuel a (Item.surface b) sc = some (true, sc1) ∧
      sc1.childItems p =
        pre ++ Item.surface a :: cs.map Item.surface ++ Item.surface b :: post ∧
      StackPair sc1 p a b cs := by
  obtain ⟨g, rfl⟩ : ∃ g, fuel = g + 5 := ⟨fuel - 5, by omega⟩
  have h0 := h
  obtain ⟨⟨f1, f2, f3, f4, f5⟩, h2, h3, h4, h5, h6, h7, h8⟩ := h
  have hba : hasChild (g + 4) sc b a = some false := hasChild_leaf (g + 3) sc b a h5
  have hab : hasChild (g + 4) sc a b = some false := by
    have := hasChild_leafChildren (g + 2) sc a b (fun d hd => (f5 d (f2 ▸ hd)).2.2)
    rw [f2] at this
    rw [this]
    simp only [Option.some.injEq, List.any_eq_false, decide_eq_true_eq]
    exact fun x hx e => h3 (e ▸ hx)
  have hfirst : stackFirstSurface (g + 4) sc b = some b := stackFirstSurface_leaf (g + 3) sc b h5
  have hmove := itemStackBefore_eq sc p (Item.surface a) (Item.surface b) f1 h4
    (fun e => h2 (Item.surface.inj e).symm)
  obtain ⟨U, V, hadj, hperm⟩ := moveBefore_adjacent h6
    (h7 a (List.mem_cons_self _ _))
    (h7 b (List.mem_cons_of_mem _ (List.mem_cons_self _ _)))
    (fun e => h2 (Item.surface.inj e))
  have hIF : ∀ c ∈ cs, Item.surface c ∉ ([] : List Item) ++ [Item.surface b] := by
    intro c hc hm
    simp only [List.nil_append, List.mem_singleton] at hm
    exact h3 ((Item.surface.inj hm) ▸ hc)
  rw [stackBefore]
  rw [if_neg (by rw [f1, h4]; simp), if_neg (fun e => h2 (Item.surface.inj e))]
  simp only [hba, hab, hfirst, hmove]
  rcases h8 with hnone | ⟨q, hqa, hqb, hq⟩
  · simp only [hnone, ne_eq, not_true_eq_false, false_and, ite_false]
    have hS : StackPair (sc.setChildItems p
        (moveBefore (sc.childItems p) (Item.surface a) (Item.surface b))) p a b cs := by
      refine h0.transport rfl (fun _ _ => rfl) ?_
      rw [setChildItems_childItems, hadj]
      exact hperm
    obtain ⟨sc1, U1, V1, hup, hord, hfin⟩ := updateSubSurfaceStacking_stackPair (g + 4) _ p a b cs
      U [] [Item.surface b] V hS (by omega)
      (by rw [setChildItems_childItems, hadj]; simp) hIF
    rw [hup]
    exact ⟨sc1, U1, V1, rfl, by rw [hord]; simp, hfin⟩
  · simp only [hqa, hqb, ne_eq, not_false_eq_true, and_self, reduceCtorEq, ite_true]
    generalize hSdef : Scene.setWrapper _ q _ = S
    have hSw : ∀ x ∈ a :: b :: cs, S.wrappers x = sc.wrappers x := by
      intro x hx
      have hxq : x ≠ q := fun e => hq (e ▸ hx)
      rw [← hSdef, setWrapper_other _ _ _ _ hxq]
      rfl
    have hSc : S.childItems p = U ++ Item.surface a :: Item.surface b :: V := by
      rw [← hSdef, setWrapper_childItems, setChildItems_childItems, hadj]
    have hS : StackPair S p a b cs := by
      refine h0.transport (by rw [← hSdef]; rfl) hSw ?_
      rw [hSc]
      exact hperm
    obtain ⟨sc1, U1, V1, hup, hord, hfin⟩ := updateSubSurfaceStacking_stackPair (g + 4) S p a b cs
      U [] [Item.surface b] V hS (by omega) (by rw [hSc]; simp) hIF
    rw [hup]
    exact ⟨sc1, U1, V1, rfl, by rw [hord]; simp, hfin⟩

theorem stackAfter_stackPair (fuel : Nat) (sc : Scene) (p : Nat) (a b : SurfaceId)
    (cs : List SurfaceId) (h : StackPair sc p a b cs) (hfuel : cs.length + 5 ≤ fuel) :
    ∃ sc1 pre post, stackAfter fuel a (Item.surface b) sc = some (true, sc1) ∧
      sc1.childItems p =
        pre ++ Item.surface b :: Item.surface a :: cs.map Item.surface ++ post ∧
      StackPair sc1 p a b cs := by
  obtain ⟨g, rfl⟩ : ∃ g, fuel = g + 5 := ⟨fuel - 5, by omega⟩
  have h0 := h
  obtain ⟨⟨f1, f2, f3, f4, f5⟩, h2, h3, h4, h5, h6, h7, h8⟩ := h
  have hba : hasChild (g + 4) sc b a = some false := hasChild_leaf (g + 3) sc b a h5
  have hab : hasChild (g + 4) sc a b = some false := by
    have := hasChild_leafChildren (g + 2) sc a b (fun d hd => (f5 d (f2 ▸ hd)).2.2)
    rw [f2] at this
    rw [this]
    simp only [Option.some.injEq, List.any_eq_false, decide_eq_true_eq]
    exact fun x hx e => h3 (e ▸ hx)
  have hlast : stackLastSurface (g + 4) sc b = some b := stackLastSurface_leaf (g + 3) sc b h5
  have hmove := itemStackAfter_eq sc p (Item.surface a) (Item.surface b) f1 h4
    (fun e => h2 (Item.surface.inj e).symm)
  obtain ⟨U, V, hadj, hperm⟩ := moveAfter_adjacent h6
    (h7 a (List.mem_cons_self _ _))
    (h7 b (List.mem_cons_of_mem _ (List.mem_cons_self _ _)))
    (fun e => h2 (Item.surface.inj e))
  have hIF : ∀ c ∈ cs, Item.surface c ∉ [Item.surface b] ++ ([] : List Item) := by
    intro c hc hm
    simp only [List.append_nil, List.mem_singleton] at hm
    exact h3 ((Item.surface.inj hm) ▸ hc)
  rw [stackAfter]
  rw [if_neg (by rw [f1, h4]; simp), if_neg (fun e => h2 (Item.surface.inj e))]
  simp only [hba, hab, hlast, hmove]
  rcases h8 with hnone | ⟨q, hqa, hqb, hq⟩
  · simp only [hnone, ne_eq, not_true_eq_false, false_and, ite_false]
    have hS : StackPair (sc.setChildItems p
        (moveAfter (sc.childItems p) (Item.surface a) (Item.surface b))) p a b cs := by
      refine h0.transport rfl (fun _ _ => rfl) ?_
      rw [setChildItems_childItems, hadj]
      exact hperm
    obtain ⟨sc1, U1, V1, hup, hord, hfin⟩ := updateSubSurfaceStacking_stackPair (g + 4) _ p a b cs
      U [Item.surface b] [] V hS (by omega)
      (by rw [setChildItems_childItems, hadj]; simp) hIF
    rw [hup]
    exact ⟨sc1, U1, V1, rfl, by rw [hord]; simp, hfin⟩
  · simp only [hqa, hqb, ne_eq, not_false_eq_true, and_self, reduceCtorEq, ite_true]
    generalize hSdef : Scene.setWrapper _ q _ = S
    have hSw : ∀ x ∈ a :: b :: cs, S.wrappers x = sc.wrappers x := by
      intro x hx
      have hxq : x ≠ q := fun e => hq (e ▸ hx)
      rw [← hSdef, setWrapper_other _ _ _ _ hxq]
      rfl
    have hSc : S.childItems p = U ++ Item.surface b :: Item.surface a :: V := by
      rw [← hSdef, setWrapper_childItems, setChildItems_childItems, hadj]
    have hS : StackPair S p a b cs := by
      refine h0.transport (by rw [← hSdef]; rfl) hSw ?_
      rw [hSc]
      exact hperm
    obtain ⟨sc1, U1, V1, hup, hord, hfin⟩ := updateSubSurfaceStacking_stackPair (g + 4) S p a b cs
      U [Item.surface b] [] V hS (by omega) (by rw [hSc]; simp) hIF
    rw [hup]
    exact ⟨sc1, U1, V1, rfl, by rw [hord]; simp, hfin⟩

/-! ## Lemmas on the title bar -/

theorem updateTitleBar_consistent (s : Surface) :
    (updateVisible (updateTitleBar s)).titleBar = !noTitleBar (updateVisible (updateTitleBar s)) ∧
    (updateTitleBar s).titleBar = !noTitleBar (updateTitleBar s) ∧
    (updateTitleBar s).titleBarState = s.titleBarState ∧
    (updateTitleBar s).noDecoration = s.noDecoration ∧
    (updateTitleBar s).surfaceState = s.surfaceState := by
  rw [updateTitleBar_eq]
  exact ⟨rfl, rfl, rfl, rfl, rfl⟩

theorem doSetSurfaceState_titleBar (t : State) (s : Surface) :
    (doSetSurfaceState t s).titleBar = !noTitleBar (doSetSurfaceState t s) := by
  unfold doSetSurfaceState
  exact (updateTitleBar_consistent _).1

theorem startMinimizeAnimation_titleBar (g : QRectF) (d : Nat) (s : Surface) :
    (startMinimizeAnimation g d s).titleBar = s.titleBar ∧
    noTitleBar (startMinimizeAnimation g d s) = noTitleBar s := by
  unfold startMinimizeAnimation
  split_ifs <;> exact ⟨rfl, rfl⟩

theorem setSurfaceState_flip_titleBar (env : Env) (t : State) (s s1 : Surface)
    (h : setSurfaceState env t s = some s1) (hp : takesImmediatePath env t s = true) :
    s1.titleBar = !noTitleBar s1 := by
  unfold takesImmediatePath at hp
  simp only [Bool.and_eq_true, Bool.not_eq_true', decide_eq_true_eq] at hp
  obtain ⟨⟨⟨⟨h1, h2⟩, h3⟩, h4⟩, h5⟩ := hp
  rcases setSurfaceState_cases env t s s1 h with ⟨_, hr⟩ | ⟨_, hv, _⟩ | hd
  · rcases hr with hr | hr | hr
    · rw [h1] at hr
      exact absurd hr (by simp)
    · exact absurd hr h2
    · rw [h4] at hr
      exact absurd hr (by simp)
  · rw [h5] at hv
    exact absurd hv (by simp)
  · rw [hd]
    exact doSetSurfaceState_titleBar t s

theorem step_flip_titleBar (env : Env) (op : Op) (s s1 : Surface)
    (h : step env op s = some s1) (hf : flipTarget env op s ≠ none) :
    s1.titleBar = !noTitleBar s1 := by
  cases op with
  | setSurfaceState t =>
    simp only [flipTarget, ne_eq, ite_eq_right_iff, reduceCtorEq, imp_false, not_not] at hf
    exact setSurfaceState_flip_titleBar env t s s1 h hf
  | onAnimationReady =>
    simp only [flipTarget, ne_eq, ite_eq_right_iff, reduceCtorEq, imp_false, not_not] at hf
    simp only [step, onAnimationReady, resize, hf, Bool.not_true, Bool.false_eq_true, if_false,
      Option.some.injEq] at h
    subst h
    exact doSetSurfaceState_titleBar _ _
  | requestCancelMinimize =>
    simp only [flipTarget, ne_eq, ite_eq_right_iff, reduceCtorEq, imp_false, not_not] at hf
    simp only [step, requestCancelMinimize, Option.some.injEq] at h
    rw [if_neg (not_not.2 hf)] at h
    subst h
    rw [(startMinimizeAnimation_titleBar _ _ _).1, (startMinimizeAnimation_titleBar _ _ _).2]
    exact doSetSurfaceState_titleBar _ _
  | requestMinimize =>
    simp only [flipTarget, ne_eq, ite_eq_right_iff, reduceCtorEq, imp_false, not_not] at hf
    simp only [step, requestMinimize, Option.map_eq_some'] at h
    obtain ⟨s0, h0, rfl⟩ := h
    rw [(startMinimizeAnimation_titleBar _ _ _).1, (startMinimizeAnimation_titleBar _ _ _).2]
    exact setSurfaceState_flip_titleBar env _ s s0 h0 hf
  | requestMaximize =>
    simp only [flipTarget, ne_eq, ite_eq_right_iff, reduceCtorEq, imp_false, not_not] at hf
    simp only [step, requestMaximize] at h
    rw [if_neg (by tauto)] at h
    exact setSurfaceState_flip_titleBar env _ s s1 h hf.2.2
  | requestCancelMaximize =>
    simp only [flipTarget, ne_eq, ite_eq_right_iff, reduceCtorEq, imp_false, not_not] at hf
    simp only [step, requestCancelMaximize] at h
    rw [if_neg (not_not.2 hf.1)] at h
    exact setSurfaceState_flip_titleBar env _ s s1 h hf.2
  | requestToggleMaximize =>
    simp only [step, requestToggleMaximize, requestCancelMaximize, requestMaximize] at h
    simp only [flipTarget] at hf
    by_cases hm : s.surfaceState = State.Maximized
    · rw [if_pos hm] at hf h
      rw [if_neg (not_not.2 hm)] at h
      simp only [ne_eq, ite_eq_right_iff, reduceCtorEq, imp_false, not_not] at hf
      exact setSurfaceState_flip_titleBar env _ s s1 h hf
    · rw [if_neg hm] at hf h
      simp only [ne_eq, ite_eq_right_iff, reduceCtorEq, imp_false, not_not] at hf
      rw [if_neg (by tauto)] at h
      exact setSurfaceState_flip_titleBar env _ s s1 h hf.2.2
  | requestFullscreen =>
    simp only [flipTarget, ne_eq, ite_eq_right_iff, reduceCtorEq, imp_false, not_not] at hf
    simp only [step, requestFullscreen] at h
    rw [if_neg hf.1] at h
    exact setSurfaceState_flip_titleBar env _ s s1 h hf.2
  | requestCancelFullscreen =>
    simp only [flipTarget, ne_eq, ite_eq_right_iff, reduceCtorEq, imp_false, not_not] at hf
    simp only [step, requestCancelFullscreen] at h
    rw [if_neg (not_not.2 hf.1)] at h
    exact setSurfaceState_flip_titleBar env _ s s1 h hf.2
  | _ => exact absurd rfl hf

/-! ## Lemmas on roles and elevation -/

theorem setWrapper_twice (sc : Scene) (x : SurfaceId) (a b : Wrapper) :
    (sc.setWrapper x a).setWrapper x b = sc.setWrapper x b := by
  unfold Scene.setWrapper
  simp

theorem foldl_setZ_same (self : SurfaceId) (v : Int) :
    ∀ (l : List SurfaceId) (sc : Scene), (sc.wrappers self).z = v →
      l.foldl (fun acc _ => acc.setWrapper self { acc.wrappers self with z := v }) sc = sc := by
  intro l
  induction l with
  | nil =>
    intro sc _
    rfl
  | cons c cs ih =>
    intro sc hz
    have hw : ({ sc.wrappers self with z := v } : Wrapper) = sc.wrappers self := by
      rw [← hz]
    rw [List.foldl_cons, hw, setWrapper_same]
    exact ih sc hz

theorem setSurfaceRole_eq (self : SurfaceId) (role : SurfaceRole) (sc : Scene) :
    setSurfaceRole self role sc =
      if (sc.wrappers self).surfaceRole = role then sc
      else sc.setWrapper self { sc.wrappers self with surfaceRole := role, z := roleZ role } := by
  unfold setSurfaceRole
  by_cases h : (sc.wrappers self).surfaceRole = role
  · rw [if_pos h, if_pos h]
  · rw [if_neg h, if_neg h]
    cases role with
    | Normal =>
      simp only []
      rw [foldl_setZ_same self 0 _ _ (by rw [setWrapper_self]), setWrapper_self, setWrapper_twice]
      rfl
    | special v =>
      simp only []
      rw [foldl_setZ_same self (ALWAYSONTOPLAYER + v) _ _ (by rw [setWrapper_self]),
        setWrapper_self, setWrapper_twice]
      rfl

theorem setSurfaceRole_fields (self : SurfaceId) (role : SurfaceRole) (sc : Scene) :
    (∀ x, x ≠ self → (setSurfaceRole self role sc).wrappers x = sc.wrappers x) ∧
    ((sc.wrappers self).surfaceRole = role → setSurfaceRole self role sc = sc) ∧
    ((sc.wrappers self).surfaceRole ≠ role →
      ((setSurfaceRole self role sc).wrappers self).z = roleZ role) ∧
    ((setSurfaceRole self role sc).wrappers self).surfaceRole = role ∧
    ((setSurfaceRole self role sc).wrappers self).explicitAlwaysOnTop =
      (sc.wrappers self).explicitAlwaysOnTop ∧
    ((setSurfaceRole self role sc).wrappers self).alwaysOnTop = (sc.wrappers self).alwaysOnTop ∧
    ((setSurfaceRole self role sc).wrappers self).parentSurface =
      (sc.wrappers self).parentSurface ∧
    ((setSurfaceRole self role sc).wrappers self).subSurfaces = (sc.wrappers self).subSurfaces := by
  rw [setSurfaceRole_eq]
  by_cases h : (sc.wrappers self).surfaceRole = role
  · rw [if_pos h]
    exact ⟨fun _ _ => rfl, fun _ => rfl, fun hn => absurd h hn, h, rfl, rfl, rfl, rfl⟩
  · rw [if_neg h]
    refine ⟨fun x hx => setWrapper_other _ _ _ _ hx, fun he => absurd he h, fun _ => ?_, ?_, ?_,
      ?_, ?_, ?_⟩ <;> rw [setWrapper_self]

/-! ## Lemmas on activation -/

theorem withActivated_fields (w : Wrapper) (b : Bool) :
    (w.withActivated b).parentSurface = w.parentSurface ∧
    (w.withActivated b).core.shell.activated = b ∧
    (w.withActivated b).subSurfaces = w.subSurfaces ∧
    (w.withActivated b).core.hasActiveCapability = w.core.hasActiveCapability ∧
    ∀ c, (w.withActivated b).withActivated c = w.withActivated c :=
  ⟨rfl, rfl, rfl, rfl, fun _ => rfl⟩

theorem withActivated_self (w : Wrapper) : w.withActivated w.core.shell.activated = w := rfl

theorem ActivatedOn.congr {a : Bool} {T T1 : SurfaceId → Prop} {sc sc1 : Scene}
    (h : ActivatedOn a T sc sc1) (hT : ∀ y, T y ↔ T1 y) : ActivatedOn a T1 sc sc1 := by
  refine ⟨h.1, h.2.1, fun y => ?_⟩
  obtain ⟨b, hb, h1, h2⟩ := h.2.2 y
  exact ⟨b, hb, fun ht => h1 ((hT y).2 ht), fun hn => h2 (fun ht => hn ((hT y).1 ht))⟩

theorem ActivatedOn.union {a : Bool} {T1 T2 : SurfaceId → Prop} {sc sc1 sc2 : Scene}
    (h1 : ActivatedOn a T1 sc sc1) (h2 : ActivatedOn a T2 sc1 sc2) :
    ActivatedOn a (fun y => T1 y ∨ T2 y) sc sc2 := by
  refine ⟨h2.1.trans h1.1, h2.2.1.trans h1.2.1, fun y => ?_⟩
  obtain ⟨b1, hb1, p1, n1⟩ := h1.2.2 y
  obtain ⟨b2, hb2, p2, n2⟩ := h2.2.2 y
  refine ⟨b2, ?_, fun ht => ?_, fun hn => ?_⟩
  · rw [hb2, hb1]
    rfl
  · by_cases ht2 : T2 y
    · exact p2 ht2
    · rw [n2 ht2, hb1]
      rcases ht with ht1 | ht2'
      · exact p1 ht1
      · exact absurd ht2' ht2
  · have hn1 : ¬ T1 y := fun h => hn (Or.inl h)
    have hn2 : ¬ T2 y := fun h => hn (Or.inr h)
    rw [n2 hn2, hb1]
    exact n1 hn1

theorem ActivatedOn.parents {a : Bool} {T : SurfaceId → Prop} {sc sc1 : Scene}
    (h : ActivatedOn a T sc sc1) (y : SurfaceId) :
    (sc1.wrappers y).parentSurface = (sc.wrappers y).parentSurface := by
  obtain ⟨b, hb, -, -⟩ := h.2.2 y
  rw [hb]
  rfl

theorem ancestorVia_iff (par : SurfaceId → Option SurfaceId) (x y : SurfaceId) :
    AncestorVia par x y ↔ ∃ q, par x = some q ∧ (y = q ∨ AncestorVia par q y) := by
  unfold AncestorVia
  rw [Relation.TransGen.head'_iff]
  constructor
  · rintro ⟨q, hq, hr⟩
    exact ⟨q, hq, (Relation.reflTransGen_iff_eq_or_transGen.1 hr)⟩
  · rintro ⟨q, hq, hr⟩
    exact ⟨q, hq, Relation.reflTransGen_iff_eq_or_transGen.2 hr⟩

theorem setActivate_first_step (self : SurfaceId) (a : Bool) (sc : Scene) (l : List SceneEffect) :
    ActivatedOn a (fun y => y = self) sc
      (({ sc with log := l } : Scene).setWrapper self ((sc.wrappers self).withActivated a)) := by
  refine ⟨rfl, rfl, fun y => ?_⟩
  by_cases hy : y = self
  · subst hy
    exact ⟨a, setWrapper_self _ _ _, fun _ => rfl, fun hn => absurd rfl hn⟩
  · refine ⟨(sc.wrappers y).core.shell.activated, ?_, fun h => absurd h hy, fun _ => rfl⟩
    rw [setWrapper_other _ _ _ _ hy]
    rfl

theorem setActivate_unfold (fuel : Nat) (x : SurfaceId) (a : Bool) (sc : Scene) :
    ∃ mid, ActivatedOn a (fun y => y = x) sc mid ∧
      setActivate (fuel + 1) x a sc =
        activateAncestors fuel (mid.wrappers x).parentSurface a mid := by
  rw [setActivate]
  refine ⟨_, ?_, rfl⟩
  by_cases hc : (a && !hasActiveCapability (sc.wrappers x).core) = true
  · rw [if_pos hc]
    exact setActivate_first_step x a sc _
  · rw [if_neg hc]
    exact setActivate_first_step x a sc sc.log

theorem setActivate_spec (par : SurfaceId → Option SurfaceId) (depth : SurfaceId → Nat)
    (hd : ∀ c p, par c = some p → depth p < depth c) (fuel : Nat) :
    (∀ (x : SurfaceId) (a : Bool) (sc : Scene),
      (∀ y, (sc.wrappers y).parentSurface = par y) → 2 * depth x + 1 ≤ fuel →
      ∃ sc1, setActivate fuel x a sc = some sc1 ∧
        ActivatedOn a (fun y => y = x ∨ AncestorVia par x y) sc sc1) ∧
    (∀ (p : Option SurfaceId) (a : Bool) (sc : Scene),
      (∀ y, (sc.wrappers y).parentSurface = par y) →
      (∀ q, p = some q → 2 * depth q + 2 ≤ fuel) →
      ∃ sc1, activateAncestors fuel p a sc = some sc1 ∧
        ActivatedOn a (fun y => ∃ q, p = some q ∧ (y = q ∨ AncestorVia par q y)) sc sc1) := by
  induction fuel with
  | zero =>
    refine ⟨fun x a sc _ hx => absurd hx (by omega), fun p a sc _ hp => ?_⟩
    cases p with
    | none =>
      refine ⟨sc, by rw [activateAncestors], rfl, rfl, fun y => ?_⟩
      exact ⟨_, rfl, fun ⟨q, hq, _⟩ => absurd hq (by simp), fun _ => rfl⟩
    | some q => exact absurd (hp q rfl) (by omega)
  | succ fuel ih =>
    obtain ⟨ihS, ihL⟩ := ih
    constructor
    · intro x a sc hpar hx
      obtain ⟨mid, hfirst, hunf⟩ := setActivate_unfold fuel x a sc
      rw [hunf]
      have hparmid : ∀ y, (mid.wrappers y).parentSurface = par y := fun y =>
        (hfirst.parents y).trans (hpar y)
      rw [hparmid x]
      obtain ⟨sc1, h1, hact⟩ := ihL (par x) a mid hparmid (fun q hq => by
        have := hd x q hq
        omega)
      refine ⟨sc1, h1, (hfirst.union hact).congr (fun y => ?_)⟩
      rw [ancestorVia_iff par x y]
    · intro p a sc hpar hp
      cases p with
      | none =>
        refine ⟨sc, by rw [activateAncestors], rfl, rfl, fun y => ?_⟩
        exact ⟨_, rfl, fun ⟨q, hq, _⟩ => absurd hq (by simp), fun _ => rfl⟩
      | some q =>
        have hq := hp q rfl
        obtain ⟨sc1, h1, hact1⟩ := ihS q a sc hpar (by omega)
        have hpar1 : ∀ y, (sc1.wrappers y).parentSurface = par y := fun y =>
          (hact1.parents y).trans (hpar y)
        obtain ⟨sc2, h2, hact2⟩ := ihL (par q) a sc1 hpar1 (fun r hr => by
          have := hd q r hr
          omega)
        refine ⟨sc2, ?_, (hact1.union hact2).congr (fun y => ?_)⟩
        · rw [activateAncestors, h1]
          simp only []
          rw [hpar1 q]
          exact h2
        · constructor
          · rintro (h | ⟨r, hr, h⟩)
            · exact ⟨q, rfl, h⟩
            · exact ⟨q, rfl, Or.inr ((ancestorVia_iff par q y).2 ⟨r, hr, h⟩)⟩
          · rintro ⟨q1, hq1, h⟩
            cases hq1
            exact Or.inl h

/-! ## Lemmas on restacking among siblings -/

theorem anyM_option_false {α : Type} (g : α → Option Bool) :
    ∀ l : List α, l.anyM g = some false → ∀ c ∈ l, g c = some false := by
  intro l
  induction l with
  | nil =>
    intro _ c hc
    exact absurd hc (List.not_mem_nil c)
  | cons d ds ih =>
    intro h c hc
    simp only [List.anyM, bind, Option.bind] at h
    cases hd : g d with
    | none => simp [hd] at h
    | some b =>
      cases b with
      | true => simp [hd, pure] at h
      | false =>
        simp only [hd] at h
        rcases List.mem_cons.1 hc with rfl | hc
        · exact hd
        · exact ih h c hc

theorem anyM_option_true {α : Type} (g : α → Option Bool) :
    ∀ l : List α, l.anyM g = some true → ∃ c ∈ l, g c = some true := by
  intro l
  induction l with
  | nil =>
    intro h
    simp [List.anyM, pure] at h
  | cons d ds ih =>
    intro h
    simp only [List.anyM, bind, Option.bind] at h
    cases hd : g d with
    | none => simp [hd] at h
    | some b =>
      cases b with
      | true => exact ⟨d, List.mem_cons_self d ds, hd⟩
      | false =>
        simp only [hd] at h
        obtain ⟨c, hc, hg⟩ := ih h
        exact ⟨c, List.mem_cons_of_mem d hc, hg⟩

theorem hasChild_false_sound (fuel : Nat) :
    ∀ (sc : Scene) (a x : SurfaceId), hasChild fuel sc a x = some false →
      ¬ ReachesBelow sc a x := by
  induction fuel with
  | zero =>
    intro sc a x h
    simp [hasChild] at h
  | succ fuel ih =>
    intro sc a x h hreach
    rw [hasChild] at h
    have hall := anyM_option_false _ _ h
    unfold ReachesBelow at hreach
    rw [Relation.TransGen.head'_iff] at hreach
    obtain ⟨c, hc, hrest⟩ := hreach
    have hg := hall c hc
    by_cases hcx : c = x
    · rw [if_pos hcx] at hg
      exact absurd hg (by simp)
    · rw [if_neg hcx] at hg
      rcases Relation.reflTransGen_iff_eq_or_transGen.1 hrest with he | ht
      · exact hcx he.symm
      · exact ih sc c x hg ht

theorem hasChild_true_sound (fuel : Nat) :
    ∀ (sc : Scene) (a x : SurfaceId), hasChild fuel sc a x = some true →
      ReachesBelow sc a x := by
  induction fuel with
  | zero =>
    intro sc a x h
    simp [hasChild] at h
  | succ fuel ih =>
    intro sc a x h
    rw [hasChild] at h
    obtain ⟨c, hc, hg⟩ := anyM_option_true _ _ h
    by_cases hcx : c = x
    · subst hcx
      exact Relation.TransGen.single hc
    · rw [if_neg hcx] at hg
      exact Relation.TransGen.head hc (ih sc c x hg)

theorem stackLastSurface_reaches (fuel : Nat) :
    ∀ (sc : Scene) (a b : SurfaceId), stackLastSurface fuel sc a = some b → Reaches sc a b := by
  induction fuel with
  | zero =>
    intro sc a b h
    simp [stackLastSurface] at h
  | succ fuel ih =>
    intro sc a b h
    rw [stackLastSurface] at h
    cases hl : (sc.wrappers a).subSurfaces.getLast? with
    | none =>
      rw [hl] at h
      simp only [Option.some.injEq] at h
      subst h
      exact Relation.ReflTransGen.refl
    | some last =>
      rw [hl] at h
      exact Relation.ReflTransGen.head (List.mem_of_mem_getLast? hl) (ih sc last b h)

theorem get?_split {α : Type} :
    ∀ (l : List α) (i : Nat) (x : α), l.get? i = some x →
      ∃ X R, l = X ++ x :: R ∧ X.length = i := by
  intro l
  induction l with
  | nil =>
    intro i x h
    simp at h
  | cons y ys ih =>
    intro i x h
    cases i with
    | zero =>
      simp at h
      exact ⟨[], ys, by simp [h], rfl⟩
    | succ i =>
      simp at h
      obtain ⟨X, R, hl, hX⟩ := ih i x (by simpa using h)
      exact ⟨y :: X, R, by simp [hl], by simp [hX]⟩

theorem perm_listMove {α : Type} (l : List α) (i j : Int) : (listMove l i j).Perm l := by
  unfold listMove
  split_ifs with h
  · cases hg : l.get? i.toNat with
    | none => exact List.Perm.refl l
    | some x =>
      simp only []
      obtain ⟨X, R, hl, hX⟩ := get?_split l i.toNat x hg
      have hj : j.toNat ≤ (X ++ R).length := by
        have := congrArg List.length hl
        simp at this
        simp
        omega
      have he : l.eraseIdx i.toNat = X ++ R := by
        rw [hl, ← hX]
        exact eraseIdx_append_length x R X
      have hsplit : (X ++ R).take j.toNat ++ (X ++ R).drop j.toNat = X ++ R :=
        List.take_append_drop _ _
      have hlen : ((X ++ R).take j.toNat).length = j.toNat := by
        rw [List.length_take]
        omega
      have hins : List.insertIdx j.toNat x (X ++ R) =
          (X ++ R).take j.toNat ++ x :: (X ++ R).drop j.toNat := by
        have := insertIdx_append_length x ((X ++ R).drop j.toNat) ((X ++ R).take j.toNat)
        rw [hlen, hsplit] at this
        exact this
      rw [he, hins]
      refine List.Perm.trans List.perm_middle ?_
      rw [hsplit, hl]
      exact List.perm_middle.symm
  · exact List.Perm.refl l

theorem perm_moveAfter {α : Type} [DecidableEq α] (l : List α) (x y : α) :
    (moveAfter l x y).Perm l := by
  unfold moveAfter
  simp only []
  split_ifs
  · exact perm_listMove _ _ _
  · exact perm_listMove _ _ _
  · exact List.Perm.refl l

theorem perm_moveBefore {α : Type} [DecidableEq α] (l : List α) (x y : α) :
    (moveBefore l x y).Perm l := by
  unfold moveBefore
  simp only []
  split_ifs
  · exact perm_listMove _ _ _
  · exact perm_listMove _ _ _
  · exact List.Perm.refl l

theorem RestackedBelow.unchanged (y : SurfaceId) (sc : Scene) : RestackedBelow y sc sc :=
  ⟨fun _ => rfl, fun _ => List.Perm.refl _, fun _ _ => rfl⟩

theorem RestackedBelow.of_wrappers {y : SurfaceId} {sc sc1 : Scene}
    (h : sc1.wrappers = sc.wrappers) : RestackedBelow y sc sc1 := by
  refine ⟨fun x => ?_, fun x => ?_, fun x _ => ?_⟩ <;> rw [h]

theorem RestackedBelow.reaches {y : SurfaceId} {sc sc1 : Scene} (h : RestackedBelow y sc sc1)
    (a x : SurfaceId) : Reaches sc1 a x ↔ Reaches sc a x := by
  unfold Reaches
  constructor
  · intro hr
    exact Relation.ReflTransGen.mono (fun p c hc => (h.2.1 p).mem_iff.1 hc) hr
  · intro hr
    exact Relation.ReflTransGen.mono (fun p c hc => (h.2.1 p).mem_iff.2 hc) hr

theorem RestackedBelow.compose {y : SurfaceId} {sc sc1 sc2 : Scene}
    (h1 : RestackedBelow y sc sc1) (h2 : RestackedBelow y sc1 sc2) :
    RestackedBelow y sc sc2 := by
  refine ⟨fun x => ?_, fun x => ?_, fun x hx => ?_⟩
  · rw [h2.1 x, h1.1 x]
  · exact (h2.2.1 x).trans (h1.2.1 x)
  · rw [h2.2.2 x (fun hr => hx ((h1.reaches y x).1 hr)), h1.2.2 x hx]

theorem RestackedBelow.above {c y : SurfaceId} {sc sc1 : Scene}
    (h : RestackedBelow c sc sc1) (hyc : Reaches sc y c) : RestackedBelow y sc sc1 := by
  refine ⟨h.1, h.2.1, fun x hx => h.2.2 x (fun hr => hx ?_)⟩
  exact Relation.ReflTransGen.trans hyc hr

theorem RestackedBelow.listsAgree {y : SurfaceId} {sc sc1 : Scene}
    (h : RestackedBelow y sc sc1) (hl : ListsAgree sc) : ListsAgree sc1 := by
  intro p c
  rw [(h.2.1 p).mem_iff, h.1 c]
  exact hl p c

theorem RestackedBelow.ranked {y : SurfaceId} {sc sc1 : Scene} {rank : SurfaceId → Nat}
    (h : RestackedBelow y sc sc1) (hr : Ranked sc rank) : Ranked sc1 rank := by
  intro p c hc
  exact hr p c ((h.2.1 p).mem_iff.1 hc)

theorem itemStackAfter_wrappers (a b : Item) (sc : Scene) :
    (itemStackAfter a b sc).wrappers = sc.wrappers := by
  unfold itemStackAfter
  cases sc.parentItem a with
  | none => rfl
  | some p =>
    simp only []
    split_ifs <;> rfl

theorem itemStackBefore_wrappers (a b : Item) (sc : Scene) :
    (itemStackBefore a b sc).wrappers = sc.wrappers := by
  unfold itemStackBefore
  cases sc.parentItem a with
  | none => rfl
  | some p =>
    simp only []
    split_ifs <;> rfl

/-- Writing a permutation of its list to the wrapper `y` changes nothing
outside `y`. -/
theorem RestackedBelow.of_list {y : SurfaceId} {sc sc0 : Scene} (l : List SurfaceId)
    (h0 : sc0.wrappers = sc.wrappers)
    (hl : l.Perm (sc.wrappers y).subSurfaces) :
    RestackedBelow y sc (sc0.setWrapper y { sc0.wrappers y with subSurfaces := l }) := by
  refine ⟨fun x => ?_, fun x => ?_, fun x hx => ?_⟩
  · by_cases hxy : x = y
    · subst hxy
      rw [setWrapper_self, h0]
    · rw [setWrapper_other _ _ _ _ hxy, h0]
  · by_cases hxy : x = y
    · subst hxy
      rw [setWrapper_self]
      exact hl
    · rw [setWrapper_other _ _ _ _ hxy, h0]
  · have hxy : x ≠ y := by
      rintro rfl
      exact hx Relation.ReflTransGen.refl
    rw [setWrapper_other _ _ _ _ hxy, h0]

theorem reaches_parent {sc : Scene} (hl : ListsAgree sc) {a x q : SurfaceId}
    (h : ReachesBelow sc a x) (hq : (sc.wrappers x).parentSurface = some q) :
    Reaches sc a q := by
  unfold ReachesBelow at h
  rw [Relation.TransGen.tail'_iff] at h
  obtain ⟨b, hab, hbx⟩ := h
  have hb := (hl b x).1 hbx
  rw [hq] at hb
  rw [Option.some.inj hb]
  exact hab

theorem reachesBelow_of_ne {sc : Scene} {a x : SurfaceId} (h : Reaches sc a x) (hne : a ≠ x) :
    ReachesBelow sc a x := by
  rcases Relation.reflTransGen_iff_eq_or_transGen.1 h with he | ht
  · exact absurd he.symm hne
  · exact ht

/-- A call of `stackAfter` on `y` with a surface that is `y` or below `y`
answers `false` and changes nothing. -/
theorem stackAfter_below (fuel : Nat) (sc : Scene) (y last : SurfaceId) (r : Bool × Scene)
    (hreach : Reaches sc y last)
    (h : stackAfter fuel y (Item.surface last) sc = some r) : r = (false, sc) := by
  cases fuel with
  | zero => simp [stackAfter] at h
  | succ f =>
    rw [stackAfter] at h
    split_ifs at h with h1 h2
    · exact (Option.some.inj h).symm
    · exact (Option.some.inj h).symm
    · have hne : y ≠ last := fun he => h2 (by rw [he])
      have hb := reachesBelow_of_ne hreach hne
      cases hc : hasChild f sc y last with
      | none => simp [hc] at h
      | some b =>
        cases b with
        | true =>
          simp [hc] at h
          exact h.symm
        | false => exact absurd hb (hasChild_false_sound f sc y last hc)

theorem updateSubSurfaceStacking_unfold (f : Nat) (a : SurfaceId) (sc : Scene) :
    updateSubSurfaceStacking (f + 1) a sc = restackLoop f (sc.wrappers a).subSurfaces a sc := by
  rw [updateSubSurfaceStacking]

/-- The frame of the nested restacking: a call of `stackAfter` on a
sub-surface of `y` with a surface of the family of `y`, the closing
`updateSubSurfaceStacking` and its loop keep the hierarchy and write only to
the lists of `y` and of the surfaces below `y`. -/
theorem restack_frame : ∀ fuel : Nat,
    (∀ (c l y : SurfaceId) (sc : Scene) (r : Bool × Scene), ListsAgree sc →
      (sc.wrappers c).parentSurface = some y → Reaches sc y l →
      stackAfter fuel c (Item.surface l) sc = some r → RestackedBelow y sc r.2) ∧
    (∀ (a : SurfaceId) (sc sc1 : Scene), ListsAgree sc →
      updateSubSurfaceStacking fuel a sc = some sc1 → RestackedBelow a sc sc1) ∧
    (∀ (a : SurfaceId) (subs : List SurfaceId) (last : SurfaceId) (sc sc1 : Scene),
      ListsAgree sc → (∀ c ∈ subs, (sc.wrappers c).parentSurface = some a) →
      Reaches sc a last → restackLoop fuel subs last sc = some sc1 →
      RestackedBelow a sc sc1) := by
  intro fuel
  induction fuel with
  | zero =>
    refine ⟨?_, ?_, ?_⟩
    · intro c l y sc r _ _ _ h
      simp [stackAfter] at h
    · intro a sc sc1 _ h
      simp [updateSubSurfaceStacking] at h
    · intro a subs last sc sc1 _ _ _ h
      cases subs with
      | nil =>
        rw [restackLoop] at h
        rw [← Option.some.inj h]
        exact RestackedBelow.unchanged a sc
      | cons d ds => simp [restackLoop] at h
  | succ f ih =>
    obtain ⟨ihA, ihU, ihR⟩ := ih
    refine ⟨?_, ?_, ?_⟩
    · intro c l y sc r hl hcy hreach h
      have hcin : Reaches sc y c :=
        Relation.ReflTransGen.single ((hl y c).2 hcy)
      rw [stackAfter] at h
      split_ifs at h with h1 h2
      · rw [← Option.some.inj h]
        exact RestackedBelow.unchanged y sc
      · rw [← Option.some.inj h]
        exact RestackedBelow.unchanged y sc
      · cases hc1 : hasChild f sc c l with
        | none => simp [hc1] at h
        | some b1 =>
          cases b1 with
          | true =>
            simp [hc1] at h
            rw [← h]
            exact RestackedBelow.unchanged y sc
          | false =>
            cases hc2 : hasChild f sc l c with
            | none => simp [hc1, hc2] at h
            | some b2 =>
              cases b2 with
              | true =>
                simp only [hc1, hc2] at h
                cases hu : updateSubSurfaceStacking f c
                    (itemStackAfter (Item.surface c) (Item.surface l) sc) with
                | none => simp [hu] at h
                | some sc2 =>
                  simp only [hu, Option.some.injEq] at h
                  rw [← h]
                  have h0 : RestackedBelow c sc
                      (itemStackAfter (Item.surface c) (Item.surface l) sc) :=
                    RestackedBelow.of_wrappers (itemStackAfter_wrappers _ _ sc)
                  have h3 := ihU c _ sc2 (h0.listsAgree hl) hu
                  exact (h0.compose h3).above hcin
              | false =>
                cases hs : stackLastSurface f sc l with
                | none => simp [hc1, hc2, hs] at h
                | some last =>
                  have hlast : Reaches sc y last :=
                    Relation.ReflTransGen.trans hreach (stackLastSurface_reaches f sc l last hs)
                  simp only [hc1, hc2, hs] at h
                  by_cases hsib : (sc.wrappers c).parentSurface ≠ none ∧
                      (sc.wrappers c).parentSurface = (sc.wrappers l).parentSurface
                  · rw [if_pos hsib] at h
                    simp only [hcy] at h
                    generalize hsc0 : itemStackAfter (Item.surface c) (Item.surface last) sc
                      = sc0 at h
                    have hw0 : sc0.wrappers = sc.wrappers := by
                      rw [← hsc0]
                      exact itemStackAfter_wrappers _ _ sc
                    have h0 : RestackedBelow y sc
                        (sc0.setWrapper y
                          { sc0.wrappers y with
                            subSurfaces := moveAfter (sc0.wrappers y).subSurfaces c l }) := by
                      refine RestackedBelow.of_list _ hw0 ?_
                      rw [hw0]
                      exact perm_moveAfter _ _ _
                    cases hu : updateSubSurfaceStacking f c
                        (sc0.setWrapper y
                          { sc0.wrappers y with
                            subSurfaces := moveAfter (sc0.wrappers y).subSurfaces c l }) with
                    | none => simp [hu] at h
                    | some sc2 =>
                      simp only [hu, Option.some.injEq] at h
                      rw [← h]
                      have h3 := ihU c _ sc2 (h0.listsAgree hl) hu
                      exact h0.compose (h3.above ((h0.reaches y c).2 hcin))
                  · rw [if_neg hsib] at h
                    simp only [hcy] at h
                    cases hcl : stackAfter f y (Item.surface last) sc with
                    | none => simp [hcl] at h
                    | some r1 =>
                      have hr1 := stackAfter_below f sc y last r1 hlast hcl
                      subst hr1
                      simp only [hcl, Option.some.injEq] at h
                      rw [← h]
                      exact RestackedBelow.unchanged y sc
    · intro a sc sc1 hl h
      rw [updateSubSurfaceStacking_unfold] at h
      exact ihR a _ a sc sc1 hl (fun c hc => (hl a c).1 hc) Relation.ReflTransGen.refl h
    · intro a subs last sc sc1 hl hsubs hreach h
      cases subs with
      | nil =>
        rw [restackLoop] at h
        rw [← Option.some.inj h]
        exact RestackedBelow.unchanged a sc
      | cons d ds =>
        rw [restackLoop] at h
        cases hst : stackAfter f d (Item.surface last) sc with
        | none => simp [hst] at h
        | some r =>
          obtain ⟨b, sc2⟩ := r
          simp only [hst] at h
          have h2 : RestackedBelow a sc sc2 :=
            ihA d last a sc (b, sc2) hl (hsubs d (List.mem_cons_self d ds)) hreach hst
          have hl2 := h2.listsAgree hl
          have hd2 : (sc2.wrappers d).parentSurface = some a := by
            rw [h2.1 d]
            exact hsubs d (List.mem_cons_self d ds)
          cases hs : stackLastSurface f sc2 d with
          | none => simp [hs] at h
          | some last2 =>
            simp only [hs] at h
            have hreach2 : Reaches sc2 a last2 :=
              Relation.ReflTransGen.head ((hl2 a d).2 hd2)
                (stackLastSurface_reaches f sc2 d last2 hs)
            have h3 := ihR a ds last2 sc2 sc1 hl2
              (fun c hc => by
                rw [h2.1 c]
                exact hsubs c (List.mem_cons_of_mem d hc)) hreach2 h
            exact h2.compose h3

theorem not_reaches_parent {sc : Scene} {rank : SurfaceId → Nat} (hl : ListsAgree sc)
    (hr : Ranked sc rank) {a q : SurfaceId} (hq : (sc.wrappers a).parentSurface = some q) :
    ¬ Reaches sc a q := by
  intro h
  have h1 := Reaches.rank_le hr h
  have h2 := hr q a ((hl q a).2 hq)
  omega

theorem not_below_sibling {sc : Scene} {rank : SurfaceId → Nat} (hl : ListsAgree sc)
    (hr : Ranked sc rank) {a b q : SurfaceId} (ha : (sc.wrappers a).parentSurface = some q)
    (hb : (sc.wrappers b).parentSurface = some q) : ¬ ReachesBelow sc a b :=
  fun h => not_reaches_parent hl hr ha (reaches_parent hl h hb)

/-- A successful `stackBefore` among sub-surfaces of `q` leaves in `q` the list
after the index move. -/
theorem stackBefore_siblings (rank : SurfaceId → Nat) (fuel : Nat) (sc sc1 : Scene)
    (self target q : SurfaceId) (hl : ListsAgree sc) (hr : Ranked sc rank)
    (hs : (sc.wrappers self).parentSurface = some q)
    (ht : (sc.wrappers target).parentSurface = some q)
    (h : stackBefore fuel self (Item.surface target) sc = some (true, sc1)) :
    self ≠ target ∧
    (sc1.wrappers q).subSurfaces = moveBefore (sc.wrappers q).subSurfaces self target := by
  cases fuel with
  | zero => simp [stackBefore] at h
  | succ f =>
    rw [stackBefore] at h
    split_ifs at h with h1 h2
    · simp at h
    · simp at h
    · have hne : self ≠ target := fun he => h2 (by rw [he])
      refine ⟨hne, ?_⟩
      cases hc1 : hasChild f sc target self with
      | none => simp [hc1] at h
      | some b1 =>
        cases b1 with
        | true => simp [hc1] at h
        | false =>
          cases hc2 : hasChild f sc self target with
          | none => simp [hc1, hc2] at h
          | some b2 =>
            cases b2 with
            | true =>
              exact absurd (hasChild_true_sound f sc self target hc2)
                (not_below_sibling hl hr hs ht)
            | false =>
              cases hfs : stackFirstSurface f sc target with
              | none => simp [hc1, hc2, hfs] at h
              | some first =>
                simp only [hc1, hc2, hfs] at h
                have hsib : (sc.wrappers self).parentSurface ≠ none ∧
                    (sc.wrappers self).parentSurface = (sc.wrappers target).parentSurface := by
                  rw [hs, ht]
                  exact ⟨by simp, rfl⟩
                rw [if_pos hsib] at h
                simp only [hs] at h
                generalize hsc0 : itemStackBefore (Item.surface self) (Item.surface first) sc
                  = sc0 at h
                have hw0 : sc0.wrappers = sc.wrappers := by
                  rw [← hsc0]
                  exact itemStackBefore_wrappers _ _ sc
                have h0 : RestackedBelow q sc
                    (sc0.setWrapper q
                      { sc0.wrappers q with
                        subSurfaces := moveBefore (sc0.wrappers q).subSurfaces self target }) := by
                  refine RestackedBelow.of_list _ hw0 ?_
                  rw [hw0]
                  exact perm_moveBefore _ _ _
                cases hu : updateSubSurfaceStacking f self
                    (sc0.setWrapper q
                      { sc0.wrappers q with
                        subSurfaces := moveBefore (sc0.wrappers q).subSurfaces self target }) with
                | none => simp [hu] at h
                | some sc2 =>
                  simp only [hu, Option.some.injEq, Prod.mk.injEq, true_and] at h
                  subst h
                  have h3 := (restack_frame f).2.1 self _ sc2 (h0.listsAgree hl) hu
                  have hnot : ¬ Reaches sc self q := not_reaches_parent hl hr hs
                  rw [h3.2.2 q (fun hreach => hnot ((h0.reaches self q).1 hreach)),
                    setWrapper_self, hw0]

/-- A successful `stackAfter` among sub-surfaces of `q` leaves in `q` the list
after the index move. -/
theorem stackAfter_siblings (rank : SurfaceId → Nat) (fuel : Nat) (sc sc1 : Scene)
    (self target q : SurfaceId) (hl : ListsAgree sc) (hr : Ranked sc rank)
    (hs : (sc.wrappers self).parentSurface = some q)
    (ht : (sc.wrappers target).parentSurface = some q)
    (h : stackAfter fuel self (Item.surface target) sc = some (true, sc1)) :
    self ≠ target ∧
    (sc1.wrappers q).subSurfaces = moveAfter (sc.wrappers q).subSurfaces self target := by
  cases fuel with
  | zero => simp [stackAfter] at h
  | succ f =>
    rw [stackAfter] at h
    split_ifs at h with h1 h2
    · simp at h
    · simp at h
    · have hne : self ≠ target := fun he => h2 (by rw [he])
      refine ⟨hne, ?_⟩
      cases hc1 : hasChild f sc self target with
      | none => simp [hc1] at h
      | some b1 =>
        cases b1 with
        | true => simp [hc1] at h
        | false =>
          cases hc2 : hasChild f sc target self with
          | none => simp [hc1, hc2] at h
          | some b2 =>
            cases b2 with
            | true =>
              exact absurd (hasChild_true_sound f sc target self hc2)
                (not_below_sibling hl hr ht hs)
            | false =>
              cases hfs : stackLastSurface f sc target with
              | none => simp [hc1, hc2, hfs] at h
              | some last =>
                simp only [hc1, hc2, hfs] at h
                have hsib : (sc.wrappers self).parentSurface ≠ none ∧
                    (sc.wrappers self).parentSurface = (sc.wrappers target).parentSurface := by
                  rw [hs, ht]
                  exact ⟨by simp, rfl⟩
                rw [if_pos hsib] at h
                simp only [hs] at h
                generalize hsc0 : itemStackAfter (Item.surface self) (Item.surface last) sc
                  = sc0 at h
                have hw0 : sc0.wrappers = sc.wrappers := by
                  rw [← hsc0]
                  exact itemStackAfter_wrappers _ _ sc
                have h0 : RestackedBelow q sc
                    (sc0.setWrapper q
                      { sc0.wrappers q with
                        subSurfaces := moveAfter (sc0.wrappers q).subSurfaces self target }) := by
                  refine RestackedBelow.of_list _ hw0 ?_
                  rw [hw0]
                  exact perm_moveAfter _ _ _
                cases hu : updateSubSurfaceStacking f self
                    (sc0.setWrapper q
                      { sc0.wrappers q with
                        subSurfaces := moveAfter (sc0.wrappers q).subSurfaces self target }) with
                | none => simp [hu] at h
                | some sc2 =>
                  simp only [hu, Option.some.injEq, Prod.mk.injEq, true_and] at h
                  subst h
                  have h3 := (restack_frame f).2.1 self _ sc2 (h0.listsAgree hl) hu
                  have hnot : ¬ Reaches sc self q := not_reaches_parent hl hr hs
                  rw [h3.2.2 q (fun hreach => hnot ((h0.reaches self q).1 hreach)),
                    setWrapper_self, hw0]

/-- The index move of `stackBefore` on a list without repetition: `x` ends
right before `y`, and the list without `x` is as before. -/
theorem moveBefore_kept {α : Type} [DecidableEq α] {l : List α} {x y : α}
    (hnd : l.Nodup) (hx : x ∈ l) (hy : y ∈ l) (hxy : x ≠ y) :
    ∃ U V, moveBefore l x y = U ++ x :: y :: V ∧ l.erase x = U ++ y :: V ∧ x ∉ U := by
  rcases split_two hx hy hxy with ⟨X, M, Z, rfl⟩ | ⟨U, M, Z, rfl⟩
  · have h1 : x ∉ M ++ y :: Z := by
      intro hm
      simp [List.nodup_append, List.nodup_cons] at hnd
      simp at hm
      tauto
    have h2 : y ∉ Z := by
      intro hm
      simp [List.nodup_append, List.nodup_cons] at hnd
      tauto
    have h3 : x ∉ X := by
      intro hm
      simp [List.nodup_append, List.nodup_cons] at hnd
      tauto
    have h4 : x ∉ M := fun hm => h1 (List.mem_append_left _ hm)
    refine ⟨X ++ M, Z, ?_, ?_, ?_⟩
    · rw [moveBefore_right X M Z x y h1 h2]
    · simp [List.erase_append_right, h3, List.erase_append_left]
    · simp [h3, h4]
  · have h1 : x ∉ Z := by
      intro hm
      simp [List.nodup_append, List.nodup_cons] at hnd
      tauto
    have h2 : y ∉ M ++ x :: Z := by
      intro hm
      simp [List.nodup_append, List.nodup_cons] at hnd
      simp at hm
      tauto
    have h3 : x ∉ U := by
      intro hm
      simp [List.nodup_append, List.nodup_cons] at hnd
      tauto
    have h4 : x ∉ M := by
      intro hm
      simp [List.nodup_append, List.nodup_cons] at hnd
      tauto
    refine ⟨U, M ++ Z, ?_, ?_, h3⟩
    · rw [moveBefore_left U M Z x y h1 h2]
      simp
    · simp [List.erase_append_right, h3, h4, List.erase_cons, Ne.symm hxy]

/-- The index move of `stackAfter` on a list without repetition: `x` ends
right after `y`, and the list without `x` is as before. -/
theorem moveAfter_kept {α : Type} [DecidableEq α] {l : List α} {x y : α}
    (hnd : l.Nodup) (hx : x ∈ l) (hy : y ∈ l) (hxy : x ≠ y) :
    ∃ U V, moveAfter l x y = U ++ y :: x :: V ∧ l.erase x = U ++ y :: V ∧ x ∉ U := by
  rcases split_two hx hy hxy with ⟨X, M, Z, rfl⟩ | ⟨U, M, Z, rfl⟩
  · have h1 : x ∉ M ++ y :: Z := by
      intro hm
      simp [List.nodup_append, List.nodup_cons] at hnd
      simp at hm
      tauto
    have h2 : y ∉ Z := by
      intro hm
      simp [List.nodup_append, List.nodup_cons] at hnd
      tauto
    have h3 : x ∉ X := by
      intro hm
      simp [List.nodup_append, List.nodup_cons] at hnd
      tauto
    have h4 : x ∉ M := fun hm => h1 (List.mem_append_left _ hm)
    refine ⟨X ++ M, Z, ?_, ?_, ?_⟩
    · rw [moveAfter_right X M Z x y h1 h2]
    · simp [List.erase_append_right, h3, List.erase_append_left]
    · simp [h3, h4]
  · have h1 : x ∉ Z := by
      intro hm
      simp [List.nodup_append, List.nodup_cons] at hnd
      tauto
    have h2 : y ∉ M ++ x :: Z := by
      intro hm
      simp [List.nodup_append, List.nodup_cons] at hnd
      simp at hm
      tauto
    have h3 : x ∉ U := by
      intro hm
      simp [List.nodup_append, List.nodup_cons] at hnd
      tauto
    have h4 : x ∉ M := by
      intro hm
      simp [List.nodup_append, List.nodup_cons] at hnd
      tauto
    refine ⟨U, M ++ Z, ?_, ?_, h3⟩
    · rw [moveAfter_left U M Z x y h1 h2]
      simp
    · simp [List.erase_append_right, h3, h4, List.erase_cons, Ne.symm hxy]

theorem anyM_option_returns {α : Type} (g : α → Option Bool) (l : List α)
    (h : ∀ c ∈ l, ∃ b, g c = some b) : ∃ b, l.anyM g = some b := by
  refine ⟨l.any (fun c => (g c).getD false), anyM_option_eq g _ l (fun c hc => ?_)⟩
  obtain ⟨b, hb⟩ := h c hc
  rw [hb]
  rfl

theorem hasChild_returns (rank : SurfaceId → Nat) (sc : Scene) (hr : Ranked sc rank)
    (x : SurfaceId) : ∀ (fuel : Nat) (a : SurfaceId), rank a < fuel →
      ∃ b, hasChild fuel sc a x = some b := by
  intro fuel
  induction fuel with
  | zero =>
    intro a h
    omega
  | succ f ih =>
    intro a h
    rw [hasChild]
    refine anyM_option_returns _ _ (fun c hc => ?_)
    by_cases hcx : c = x
    · exact ⟨true, by rw [if_pos hcx]⟩
    · rw [if_neg hcx]
      have := hr a c hc
      exact ih c (by omega)

theorem stackLastSurface_returns (rank : SurfaceId → Nat) (sc : Scene) (hr : Ranked sc rank) :
    ∀ (fuel : Nat) (a : SurfaceId), rank a < fuel → ∃ b, stackLastSurface fuel sc a = some b := by
  intro fuel
  induction fuel with
  | zero =>
    intro a h
    omega
  | succ f ih =>
    intro a h
    rw [stackLastSurface]
    cases hl : (sc.wrappers a).subSurfaces.getLast? with
    | none => exact ⟨a, rfl⟩
    | some last =>
      have := hr a last (List.mem_of_mem_getLast? hl)
      exact ih last (by omega)

theorem stackFirstSurface_returns (rank : SurfaceId → Nat) (sc : Scene) (hr : Ranked sc rank) :
    ∀ (fuel : Nat) (a : SurfaceId), rank a < fuel →
      ∃ b, stackFirstSurface fuel sc a = some b := by
  intro fuel
  induction fuel with
  | zero =>
    intro a h
    omega
  | succ f ih =>
    intro a h
    rw [stackFirstSurface]
    cases hl : (sc.wrappers a).subSurfaces.head? with
    | none => exact ⟨a, rfl⟩
    | some first =>
      have := hr a first (List.mem_of_mem_head? hl)
      exact ih first (by omega)

/-- With two nested calls more than the rank of `y`, a call of `stackAfter` on
`y` with a surface that is `y` or below `y` returns. -/
theorem stackAfter_below_returns (rank : SurfaceId → Nat) (fuel : Nat) (sc : Scene)
    (y last : SurfaceId) (hr : Ranked sc rank) (hreach : Reaches sc y last)
    (hf : rank y + 2 ≤ fuel) : stackAfter fuel y (Item.surface last) sc = some (false, sc) := by
  cases fuel with
  | zero => omega
  | succ f =>
    rw [stackAfter]
    split_ifs with h1 h2
    · rfl
    · rfl
    · have hne : y ≠ last := fun he => h2 (by rw [he])
      have hb := reachesBelow_of_ne hreach hne
      obtain ⟨b, hc⟩ := hasChild_returns rank sc hr last f y (by omega)
      cases b with
      | true => simp [hc]
      | false => exact absurd hb (hasChild_false_sound f sc y last hc)

/-- With two nested calls more than the rank of `target`, a call of
`stackBefore` on a surface below `target` with `target` answers `false` and
changes nothing. -/
theorem stackBefore_above_returns (rank : SurfaceId → Nat) (fuel : Nat) (sc : Scene)
    (self target : SurfaceId) (hr : Ranked sc rank) (hreach : ReachesBelow sc target self)
    (hf : rank target + 2 ≤ fuel) :
    stackBefore fuel self (Item.surface target) sc = some (false, sc) := by
  cases fuel with
  | zero => omega
  | succ f =>
    rw [stackBefore]
    split_ifs with h1 h2
    · rfl
    · rfl
    · obtain ⟨b, hc⟩ := hasChild_returns rank sc hr self f target (by omega)
      cases b with
      | true => simp [hc]
      | false => exact absurd hreach (hasChild_false_sound f sc target self hc)

/-- The nested restacking returns: with `height` a bound of the ranks and
`width` a bound of the lengths of the lists, `height + 3 + (width + 2) * rank c`
nested calls are enough for `stackAfter` on a sub-surface `c` of `y` with a
surface of the family of `y`. -/
theorem restack_returns (rank : SurfaceId → Nat) (height width : Nat) : ∀ fuel : Nat,
    (∀ (c l y : SurfaceId) (sc : Scene), ListsAgree sc → Ranked sc rank →
      (∀ x, rank x ≤ height) → (∀ x, (sc.wrappers x).subSurfaces.length ≤ width) →
      (sc.wrappers c).parentSurface = some y → Reaches sc y l →
      height + 3 + (width + 2) * rank c ≤ fuel →
      ∃ r, stackAfter fuel c (Item.surface l) sc = some r) ∧
    (∀ (a : SurfaceId) (sc : Scene), ListsAgree sc → Ranked sc rank →
      (∀ x, rank x ≤ height) → (∀ x, (sc.wrappers x).subSurfaces.length ≤ width) →
      height + 2 + (width + 2) * rank a ≤ fuel →
      ∃ sc1, updateSubSurfaceStacking fuel a sc = some sc1) ∧
    (∀ (a : SurfaceId) (subs : List SurfaceId) (last : SurfaceId) (k : Nat) (sc : Scene),
      ListsAgree sc → Ranked sc rank →
      (∀ x, rank x ≤ height) → (∀ x, (sc.wrappers x).subSurfaces.length ≤ width) →
      (∀ c ∈ subs, (sc.wrappers c).parentSurface = some a ∧ rank c ≤ k) →
      Reaches sc a last → subs.length + height + 3 + (width + 2) * k ≤ fuel →
      ∃ sc1, restackLoop fuel subs last sc = some sc1) := by
  intro fuel
  induction fuel with
  | zero =>
    refine ⟨?_, ?_, ?_⟩
    · intro c l y sc _ _ _ _ _ _ hf
      omega
    · intro a sc _ _ _ _ hf
      omega
    · intro a subs last k sc _ _ _ _ _ _ hf
      omega
  | succ f ih =>
    obtain ⟨ihA, ihU, ihR⟩ := ih
    refine ⟨?_, ?_, ?_⟩
    · intro c l y sc hl hr hH hN hcy hreach hf
      have hcin : Reaches sc y c :=
        Relation.ReflTransGen.single ((hl y c).2 hcy)
      have hrc := hH c
      have hrl := hH l
      have hry := hH y
      rw [stackAfter]
      split_ifs with h1 h2
      · exact ⟨_, rfl⟩
      · exact ⟨_, rfl⟩
      · obtain ⟨b1, hc1⟩ := hasChild_returns rank sc hr l f c (by omega)
        cases b1 with
        | true =>
          simp only [hc1]
          exact ⟨_, rfl⟩
        | false =>
          obtain ⟨b2, hc2⟩ := hasChild_returns rank sc hr c f l (by omega)
          cases b2 with
          | true =>
            simp only [hc1, hc2]
            have h0 : RestackedBelow c sc
                (itemStackAfter (Item.surface c) (Item.surface l) sc) :=
              RestackedBelow.of_wrappers (itemStackAfter_wrappers _ _ sc)
            obtain ⟨sc2, hu⟩ := ihU c _ (h0.listsAgree hl) (h0.ranked hr) hH
              (fun x => by
                rw [(h0.2.1 x).length_eq]
                exact hN x) (by omega)
            simp only [hu]
            exact ⟨_, rfl⟩
          | false =>
            obtain ⟨last, hs⟩ := stackLastSurface_returns rank sc hr f l (by omega)
            have hlast : Reaches sc y last :=
              Relation.ReflTransGen.trans hreach (stackLastSurface_reaches f sc l last hs)
            simp only [hc1, hc2, hs]
            by_cases hsib : (sc.wrappers c).parentSurface ≠ none ∧
                (sc.wrappers c).parentSurface = (sc.wrappers l).parentSurface
            · rw [if_pos hsib]
              simp only [hcy]
              generalize hsc0 : itemStackAfter (Item.surface c) (Item.surface last) sc = sc0
              have hw0 : sc0.wrappers = sc.wrappers := by
                rw [← hsc0]
                exact itemStackAfter_wrappers _ _ sc
              have h0 : RestackedBelow y sc
                  (sc0.setWrapper y
                    { sc0.wrappers y with
                      subSurfaces := moveAfter (sc0.wrappers y).subSurfaces c l }) := by
                refine RestackedBelow.of_list _ hw0 ?_
                rw [hw0]
                exact perm_moveAfter _ _ _
              obtain ⟨sc2, hu⟩ := ihU c _ (h0.listsAgree hl) (h0.ranked hr) hH
                (fun x => by
                  rw [(h0.2.1 x).length_eq]
                  exact hN x) (by omega)
              simp only [hu]
              exact ⟨_, rfl⟩
            · rw [if_neg hsib]
              simp only [hcy]
              rw [stackAfter_below_returns rank f sc y last hr hlast (by omega)]
              exact ⟨_, rfl⟩
    · intro a sc hl hr hH hN hf
      rw [updateSubSurfaceStacking_unfold]
      cases hsub : (sc.wrappers a).subSurfaces with
      | nil =>
        rw [restackLoop]
        exact ⟨_, rfl⟩
      | cons d ds =>
        rw [← hsub]
        have hd : d ∈ (sc.wrappers a).subSurfaces := by
          rw [hsub]
          exact List.mem_cons_self d ds
        have hpos := hr a d hd
        have hlen := hN a
        have hmul : (width + 2) * rank a = (width + 2) * (rank a - 1) + (width + 2) := by
          have hra : rank a = (rank a - 1) + 1 := by omega
          conv_lhs => rw [hra]
          rw [Nat.mul_succ]
        refine ihR a _ a (rank a - 1) sc hl hr hH hN (fun c hc => ⟨(hl a c).1 hc, ?_⟩)
          Relation.ReflTransGen.refl (by omega)
        have := hr a c hc
        omega
    · intro a subs last k sc hl hr hH hN hsubs hreach hf
      cases subs with
      | nil =>
        rw [restackLoop]
        exact ⟨_, rfl⟩
      | cons d ds =>
        rw [restackLoop]
        obtain ⟨hda, hdk⟩ := hsubs d (List.mem_cons_self d ds)
        have hmul : (width + 2) * rank d ≤ (width + 2) * k := Nat.mul_le_mul_left _ hdk
        have hlen : (d :: ds).length = ds.length + 1 := rfl
        rw [hlen] at hf
        obtain ⟨r, hst⟩ := ihA d last a sc hl hr hH hN hda hreach (by omega)
        obtain ⟨b, sc2⟩ := r
        simp only [hst]
        have h2 : RestackedBelow a sc sc2 :=
          (restack_frame f).1 d last a sc (b, sc2) hl hda hreach hst
        have hl2 := h2.listsAgree hl
        have hr2 := h2.ranked hr
        have hd2 : (sc2.wrappers d).parentSurface = some a := by
          rw [h2.1 d]
          exact hda
        have hrd := hH d
        obtain ⟨last2, hs⟩ := stackLastSurface_returns rank sc2 hr2 f d (by omega)
        simp only [hs]
        have hreach2 : Reaches sc2 a last2 :=
          Relation.ReflTransGen.head ((hl2 a d).2 hd2)
            (stackLastSurface_reaches f sc2 d last2 hs)
        exact ihR a ds last2 k sc2 hl2 hr2 hH
          (fun x => by
            rw [(h2.2.1 x).length_eq]
            exact hN x)
          (fun c hc => by
            rw [h2.1 c]
            exact hsubs c (List.mem_cons_of_mem d hc)) hreach2 (by omega)

/-- With enough nested calls `stackBefore` among distinct sub-surfaces of `q`
that share a drawing parent answers `true`. -/
theorem stackBefore_siblings_returns (rank : SurfaceId → Nat) (height width fuel : Nat)
    (sc : Scene) (self target q : SurfaceId) (hl : ListsAgree sc) (hr : Ranked sc rank)
    (hH : ∀ x, rank x ≤ height) (hN : ∀ x, (sc.wrappers x).subSurfaces.length ≤ width)
    (hs : (sc.wrappers self).parentSurface = some q)
    (ht : (sc.wrappers target).parentSurface = some q) (hne : self ≠ target)
    (hp : sc.parentItem (Item.surface self) ≠ none)
    (hpt : sc.parentItem (Item.surface target) = sc.parentItem (Item.surface self))
    (hf : height + 3 + (width + 2) * rank self ≤ fuel) :
    ∃ sc1, stackBefore fuel self (Item.surface target) sc = some (true, sc1) := by
  cases fuel with
  | zero => omega
  | succ f =>
    have hrs := hH self
    have hrt := hH target
    rw [stackBefore]
    rw [if_neg (by
      rintro (h | h)
      · exact hp h
      · exact h hpt)]
    rw [if_neg (by
      intro h
      exact hne (Item.surface.inj h))]
    obtain ⟨b1, hc1⟩ := hasChild_returns rank sc hr self f target (by omega)
    obtain ⟨b2, hc2⟩ := hasChild_returns rank sc hr target f self (by omega)
    cases b1 with
    | true =>
      exact absurd (hasChild_true_sound f sc target self hc1) (not_below_sibling hl hr ht hs)
    | false =>
      cases b2 with
      | true =>
        exact absurd (hasChild_true_sound f sc self target hc2) (not_below_sibling hl hr hs ht)
      | false =>
        obtain ⟨first, hfs⟩ := stackFirstSurface_returns rank sc hr f target (by omega)
        simp only [hc1, hc2, hfs]
        have hsib : (sc.wrappers self).parentSurface ≠ none ∧
            (sc.wrappers self).parentSurface = (sc.wrappers target).parentSurface := by
          rw [hs, ht]
          exact ⟨by simp, rfl⟩
        rw [if_pos hsib]
        simp only [hs]
        generalize hsc0 : itemStackBefore (Item.surface self) (Item.surface first) sc = sc0
        have hw0 : sc0.wrappers = sc.wrappers := by
          rw [← hsc0]
          exact itemStackBefore_wrappers _ _ sc
        have h0 : RestackedBelow q sc
            (sc0.setWrapper q
              { sc0.wrappers q with
                subSurfaces := moveBefore (sc0.wrappers q).subSurfaces self target }) := by
          refine RestackedBelow.of_list _ hw0 ?_
          rw [hw0]
          exact perm_moveBefore _ _ _
        obtain ⟨sc2, hu⟩ := (restack_returns rank height width f).2.1 self _
          (h0.listsAgree hl) (h0.ranked hr) hH
          (fun x => by
            rw [(h0.2.1 x).length_eq]
            exact hN x) (by omega)
        simp only [hu]
        exact ⟨_, rfl⟩

/-- With enough nested calls `stackAfter` among distinct sub-surfaces of `q`
that share a drawing parent answers `true`. -/
theorem stackAfter_siblings_returns (rank : SurfaceId → Nat) (height width fuel : Nat)
    (sc : Scene) (self target q : SurfaceId) (hl : ListsAgree sc) (hr : Ranked sc rank)
    (hH : ∀ x, rank x ≤ height) (hN : ∀ x, (sc.wrappers x).subSurfaces.length ≤ width)
    (hs : (sc.wrappers self).parentSurface = some q)
    (ht : (sc.wrappers target).parentSurface = some q) (hne : self ≠ target)
    (hp : sc.parentItem (Item.surface self) ≠ none)
    (hpt : sc.parentItem (Item.surface target) = sc.parentItem (Item.surface self))
    (hf : height + 3 + (width + 2) * rank self ≤ fuel) :
    ∃ sc1, stackAfter fuel self (Item.surface target) sc = some (true, sc1) := by
  cases fuel with
  | zero => omega
  | succ f =>
    have hrs := hH self
    have hrt := hH target
    rw [stackAfter]
    rw [if_neg (by
      rintro (h | h)
      · exact hp h
      · exact h hpt)]
    rw [if_neg (by
      intro h
      exact hne (Item.surface.inj h))]
    obtain ⟨b1, hc1⟩ := hasChild_returns rank sc hr target f self (by omega)
    obtain ⟨b2, hc2⟩ := hasChild_returns rank sc hr self f target (by omega)
    cases b1 with
    | true =>
      exact absurd (hasChild_true_sound f sc self target hc1) (not_below_sibling hl hr hs ht)
    | false =>
      cases b2 with
      | true =>
        exact absurd (hasChild_true_sound f sc target self hc2) (not_below_sibling hl hr ht hs)
      | false =>
        obtain ⟨last, hfs⟩ := stackLastSurface_returns rank sc hr f target (by omega)
        simp only [hc1, hc2, hfs]
        have hsib : (sc.wrappers self).parentSurface ≠ none ∧
            (sc.wrappers self).parentSurface = (sc.wrappers target).parentSurface := by
          rw [hs, ht]
          exact ⟨by simp, rfl⟩
        rw [if_pos hsib]
        simp only [hs]
        generalize hsc0 : itemStackAfter (Item.surface self) (Item.surface last) sc = sc0
        have hw0 : sc0.wrappers = sc.wrappers := by
          rw [← hsc0]
          exact itemStackAfter_wrappers _ _ sc
        have h0 : RestackedBelow q sc
            (sc0.setWrapper q
              { sc0.wrappers q with
                subSurfaces := moveAfter (sc0.wrappers q).subSurfaces self target }) := by
          refine RestackedBelow.of_list _ hw0 ?_
          rw [hw0]
          exact perm_moveAfter _ _ _
        obtain ⟨sc2, hu⟩ := (restack_returns rank height width f).2.1 self _
          (h0.listsAgree hl) (h0.ranked hr) hH
          (fun x => by
            rw [(h0.2.1 x).length_eq]
            exact hN x) (by omega)
        simp only [hu]
        exact ⟨_, rfl⟩

theorem siblingScene_outside (x : Nat) (h : 5 ≤ x) :
    (siblingScene.wrappers x).parentSurface = none ∧
      (siblingScene.wrappers x).subSurfaces = [] := by
  obtain ⟨n, rfl⟩ : ∃ n, x = n + 5 := ⟨x - 5, by omega⟩
  exact ⟨rfl, rfl⟩

theorem siblingScene_links : LinksConsistent siblingScene := by
  have hfin : ∀ p < 5, ∀ c < 5, (c ∈ (siblingScene.wrappers p).subSurfaces ↔
      (siblingScene.wrappers c).parentSurface = some p) := by decide
  have hsub : ∀ p < 5, ∀ c ∈ (siblingScene.wrappers p).subSurfaces, c < 5 := by decide
  have hpar : ∀ c : Nat, c < 5 → ∀ p : Nat,
      (siblingScene.wrappers c).parentSurface = some p → p < 5 := by
    have hopt : ∀ c < 5, ∀ p ∈ (siblingScene.wrappers c).parentSurface, p < 5 := by decide
    intro c hc p hp
    exact hopt c hc p hp
  have hnd : ∀ p < 5, (siblingScene.wrappers p).subSurfaces.Nodup := by decide
  have hiff : ∀ p c : Nat, (c ∈ (siblingScene.wrappers p).subSurfaces ↔
      (siblingScene.wrappers c).parentSurface = some p) := by
    intro p c
    by_cases hp : p < 5
    · by_cases hc : c < 5
      · exact hfin p hp c hc
      · constructor
        · intro hm
          exact absurd (hsub p hp c hm) hc
        · intro hm
          rw [(siblingScene_outside c (by omega)).1] at hm
          exact absurd hm (by simp)
    · constructor
      · intro hm
        rw [(siblingScene_outside p (by omega)).2] at hm
        exact absurd hm (List.not_mem_nil c)
      · intro hm
        by_cases hc : c < 5
        · exact absurd (hpar c hc p hm) hp
        · rw [(siblingScene_outside c (by omega)).1] at hm
          exact absurd hm (by simp)
  have hall : ∀ p : Nat, (siblingScene.wrappers p).subSurfaces.Nodup := by
    intro p
    by_cases hp : p < 5
    · exact hnd p hp
    · rw [(siblingScene_outside p (by omega)).2]
      exact List.nodup_nil
  exact ⟨hiff, hall⟩

theorem siblingScene_ranked : Ranked siblingScene siblingRank := by
  have hfin : ∀ p < 5, ∀ c ∈ (siblingScene.wrappers p).subSurfaces,
      siblingRank c < siblingRank p := by decide
  have hall : ∀ p c : Nat, c ∈ (siblingScene.wrappers p).subSurfaces →
      siblingRank c < siblingRank p := by
    intro p c hc
    by_cases hp : p < 5
    · exact hfin p hp c hc
    · rw [(siblingScene_outside p (by omega)).2] at hc
      exact absurd hc (List.not_mem_nil c)
  exact hall

theorem siblingScene_bounds :
    (∀ x, siblingRank x ≤ 2) ∧ ∀ x, (siblingScene.wrappers x).subSurfaces.length ≤ 3 := by
  have h1 : ∀ x : Nat, siblingRank x ≤ 2 := by
    intro x
    unfold siblingRank
    split_ifs <;> omega
  have h2 : ∀ x : Nat, (siblingScene.wrappers x).subSurfaces.length ≤ 3 := by
    intro x
    by_cases hp : x < 5
    · have hfin : ∀ p < 5, (siblingScene.wrappers p).subSurfaces.length ≤ 3 := by decide
      exact hfin x hp
    · rw [(siblingScene_outside x (by omega)).2]
      exact Nat.zero_le _
  exact ⟨h1, h2⟩

/-! ## Lemmas on the preservation of the hierarchy -/

theorem isAncestor_iff_reachesBelow {sc : Scene} (hl : ListsAgree sc) (a x : SurfaceId) :
    IsAncestor sc a x ↔ ReachesBelow sc a x := by
  unfold IsAncestor ReachesBelow
  rw [← Relation.transGen_swap]
  constructor
  · intro h
    exact Relation.TransGen.mono (fun p c hpc => (hl p c).2 hpc) h
  · intro h
    exact Relation.TransGen.mono (fun p c hpc => (hl p c).1 hpc) h

theorem isAncestor_rank {sc : Scene} {rank : SurfaceId → Nat} (hl : ListsAgree sc)
    (hr : Ranked sc rank) {a x : SurfaceId} (h : IsAncestor sc a x) : rank x < rank a := by
  unfold IsAncestor at h
  induction h with
  | single h1 => exact hr _ _ ((hl _ _).2 h1)
  | tail _ h2 ih => exact Nat.lt_trans ih (hr _ _ ((hl _ _).2 h2))

/-- In a hierarchy whose lists agree with the parent pointers and descend
along a rank bounded by `height`, no surface is its own ancestor and the walks
return within `2 * height + 1` nested calls. -/
theorem hierarchy_walks {sc : Scene} {rank : SurfaceId → Nat} {height : Nat}
    (hl : ListsAgree sc) (hr : Ranked sc rank) (hH : ∀ x, rank x ≤ height) :
    Acyclic sc ∧ WalksReturn sc (2 * height + 1) := by
  refine ⟨fun x h => Nat.lt_irrefl _ (isAncestor_rank hl hr h), fun a x => ⟨?_, ?_, ?_, ?_⟩⟩
  · have ha := hH a
    obtain ⟨b, hb⟩ := hasChild_returns rank sc hr x (2 * height + 1) a (by omega)
    rw [hb]
    rfl
  · have ha := hH a
    obtain ⟨b, hb⟩ := stackFirstSurface_returns rank sc hr (2 * height + 1) a (by omega)
    rw [hb]
    rfl
  · have ha := hH a
    obtain ⟨b, hb⟩ := stackLastSurface_returns rank sc hr (2 * height + 1) a (by omega)
    rw [hb]
    rfl
  · intro v
    have hd : ∀ c p, (sc.wrappers c).parentSurface = some p →
        height - rank p < height - rank c := by
      intro c p hcp
      have h1 := hr p c ((hl p c).2 hcp)
      have h2 := hH p
      omega
    obtain ⟨sc1, h1, -⟩ :=
      (setActivate_spec (fun c => (sc.wrappers c).parentSurface) (fun y => height - rank y) hd
        (2 * height + 1)).1 a v sc (fun _ => rfl) (by
          have := hH a
          omega)
    rw [h1]
    rfl

/-- After `surface`, which no list names and which does not reach `self`, was
appended to the list of `self`, the lists descend along a new rank. -/
theorem ranked_after_append {sc sc1 : Scene} {rank : SurfaceId → Nat} (self surface : SurfaceId)
    (hr : Ranked sc rank) (hno : ¬ Reaches sc surface self)
    (hsubs : ∀ p c, c ∈ (sc1.wrappers p).subSurfaces ↔
      c ∈ (sc.wrappers p).subSurfaces ∨ (p = self ∧ c = surface)) :
    ∃ rank1, Ranked sc1 rank1 ∧ ∀ x, rank1 x ≤ rank x + rank surface + 1 := by
  classical
  refine ⟨fun x => if Reaches sc surface x then rank x else rank x + rank surface + 1, ?_, ?_⟩
  · intro p c hc
    rw [hsubs] at hc
    rcases hc with hold | ⟨hps, hcs⟩
    · have hlt := hr p c hold
      by_cases hrp : Reaches sc surface p
      · have hrc : Reaches sc surface c := Relation.ReflTransGen.tail hrp hold
        simp only [if_pos hrp, if_pos hrc]
        exact hlt
      · by_cases hrc : Reaches sc surface c
        · simp only [if_neg hrp, if_pos hrc]
          omega
        · simp only [if_neg hrp, if_neg hrc]
          omega
    · subst hps
      subst hcs
      have hrc : Reaches sc c c := Relation.ReflTransGen.refl
      simp only [if_neg hno, if_pos hrc]
      omega
  · intro x
    simp only []
    split_ifs <;> omega

/-- The call `addSubSurface(surface)` on `self` keeps a hierarchy when the
assertion holds and `surface` is not `self` or one of its ancestors. -/
theorem addSubSurface_hierarchy (rank : SurfaceId → Nat) (height fuel : Nat)
    (self surface : SurfaceId) (sc : Scene) (hl : LinksConsistent sc) (hr : Ranked sc rank)
    (hH : ∀ x, rank x ≤ height) (hnone : (sc.wrappers surface).parentSurface = none)
    (hne : surface ≠ self) (hanc : ¬ IsAncestor sc surface self) (hf : rank surface < fuel) :
    ∃ sc1, addSubSurface fuel self surface sc = some sc1 ∧ LinksConsistent sc1 ∧
      ∃ rank1, Ranked sc1 rank1 ∧ ∀ x, rank1 x ≤ 2 * height + 1 := by
  obtain ⟨sc1, h1⟩ := addSubSurface_terminates rank fuel self surface sc hr hf
  obtain ⟨hp, hs, -⟩ := addSubSurface_links fuel self surface sc sc1 h1
  have hnot : ∀ p, surface ∉ (sc.wrappers p).subSurfaces := by
    intro p hm
    have := (hl.1 p surface).1 hm
    rw [hnone] at this
    exact absurd this (by simp)
  have hsubs : ∀ p c, c ∈ (sc1.wrappers p).subSurfaces ↔
      c ∈ (sc.wrappers p).subSurfaces ∨ (p = self ∧ c = surface) := by
    intro p c
    rw [hs p]
    by_cases hps : p = self
    · rw [if_pos hps, List.mem_append, List.mem_singleton, hps]
      simp
    · rw [if_neg hps]
      simp [hps]
  have hno : ¬ Reaches sc surface self := by
    intro hreach
    rcases Relation.reflTransGen_iff_eq_or_transGen.1 hreach with he | ht
    · exact hne he.symm
    · exact hanc ((isAncestor_iff_reachesBelow hl.1 surface self).2 ht)
  refine ⟨sc1, h1, ⟨fun p c => ?_, fun p => ?_⟩, ?_⟩
  · rw [hsubs, hp c]
    by_cases hcs : c = surface
    · rw [if_pos hcs, hcs]
      constructor
      · rintro (hm | ⟨hps, -⟩)
        · exact absurd hm (hnot p)
        · rw [hps]
      · intro h
        exact Or.inr ⟨(Option.some.inj h).symm, rfl⟩
    · rw [if_neg hcs]
      constructor
      · rintro (hm | ⟨-, hc⟩)
        · exact (hl.1 p c).1 hm
        · exact absurd hc hcs
      · intro h
        exact Or.inl ((hl.1 p c).2 h)
  · rw [hs p]
    by_cases hps : p = self
    · rw [if_pos hps]
      refine List.Nodup.append (hl.2 self) (List.nodup_singleton surface) ?_
      intro x hx hx2
      rw [List.mem_singleton] at hx2
      rw [hx2] at hx
      exact hnot self hx
    · rw [if_neg hps]
      exact hl.2 p
  · obtain ⟨rank1, hr1, hb⟩ := ranked_after_append self surface hr hno hsubs
    refine ⟨rank1, hr1, fun x => ?_⟩
    have h2 := hb x
    have h3 := hH x
    have h4 := hH surface
    omega

/-- The call `removeSubSurface(surface)` on the parent surface of `surface`
keeps a hierarchy. -/
theorem removeSubSurface_hierarchy (rank : SurfaceId → Nat) (fuel : Nat)
    (self surface : SurfaceId) (sc : Scene) (hl : LinksConsistent sc) (hr : Ranked sc rank)
    (hpar : (sc.wrappers surface).parentSurface = some self) (hf : rank surface < fuel) :
    ∃ sc1, removeSubSurface fuel self surface sc = some sc1 ∧ LinksConsistent sc1 ∧
      Ranked sc1 rank := by
  obtain ⟨sc1, h1⟩ := removeSubSurface_terminates rank fuel self surface sc hr hf
  obtain ⟨hp, hs, -⟩ := removeSubSurface_links fuel self surface sc sc1 h1
  refine ⟨sc1, h1, ⟨fun p c => ?_, fun p => ?_⟩, fun p c hc => ?_⟩
  · rw [hs p, hp c]
    by_cases hps : p = self
    · rw [if_pos hps, (hl.2 self).mem_erase_iff, hps]
      by_cases hcs : c = surface
      · rw [if_pos hcs]
        simp [hcs]
      · rw [if_neg hcs]
        simp [hcs, hl.1 self c]
    · rw [if_neg hps]
      by_cases hcs : c = surface
      · rw [if_pos hcs, hl.1 p c, hcs, hpar]
        constructor
        · intro h
          exact absurd (Option.some.inj h).symm hps
        · intro h
          exact absurd h (by simp)
      · rw [if_neg hcs]
        exact hl.1 p c
  · rw [hs p]
    by_cases hps : p = self
    · rw [if_pos hps]
      exact (hl.2 self).erase surface
    · rw [if_neg hps]
      exact hl.2 p
  · rw [hs p] at hc
    by_cases hps : p = self
    · rw [if_pos hps] at hc
      rw [hps]
      exact hr self c (List.mem_of_mem_erase hc)
    · rw [if_neg hps] at hc
      exact hr p c hc

/-- On two surfaces that list each other `hasChild` does not return, whatever
the bound on nested calls. -/
theorem hasChild_two_cycle (sc : Scene) (a b x : SurfaceId)
    (ha : (sc.wrappers a).subSurfaces = [b]) (hb : (sc.wrappers b).subSurfaces = [a])
    (hax : a ≠ x) (hbx : b ≠ x) :
    ∀ n, hasChild n sc a x = none ∧ hasChild n sc b x = none := by
  intro n
  induction n with
  | zero => exact ⟨rfl, rfl⟩
  | succ n ih =>
    constructor
    · rw [hasChild, ha]
      simp [List.anyM, if_neg hbx, ih.2]
    · rw [hasChild, hb]
      simp [List.anyM, if_neg hax, ih.1]

theorem nthParent_add (sc : Scene) (i j : Nat) :
    ∀ x, nthParent sc (i + j) x = (nthParent sc i x).bind (nthParent sc j) := by
  induction i with
  | zero =>
    intro x
    simp [nthParent]
  | succ i ih =>
    intro x
    rw [Nat.succ_add, nthParent, nthParent]
    cases hp : (sc.wrappers x).parentSurface with
    | none => rfl
    | some p =>
      simp only [Option.bind]
      exact ih p

theorem nthParent_isAncestor (sc : Scene) (k : Nat) :
    ∀ x y, nthParent sc (k + 1) x = some y → IsAncestor sc y x := by
  induction k with
  | zero =>
    intro x y h
    rw [nthParent] at h
    cases hp : (sc.wrappers x).parentSurface with
    | none => simp [hp] at h
    | some p =>
      rw [hp] at h
      simp only [Option.bind, nthParent, Option.some.injEq] at h
      subst h
      exact Relation.TransGen.single hp
  | succ k ih =>
    intro x y h
    rw [nthParent] at h
    cases hp : (sc.wrappers x).parentSurface with
    | none => simp [hp] at h
    | some p =>
      rw [hp] at h
      simp only [Option.bind] at h
      exact Relation.TransGen.head hp (ih p y h)

/-- In a hierarchy in which only surfaces below `n` have a parent surface and
no surface is its own ancestor, no chain of parents has more than `n` steps. -/
theorem nthParent_bounded (sc : Scene) (n : Nat) (hac : Acyclic sc)
    (hfin : ∀ x : Nat, n ≤ x → (sc.wrappers x).parentSurface = none) (x : SurfaceId) :
    nthParent sc (n + 1) x = none := by
  by_contra hne
  obtain ⟨y, hy⟩ := Option.ne_none_iff_exists'.1 hne
  have hsome : ∀ i, i ≤ n + 1 → ∃ z, nthParent sc i x = some z := by
    intro i hi
    have hsplit := nthParent_add sc i (n + 1 - i) x
    rw [show i + (n + 1 - i) = n + 1 by omega, hy] at hsplit
    cases hz : nthParent sc i x with
    | none =>
      rw [hz] at hsplit
      exact absurd hsplit (by simp)
    | some z => exact ⟨z, rfl⟩
  have hlt : ∀ i, i ≤ n → (nthParent sc i x).getD 0 < n := by
    intro i hi
    obtain ⟨z, hz⟩ := hsome i (by omega)
    obtain ⟨w, hw⟩ := hsome (i + 1) (by omega)
    rw [hz]
    simp only [Option.getD_some]
    by_contra hge
    have hnone := hfin z (Nat.le_of_not_lt hge)
    have hsplit := nthParent_add sc i 1 x
    rw [hw, hz] at hsplit
    simp only [Option.bind, nthParent, hnone] at hsplit
    exact absurd hsplit (by simp)
  obtain ⟨i, hi, j, hj, hij, hf⟩ :=
    Finset.exists_ne_map_eq_of_card_lt_of_maps_to
      (show (Finset.range n).card < (Finset.range (n + 1)).card by simp)
      (fun i hi => Finset.mem_range.2 (hlt i (by
        have := Finset.mem_range.1 hi
        omega)))
  have hi1 := Finset.mem_range.1 hi
  have hj1 := Finset.mem_range.1 hj
  have key : ∀ a b, a < b → b ≤ n →
      (nthParent sc a x).getD 0 = (nthParent sc b x).getD 0 → False := by
    intro a b hab hb hfab
    obtain ⟨z, hz⟩ := hsome a (by omega)
    obtain ⟨w, hw⟩ := hsome b (by omega)
    rw [hz, hw] at hfab
    simp only [Option.getD_some] at hfab
    subst hfab
    have hsplit := nthParent_add sc a (b - a) x
    rw [show a + (b - a) = b by omega, hw, hz] at hsplit
    simp only [Option.bind] at hsplit
    obtain ⟨d, hd⟩ : ∃ d, b - a = d + 1 := ⟨b - a - 1, by omega⟩
    rw [hd] at hsplit
    exact hac z (nthParent_isAncestor sc d z z hsplit.symm)
  rcases Nat.lt_or_gt_of_ne hij with h | h
  · exact key i j h (by omega) hf
  · exact key j i h (by omega) hf.symm

/-- A finite hierarchy has sub-surface lists that descend along a rank bounded
by the number of its surfaces. -/
theorem ranked_of_acyclic {sc : Scene} {n : Nat} (h : FiniteHierarchy sc n) :
    ∃ rank : SurfaceId → Nat, Ranked sc rank ∧ ∀ x, rank x ≤ n := by
  obtain ⟨hl, hac, hfin⟩ := h
  have hex : ∀ x, ∃ k, nthParent sc (k + 1) x = none :=
    fun x => ⟨n, nthParent_bounded sc n hac hfin x⟩
  have hdepth : ∀ c p, (sc.wrappers c).parentSurface = some p →
      Nat.find (hex c) = Nat.find (hex p) + 1 := by
    intro c p hcp
    rw [Nat.find_eq_iff]
    constructor
    · rw [nthParent, hcp]
      simp only [Option.bind]
      exact Nat.find_spec (hex p)
    · intro k hk
      rw [nthParent, hcp]
      simp only [Option.bind]
      cases k with
      | zero => simp [nthParent]
      | succ j => exact Nat.find_min (hex p) (by omega)
  have hle : ∀ x, Nat.find (hex x) ≤ n :=
    fun x => Nat.find_min' (hex x) (nthParent_bounded sc n hac hfin x)
  refine ⟨fun x => n - Nat.find (hex x), fun p c hc => ?_, fun x => Nat.sub_le _ _⟩
  have h1 := hdepth c p ((hl.1 p c).1 hc)
  have h2 := hle c
  simp only []
  omega

theorem finiteHierarchy_walks {sc : Scene} {n : Nat} (h : FiniteHierarchy sc n) :
    WalksReturn sc (2 * n + 1) := by
  obtain ⟨rank, hr, hH⟩ := ranked_of_acyclic h
  exact (hierarchy_walks h.1.1 hr hH).2

/-! ## The claims -/

/-- C1: every operation that flips the current state (the immediate path of
`setSurfaceState`, also when a request reaches it, `onAnimationReady` after a
successful resize, `requestCancelMinimize` on a minimized surface) leaves
`previousSurfaceState` equal to the state held immediately before and
`surfaceState` equal to the requested target; every other operation leaves
both fields unchanged. An operation fails to complete only on a null
container or a null animation pointer. -/
theorem C1_flip_records_previous_state (env : Env) (op : Op) (s : Surface) :
    (step env op s = none →
      s.container = none ∨ s.geometryAnimation = none ∨ s.minimizeAnimation = none) ∧
    ∀ s1, step env op s = some s1 →
      match flipTarget env op s with
      | some t => s1.previousSurfaceState = s.surfaceState ∧ s1.surfaceState = t
      | none =>
        s1.previousSurfaceState = s.previousSurfaceState ∧
          s1.surfaceState = s.surfaceState :=
  ⟨step_none env op s, fun s1 h => step_outcome env op s s1 h⟩

/-- C1 at a concrete surface: maximizing the freshly attached surface, whose
maximized geometry is not computed yet, flips it from `Normal` to
`Maximized`. -/
theorem C1_flip_records_previous_state_witness :
    step permissiveEnv (Op.setSurfaceState State.Maximized) attachedSurface =
        some (doSetSurfaceState State.Maximized attachedSurface) ∧
      (doSetSurfaceState State.Maximized attachedSurface).previousSurfaceState =
        State.Normal ∧
      (doSetSurfaceState State.Maximized attachedSurface).surfaceState = State.Maximized :=
  ⟨by decide,
    (C1_flip_records_previous_state permissiveEnv (Op.setSurfaceState State.Maximized)
      attachedSurface).2 _ (by decide)⟩

/-- C2: `setSurfaceState(target)` is a complete no-op, returning the surface
exactly as it was (states, pending state and geometry, animation handle,
client flags and log, so no animation is started), whenever a geometry
animation is in flight, or the target equals the current state, or the
container's `filterSurfaceStateChange` vetoes the change. -/
theorem C2_setSurfaceState_rejected (env : Env) (t : State) (s : Surface)
    (h : s.geometryAnimation.isSome = true ∨ t = s.surfaceState ∨
      (s.container.isSome = true ∧ env.filterSurfaceStateChange s t s.surfaceState = true)) :
    setSurfaceState env t s = some s := by
  unfold setSurfaceState
  rcases h with h | h | ⟨hc, hf⟩
  · simp [h]
  · simp [h]
  · cases hcc : s.container with
    | none => simp [hcc] at hc
    | some c => simp [hf]

/-- C2 at concrete surfaces: a request during a running animation, a request
for the current state, and a vetoed request. -/
theorem C2_setSurfaceState_rejected_witness :
    setSurfaceState permissiveEnv State.Fullscreen
        { layoutedSurface with
          geometryAnimation := some { fromGeometry := {}, targetGeometry := {} } } =
      some { layoutedSurface with
          geometryAnimation := some { fromGeometry := {}, targetGeometry := {} } } ∧
    setSurfaceState permissiveEnv State.Normal layoutedSurface = some layoutedSurface ∧
    setSurfaceState vetoMinimizeEnv State.Minimized layoutedSurface = some layoutedSurface :=
  ⟨C2_setSurfaceState_rejected _ _ _ (Or.inl rfl),
    C2_setSurfaceState_rejected _ _ _ (Or.inr (Or.inl rfl)),
    C2_setSurfaceState_rejected _ _ _ (Or.inr (Or.inr ⟨rfl, by decide⟩))⟩

/-- C3: a `setSurfaceState(target)` call that passes the guards (no animation
in flight, target different from the current state, container present and not
vetoing) looks at the cached geometry of the target: `m_normalGeometry` for
`Normal`, `m_maximizedGeometry` for `Maximized`, `m_fullscreenGeometry` for
`Fullscreen`, `m_tilingGeometry` for `Tiling`, and the null rectangle for
`Minimized`, which has no cache and is never valid. When the cached geometry
is not valid the state flips at once and no geometry animation is created.
Otherwise `surfaceState` and `previousSurfaceState` stay as they are, a
geometry animation from the current geometry to the cached one is created and
the pending state and geometry are set to the target and its cached geometry;
the flip then happens in the ready callback once the resize succeeds. -/
theorem C3_setSurfaceState_accepted (env : Env) (t : State) (s : Surface) (cached : QRectF)
    (hcached : cached =
      match t with
      | State.Normal => s.normalGeometry
      | State.Maximized => s.maximizedGeometry
      | State.Fullscreen => s.fullscreenGeometry
      | State.Tiling => s.tilingGeometry
      | State.Minimized => {})
    (hanim : s.geometryAnimation = none) (hne : s.surfaceState ≠ t)
    (hc : s.container.isSome = true)
    (hveto : env.filterSurfaceStateChange s t s.surfaceState = false) :
    (t = State.Minimized → cached.isValid = false) ∧
    (cached.isValid = false →
      setSurfaceState env t s = some (doSetSurfaceState t s) ∧
      (doSetSurfaceState t s).surfaceState = t ∧
      (doSetSurfaceState t s).previousSurfaceState = s.surfaceState ∧
      (doSetSurfaceState t s).geometryAnimation = none ∧
      LogExtends (fun e => e.isStartGeometryAnimation = false) s (doSetSurfaceState t s)) ∧
    (cached.isValid = true →
      ∃ s1, setSurfaceState env t s = some s1 ∧
        s1.surfaceState = s.surfaceState ∧
        s1.previousSurfaceState = s.previousSurfaceState ∧
        s1.geometryAnimation =
          some { fromGeometry := geometry s, targetGeometry := cached,
                 deleteScheduled := false } ∧
        s1.pendingState = t ∧
        s1.pendingGeometry = cached ∧
        s1.log = s.log ++ [Effect.startGeometryAnimation (geometry s) cached] ∧
        (env.resizeSurface s1 s1.pendingGeometry.size = true →
          ∃ s2, onAnimationReady env s1 = some s2 ∧ s2.surfaceState = t ∧
            s2.previousSurfaceState = s.surfaceState)) := by
  obtain ⟨c, hcc⟩ := Option.isSome_iff_exists.mp hc
  have htg : targetGeometryFor t s = cached := by
    rw [hcached]
    cases t <;> rfl
  refine ⟨?_, ?_, ?_⟩
  · intro ht
    subst ht
    rw [hcached]
    rfl
  · intro hv
    rw [← htg] at hv
    refine ⟨?_, (doSetSurfaceState_states t s).1, (doSetSurfaceState_states t s).2, ?_,
      doSetSurfaceState_log t s⟩
    · unfold setSurfaceState
      simp [hanim, hne, hcc, hveto, hv]
    · simp [doSetSurfaceState_fields, hanim]
  · intro hv
    rw [← htg] at hv ⊢
    refine ⟨(startStateChangeAnimation t (targetGeometryFor t s) s).2, ?_, ?_⟩
    · unfold setSurfaceState
      simp [hanim, hne, hcc, hveto, hv]
    · simp only [startStateChangeAnimation, hanim, Option.isSome_none, Bool.false_eq_true,
        if_false, true_and]
      intro hr
      exact onAnimationReady_accepted env _ hr

/-- C3 at concrete surfaces. A request for `Fullscreen` on the laid-out surface
starts an animation towards the cached fullscreen geometry and defers the
flip; a request for `Tiling` on the same surface with a cached tiling geometry
starts one towards that geometry; a request for `Minimized` flips at once. -/
theorem C3_setSurfaceState_accepted_witness :
    (∃ s1, setSurfaceState permissiveEnv State.Fullscreen layoutedSurface = some s1 ∧
      s1.surfaceState = State.Normal ∧
      s1.previousSurfaceState = State.Normal ∧
      s1.geometryAnimation =
        some { fromGeometry := { x := 100, y := 100, width := 800, height := 600 },
               targetGeometry := { x := 0, y := 0, width := 1920, height := 1080 },
               deleteScheduled := false } ∧
      s1.pendingState = State.Fullscreen ∧
      s1.pendingGeometry = { x := 0, y := 0, width := 1920, height := 1080 } ∧
      s1.log = [Effect.startGeometryAnimation
        { x := 100, y := 100, width := 800, height := 600 }
        { x := 0, y := 0, width := 1920, height := 1080 }] ∧
      (permissiveEnv.resizeSurface s1 s1.pendingGeometry.size = true →
        ∃ s2, onAnimationReady permissiveEnv s1 = some s2 ∧
          s2.surfaceState = State.Fullscreen ∧ s2.previousSurfaceState = State.Normal)) ∧
    (∃ s1, setSurfaceState permissiveEnv State.Tiling
        { layoutedSurface with
          tilingGeometry := { x := 0, y := 40, width := 960, height := 1040 } } = some s1 ∧
      s1.surfaceState = State.Normal ∧
      s1.pendingState = State.Tiling ∧
      s1.pendingGeometry = { x := 0, y := 40, width := 960, height := 1040 }) ∧
    setSurfaceState permissiveEnv State.Minimized layoutedSurface =
      some (doSetSurfaceState State.Minimized layoutedSurface) ∧
    (doSetSurfaceState State.Minimized layoutedSurface).surfaceState = State.Minimized :=
  have hF := (C3_setSurfaceState_accepted permissiveEnv State.Fullscreen layoutedSurface
    { x := 0, y := 0, width := 1920, height := 1080 } rfl rfl (by decide) rfl rfl).2.2
    (by decide)
  have hT := (C3_setSurfaceState_accepted permissiveEnv State.Tiling
    { layoutedSurface with tilingGeometry := { x := 0, y := 40, width := 960, height := 1040 } }
    { x := 0, y := 40, width := 960, height := 1040 } rfl rfl (by decide) rfl rfl).2.2
    (by decide)
  have hM := (C3_setSurfaceState_accepted permissiveEnv State.Minimized layoutedSurface
    {} rfl rfl (by decide) rfl rfl).2.1 (by decide)
  ⟨hF,
    (let ⟨s1, h1, h2, _, _, h5, h6, _⟩ := hT
     ⟨s1, h1, h2, h5, h6⟩),
    hM.1, hM.2.1⟩

/-- C4: when the ready callback of a state-change animation fires and the
resize to the pending size fails, the transition is aborted: the animation is
scheduled for deletion and `surfaceState`, `previousSurfaceState`, the
position, the minimize, maximize and fullscreen flags of the client surface
and the activation capability bits are exactly as before the callback. The
callback changes nothing but the animation handle and the record of the
attempted resize. -/
theorem C4_resize_rejection_aborts (env : Env) (s : Surface) (a : GeometryAnimation)
    (ha : s.geometryAnimation = some a)
    (hr : env.resizeSurface s s.pendingGeometry.size = false) :
    ∃ s1, onAnimationReady env s = some s1 ∧
      s1.surfaceState = s.surfaceState ∧
      s1.previousSurfaceState = s.previousSurfaceState ∧
      s1.position = s.position ∧
      s1.shell = s.shell ∧
      s1.hasActiveCapability = s.hasActiveCapability ∧
      s1 = { s with
        geometryAnimation := some { a with deleteScheduled := true },
        log := s.log ++ [Effect.resizeSurface s.pendingGeometry.size] } := by
  refine ⟨{ s with
        geometryAnimation := some { a with deleteScheduled := true },
        log := s.log ++ [Effect.resizeSurface s.pendingGeometry.size] }, ?_, rfl, rfl, rfl,
    rfl, rfl, rfl⟩
  unfold onAnimationReady
  simp [resize_fields, hr, ha, geometryAnimationDeleteLater]

/-- C4 at a concrete surface: the client rejects the maximized size while the
animation of the laid-out surface is getting ready. -/
theorem C4_resize_rejection_aborts_witness :
    ∃ s1, onAnimationReady rejectResizeEnv
        (startStateChangeAnimation State.Maximized layoutedSurface.maximizedGeometry
          layoutedSurface).2 = some s1 ∧
      s1.surfaceState = State.Normal ∧
      s1.previousSurfaceState = State.Normal ∧
      s1.position = { x := 100, y := 100 } ∧
      s1.shell = {} ∧
      s1.hasActiveCapability = ActiveControlStates.Full ∧
      s1 = { (startStateChangeAnimation State.Maximized layoutedSurface.maximizedGeometry
                layoutedSurface).2 with
        geometryAnimation :=
          some { fromGeometry := { x := 100, y := 100, width := 800, height := 600 },
                 targetGeometry := { x := 0, y := 40, width := 1920, height := 1040 },
                 deleteScheduled := true },
        log := [Effect.startGeometryAnimation
            { x := 100, y := 100, width := 800, height := 600 }
            { x := 0, y := 40, width := 1920, height := 1040 },
          Effect.resizeSurface { width := 1920, height := 1040 }] } :=
  C4_resize_rejection_aborts rejectResizeEnv
    (startStateChangeAnimation State.Maximized layoutedSurface.maximizedGeometry
      layoutedSurface).2
    { fromGeometry := { x := 100, y := 100, width := 800, height := 600 },
      targetGeometry := { x := 0, y := 40, width := 1920, height := 1040 } }
    rfl rfl

/-- C5: the client-visible flags mirror the state. If the minimize, maximize
and fullscreen flags of the client surface equal `state == Minimized`,
`state == Maximized` and `state == Fullscreen` before `doSetSurfaceState(target)`,
they equal `target == Minimized`, `target == Maximized` and
`target == Fullscreen` after it, for every old state and every target, the
old state included. A flip between `Normal` and `Tiling` calls no setter of
the client surface: it leaves the flags and the log untouched. -/
theorem C5_client_flags_mirror_state (t : State) (s : Surface) :
    (s.shell.minimized = decide (s.surfaceState = State.Minimized) →
      s.shell.maximized = decide (s.surfaceState = State.Maximized) →
      s.shell.fullscreen = decide (s.surfaceState = State.Fullscreen) →
      (doSetSurfaceState t s).shell.minimized = decide (t = State.Minimized) ∧
      (doSetSurfaceState t s).shell.maximized = decide (t = State.Maximized) ∧
      (doSetSurfaceState t s).shell.fullscreen = decide (t = State.Fullscreen)) ∧
    ((s.surfaceState = State.Normal ∨ s.surfaceState = State.Tiling) →
      (t = State.Normal ∨ t = State.Tiling) →
      (doSetSurfaceState t s).log = s.log ∧ (doSetSurfaceState t s).shell = s.shell) := by
  unfold doSetSurfaceState updateVisible enterState leaveState recordFlip
  simp only [updateTitleBar_eq, setNoCornerRadius_eq, setVisibleDecoration_eq]
  constructor
  · intro h1 h2 h3
    cases t <;> cases hs : s.surfaceState <;>
      simp_all [updateHasActiveCapability_eq, shellSetMaximize, shellSetMinimize,
        shellSetFullScreen]
  · intro h1 h2
    rcases h1 with h1 | h1 <;> rcases h2 with h2 | h2 <;> subst h2 <;> simp [h1]

/-- C5 at a concrete surface: a maximized surface whose client flags mirror
its state is made fullscreen. -/
theorem C5_client_flags_mirror_state_witness :
    (doSetSurfaceState State.Fullscreen
        (doSetSurfaceState State.Maximized layoutedSurface)).shell.minimized = false ∧
    (doSetSurfaceState State.Fullscreen
        (doSetSurfaceState State.Maximized layoutedSurface)).shell.maximized = false ∧
    (doSetSurfaceState State.Fullscreen
        (doSetSurfaceState State.Maximized layoutedSurface)).shell.fullscreen = true :=
  (C5_client_flags_mirror_state State.Fullscreen
    (doSetSurfaceState State.Maximized layoutedSurface)).1 (by decide) (by decide) (by decide)

/-- C6: the `UnMinimized` capability bit tracks the state. If the bit is set
exactly when the state is not `Minimized` before a flip, it is set exactly
when the new state is not `Minimized` after it, for every old state and every
target; this holds for `doSetSurfaceState` and so for the three operations
that flip the state. Whatever the bit was, entering `Minimized` clears it and
leaving `Minimized` for another state sets it. -/
theorem C6_unMinimized_tracks_state (env : Env) (t : State) (s : Surface) :
    (s.hasActiveCapability.unMinimized = decide (s.surfaceState ≠ State.Minimized) →
      (doSetSurfaceState t s).hasActiveCapability.unMinimized =
          decide ((doSetSurfaceState t s).surfaceState ≠ State.Minimized) ∧
      (∀ s1, setSurfaceState env t s = some s1 →
        s1.hasActiveCapability.unMinimized = decide (s1.surfaceState ≠ State.Minimized)) ∧
      (∀ s1, onAnimationReady env s = some s1 →
        s1.hasActiveCapability.unMinimized = decide (s1.surfaceState ≠ State.Minimized)) ∧
      (requestCancelMinimize s).hasActiveCapability.unMinimized =
        decide ((requestCancelMinimize s).surfaceState ≠ State.Minimized)) ∧
    (doSetSurfaceState State.Minimized s).hasActiveCapability.unMinimized = false ∧
    (s.surfaceState = State.Minimized → t ≠ State.Minimized →
      (doSetSurfaceState t s).hasActiveCapability.unMinimized = true) := by
  have key : ∀ (u : State) (x : Surface),
      x.hasActiveCapability.unMinimized = decide (x.surfaceState ≠ State.Minimized) →
      (doSetSurfaceState u x).hasActiveCapability.unMinimized =
        decide ((doSetSurfaceState u x).surfaceState ≠ State.Minimized) := by
    intro u x hx
    rw [doSetSurfaceState_unMinimized, (doSetSurfaceState_states u x).1, hx]
    by_cases h1 : u = State.Minimized <;> by_cases h2 : x.surfaceState = State.Minimized <;>
      simp [h1, h2]
  refine ⟨fun h => ⟨key t s h, ?_, ?_, ?_⟩, ?_, ?_⟩
  · intro s1 h1
    rcases setSurfaceState_cases env t s s1 h1 with ⟨h2, -⟩ | ⟨h2, -, h3⟩ | h2
    · subst h2; exact h
    · subst h3
      simpa [startStateChangeAnimation, h2] using h
    · subst h2; exact key t s h
  · intro s1 h1
    rcases onAnimationReady_cases env s s1 h1 with h2 | h2
    · subst h2
      simpa [geometryAnimationDeleteLater, resize_fields] using h
    · subst h2
      exact key _ _ (by simpa [setPosition_fields, resize_fields] using h)
  · unfold requestCancelMinimize
    by_cases hm : s.surfaceState = State.Minimized
    · have h2 := key s.previousSurfaceState s h
      simp only [hm, ne_eq, not_true_eq_false, if_false]
      unfold startMinimizeAnimation
      by_cases hanim : (doSetSurfaceState s.previousSurfaceState s).minimizeAnimation.isSome = true
      · simpa [hanim] using h2
      · simpa [hanim] using h2
    · simpa [hm] using h
  · simp [doSetSurfaceState_unMinimized]
  · intro h1 h2
    simp [doSetSurfaceState_unMinimized, h1, h2]

/-- C6 at a concrete surface: minimizing the laid-out surface clears the bit,
restoring it sets the bit again. -/
theorem C6_unMinimized_tracks_state_witness :
    (doSetSurfaceState State.Minimized layoutedSurface).hasActiveCapability.unMinimized =
        decide ((doSetSurfaceState State.Minimized layoutedSurface).surfaceState ≠
          State.Minimized) ∧
      (doSetSurfaceState State.Normal
          (doSetSurfaceState State.Minimized layoutedSurface)).hasActiveCapability.unMinimized =
        true :=
  ⟨((C6_unMinimized_tracks_state permissiveEnv State.Minimized layoutedSurface).1
      (by decide)).1,
    (C6_unMinimized_tracks_state permissiveEnv State.Normal
      (doSetSurfaceState State.Minimized layoutedSurface)).2.2 (by decide) (by decide)⟩

/-- C7: `hasActiveCapability()` is true if and only if the three capability
bits `Mapped`, `UnMinimized` and `HasInitializeContainer` are all set; and
`updateHasActiveCapability(bit, value)` stores the bit and emits
`requestActive` exactly when the call turns `hasActiveCapability` from false to
true, `requestDeactive` exactly when it turns it from true to false, and
nothing when `hasActiveCapability` keeps its value. -/
theorem C7_activation_capability (f : ActiveControlState) (v : Bool) (s : Surface) :
    (hasActiveCapability s = true ↔
      s.hasActiveCapability.testFlag ActiveControlState.Mapped = true ∧
      s.hasActiveCapability.testFlag ActiveControlState.UnMinimized = true ∧
      s.hasActiveCapability.testFlag ActiveControlState.HasInitializeContainer = true) ∧
    (updateHasActiveCapability f v s).hasActiveCapability =
      s.hasActiveCapability.setFlag f v ∧
    (hasActiveCapability s = false →
      hasActiveCapability (updateHasActiveCapability f v s) = true →
      (updateHasActiveCapability f v s).log = s.log ++ [Effect.requestActive]) ∧
    (hasActiveCapability s = true →
      hasActiveCapability (updateHasActiveCapability f v s) = false →
      (updateHasActiveCapability f v s).log = s.log ++ [Effect.requestDeactive]) ∧
    (hasActiveCapability (updateHasActiveCapability f v s) = hasActiveCapability s →
      (updateHasActiveCapability f v s).log = s.log) := by
  refine ⟨?_, ?_, ?_, ?_, ?_⟩
  · unfold hasActiveCapability ActiveControlStates.testFlag ActiveControlStates.Full
    cases hcap : s.hasActiveCapability with
    | mk m u c => cases m <;> cases u <;> cases c <;> decide
  · simp [updateHasActiveCapability_eq]
  · intro h1 h2
    rw [updateHasActiveCapability_eq] at h2 ⊢
    simp only [hasActiveCapability] at h1 h2
    simp [hasActiveCapability, activationSignals, h1, h2]
  · intro h1 h2
    rw [updateHasActiveCapability_eq] at h2 ⊢
    simp only [hasActiveCapability] at h1 h2
    simp [hasActiveCapability, activationSignals, h1, h2]
  · intro h1
    rw [updateHasActiveCapability_eq] at h1 ⊢
    simp only [hasActiveCapability] at h1
    cases h2 : (s.hasActiveCapability == ActiveControlStates.Full) <;>
      simp [hasActiveCapability, activationSignals, h1, h2]

/-- C7 at a concrete surface: a mapped, unminimized surface without container
gains its last capability and asks for activation. -/
theorem C7_activation_capability_witness :
    (updateHasActiveCapability ActiveControlState.HasInitializeContainer true
        { hasActiveCapability := { mapped := true, unMinimized := true } }).log =
      [Effect.requestActive] :=
  (C7_activation_capability ActiveControlState.HasInitializeContainer true
    { hasActiveCapability := { mapped := true, unMinimized := true } }).2.2.1
    (by decide) (by decide)

/-- C8, the claim as stated fails for `requestCancelMaximize`: the attached
surface is tiled, then maximized, so that it is `Maximized` with previous
state `Tiling`, no animation is in flight and nothing is vetoed; cancelling
the maximize puts it in `Normal`, not back in `Tiling`. -/
theorem C8_cancelMaximize_counterexample :
    (setSurfaceState permissiveEnv State.Tiling attachedSurface).bind
        (requestMaximize permissiveEnv) = some tiledThenMaximized ∧
    tiledThenMaximized.surfaceState = State.Maximized ∧
    tiledThenMaximized.previousSurfaceState = State.Tiling ∧
    tiledThenMaximized.geometryAnimation = none ∧
    permissiveEnv.filterSurfaceStateChange tiledThenMaximized State.Normal
      State.Maximized = false ∧
    (requestCancelMaximize permissiveEnv tiledThenMaximized).map (fun s1 => s1.surfaceState) =
      some State.Normal ∧
    (requestCancelMaximize permissiveEnv tiledThenMaximized).map (fun s1 => s1.surfaceState) ≠
      some tiledThenMaximized.previousSurfaceState := by
  decide

/-- C8 as amended: each cancel request changes nothing when the surface is not
in the corresponding state. On a minimized surface `requestCancelMinimize`
restores `previousSurfaceState`; on a fullscreen surface
`requestCancelFullscreen` requests `previousSurfaceState` through
`setSurfaceState`, so that with no animation in flight and no veto that state
is either entered at once or pending in a started animation; on a maximized
surface `requestCancelMaximize` requests the fixed target `Normal` in the same
way, whatever `previousSurfaceState` is. -/
theorem C8_cancel_requests (env : Env) (s : Surface) :
    (s.surfaceState ≠ State.Minimized → requestCancelMinimize s = s) ∧
    (s.surfaceState ≠ State.Maximized → requestCancelMaximize env s = some s) ∧
    (s.surfaceState ≠ State.Fullscreen → requestCancelFullscreen env s = some s) ∧
    (s.surfaceState = State.Minimized →
      (requestCancelMinimize s).surfaceState = s.previousSurfaceState ∧
      (requestCancelMinimize s).previousSurfaceState = State.Minimized) ∧
    (s.surfaceState = State.Fullscreen →
      requestCancelFullscreen env s = setSurfaceState env s.previousSurfaceState s ∧
      (s.geometryAnimation = none → s.container.isSome = true →
        s.previousSurfaceState ≠ State.Fullscreen →
        env.filterSurfaceStateChange s s.previousSurfaceState State.Fullscreen = false →
        ∃ s1, requestCancelFullscreen env s = some s1 ∧
          (s1.surfaceState = s.previousSurfaceState ∨
            (s1.surfaceState = State.Fullscreen ∧ s1.pendingState = s.previousSurfaceState ∧
              s1.geometryAnimation.isSome = true)))) ∧
    (s.surfaceState = State.Maximized →
      requestCancelMaximize env s = setSurfaceState env State.Normal s ∧
      (s.geometryAnimation = none → s.container.isSome = true →
        env.filterSurfaceStateChange s State.Normal State.Maximized = false →
        ∃ s1, requestCancelMaximize env s = some s1 ∧
          (s1.surfaceState = State.Normal ∨
            (s1.surfaceState = State.Maximized ∧ s1.pendingState = State.Normal ∧
              s1.geometryAnimation.isSome = true)))) := by
  refine ⟨?_, ?_, ?_, ?_, ?_, ?_⟩
  · intro h
    simp [requestCancelMinimize, h]
  · intro h
    simp [requestCancelMaximize, h]
  · intro h
    simp [requestCancelFullscreen, h]
  · intro h
    have := requestCancelMinimize_outcome s
    simp only [h, if_true, FlipOutcome] at this
    exact ⟨this.2, this.1⟩
  · intro h
    have heq : requestCancelFullscreen env s = setSurfaceState env s.previousSurfaceState s := by
      simp [requestCancelFullscreen, h]
    refine ⟨heq, ?_⟩
    intro hanim hc hne hveto
    rw [heq]
    have := setSurfaceState_passes env s.previousSurfaceState s hanim
      (by rw [h]; exact fun e => hne e.symm) hc (by rw [h]; exact hveto)
    simpa [h] using this
  · intro h
    have heq : requestCancelMaximize env s = setSurfaceState env State.Normal s := by
      simp [requestCancelMaximize, h]
    refine ⟨heq, ?_⟩
    intro hanim hc hveto
    rw [heq]
    have := setSurfaceState_passes env State.Normal s hanim (by rw [h]; decide) hc
      (by rw [h]; exact hveto)
    simpa [h] using this

/-- C8 as amended, at a concrete surface: cancelling the maximize of the
surface that was tiled before requests `Normal`. -/
theorem C8_cancel_requests_witness :
    requestCancelMaximize permissiveEnv tiledThenMaximized =
      setSurfaceState permissiveEnv State.Normal tiledThenMaximized :=
  ((C8_cancel_requests permissiveEnv tiledThenMaximized).2.2.2.2.2 (by decide)).1

/-- C9, the claim as stated fails when the container vetoes the minimize:
`requestMinimize` then starts only the minimize animation, the surface stays
`Normal`, and the following `requestMaximize` is carried out. On the attached
surface it flips the state to `Maximized`; on the laid-out surface it starts a
geometry animation. -/
theorem C9_vetoed_minimize_counterexample :
    (∃ s1 s2, requestMinimize vetoMinimizeEnv attachedSurface = some s1 ∧
      s1.minimizeAnimation =
        some { iconGeometry := {}, direction := CLOSE_ANIMATION, deleteScheduled := false } ∧
      s1.surfaceState = State.Normal ∧
      requestMaximize vetoMinimizeEnv s1 = some s2 ∧
      s2.surfaceState = State.Maximized ∧
      s2.surfaceState ≠ s1.surfaceState) ∧
    (∃ s1 s2, requestMinimize vetoMinimizeEnv layoutedSurface = some s1 ∧
      s1.minimizeAnimation =
        some { iconGeometry := {}, direction := CLOSE_ANIMATION, deleteScheduled := false } ∧
      s1.geometryAnimation = none ∧
      requestMaximize vetoMinimizeEnv s1 = some s2 ∧
      s2.geometryAnimation.isSome = true) :=
  ⟨⟨startMinimizeAnimation {} CLOSE_ANIMATION attachedSurface,
      doSetSurfaceState State.Maximized
        (startMinimizeAnimation {} CLOSE_ANIMATION attachedSurface),
      by decide⟩,
    ⟨startMinimizeAnimation {} CLOSE_ANIMATION layoutedSurface,
      (startStateChangeAnimation State.Maximized layoutedSurface.maximizedGeometry
        (startMinimizeAnimation {} CLOSE_ANIMATION layoutedSurface)).2,
      by decide⟩⟩

/-- C9 as amended: after a `requestMinimize` whose state change was not vetoed
by the container (a geometry animation was in flight, or the surface was
already minimized, or the container let the change pass) the minimize
animation exists and a `requestMaximize` that directly follows is rejected: it
returns the surface unchanged, so `surfaceState` and `previousSurfaceState`
stay and no geometry animation is started. The rejection lasts as long as the
surface is `Minimized` or a geometry animation is in flight. -/
theorem C9_maximize_after_minimize (env : Env) (s s1 : Surface)
    (h1 : requestMinimize env s = some s1)
    (hok : s.geometryAnimation.isSome = true ∨ s.surfaceState = State.Minimized ∨
      env.filterSurfaceStateChange s State.Minimized s.surfaceState = false) :
    s1.minimizeAnimation.isSome = true ∧
    requestMaximize env s1 = some s1 ∧
    (∀ s2 : Surface, s2.surfaceState = State.Minimized → requestMaximize env s2 = some s2) ∧
    (∀ s2 : Surface, s2.geometryAnimation.isSome = true →
      requestMaximize env s2 = some s2) := by
  simp only [requestMinimize, Option.map_eq_some'] at h1
  obtain ⟨s0, h0, hs1⟩ := h1
  have hmin : ∀ s2 : Surface, s2.surfaceState = State.Minimized →
      requestMaximize env s2 = some s2 := by
    intro s2 h2
    simp [requestMaximize, h2]
  have hanimOn : ∀ x : Surface,
      (startMinimizeAnimation x.iconGeometry CLOSE_ANIMATION x).minimizeAnimation.isSome =
        true := by
    intro x
    unfold startMinimizeAnimation
    by_cases hx : x.minimizeAnimation.isSome = true <;> simp [hx]
  have hanimated : ∀ x : Surface, x.geometryAnimation.isSome = true →
      requestMaximize env x = some x := by
    intro x hx
    unfold requestMaximize setSurfaceState
    simp [hx]
  refine ⟨by rw [← hs1]; exact hanimOn s0, ?_, hmin, hanimated⟩
  have hf := startMinimizeAnimation_fields s0.iconGeometry CLOSE_ANIMATION s0
  rcases setSurfaceState_cases env State.Minimized s s0 h0 with ⟨h2, h3⟩ | ⟨-, hv, -⟩ | h2
  · -- the state change was rejected: the surface is as before the request
    subst h2
    have h4 : s0.geometryAnimation.isSome = true ∨ s0.surfaceState = State.Minimized := by
      rcases hok with hok | hok | hok
      · exact Or.inl hok
      · exact Or.inr hok
      · rcases h3 with h3 | h3 | h3
        · exact Or.inl h3
        · exact Or.inr h3
        · rw [hok] at h3
          exact absurd h3 (by simp)
    rcases h4 with h4 | h4
    · exact hanimated s1 (by rw [← hs1, hf.2.2.1]; exact h4)
    · exact hmin s1 (by rw [← hs1, hf.1]; exact h4)
  · -- `Minimized` has no cached geometry, so no animation is started for it
    exfalso
    simp [targetGeometryFor, QRectF.isValid] at hv
  · -- the surface was minimized by the request
    exact hmin s1 (by rw [← hs1, hf.1, h2]; exact (doSetSurfaceState_states _ _).1)

/-- C9 as amended, at a concrete surface: the laid-out surface is minimized,
then asked to maximize while the minimize animation runs. -/
theorem C9_maximize_after_minimize_witness :
    requestMaximize permissiveEnv
        (startMinimizeAnimation {} CLOSE_ANIMATION
          (doSetSurfaceState State.Minimized layoutedSurface)) =
      some (startMinimizeAnimation {} CLOSE_ANIMATION
          (doSetSurfaceState State.Minimized layoutedSurface)) :=
  (C9_maximize_after_minimize permissiveEnv layoutedSurface
    (startMinimizeAnimation {} CLOSE_ANIMATION
      (doSetSurfaceState State.Minimized layoutedSurface))
    (by decide) (Or.inr (Or.inr rfl))).2.1

/-- C11, the code at two inputs on which it loses subtree contiguity. In
`visitorScene`, drawn `0, 1, 2` with `1` the sub-surface of `0`, the order is
grouped; `stackBefore(2, 0)` answers `true` and leaves `0, 2, 1`, the surface
`2` between the target `0` and its sub-surface. In `deepScene`, drawn
`4, 0, 1, 3, 2` and grouped, `stackBefore(0, 4)` answers `true` and leaves
`0, 1, 3, 4, 2`: the sub-surface `2` of `0` stays behind `4`. From the grouped
order `0, 1, 3, 2, 4` of the same surfaces, `stackAfter(0, 4)` and
`stackToLast` on `0` leave `2, 4, 0, 1, 3`, the sub-surface `2` in front of
its parent. -/
theorem C11_stacking_splits_subtree :
    DrawOrderGrouped 5 visitorScene 0 ∧
    (stackBefore 8 2 (Item.surface 0) visitorScene).map (fun r => (r.1, r.2.childItems 0)) =
      some (true, [Item.surface 0, Item.surface 2, Item.surface 1]) ∧
    ¬ DrawOrderGrouped 5 ((stackBefore 8 2 (Item.surface 0) visitorScene).get (by decide)).2 0 ∧
    DrawOrderGrouped 5 deepScene 0 ∧
    (stackBefore 9 0 (Item.surface 4) deepScene).map (fun r => (r.1, r.2.childItems 0)) =
      some (true,
        [Item.surface 0, Item.surface 1, Item.surface 3, Item.surface 4, Item.surface 2]) ∧
    ¬ DrawOrderGrouped 5 ((stackBefore 9 0 (Item.surface 4) deepScene).get (by decide)).2 0 ∧
    DrawOrderGrouped 5 (deepScene.setChildItems 0 ([0, 1, 3, 2, 4].map Item.surface)) 0 ∧
    (stackAfter 9 0 (Item.surface 4)
        (deepScene.setChildItems 0 ([0, 1, 3, 2, 4].map Item.surface))).map
        (fun r => (r.1, r.2.childItems 0)) =
      some (true,
        [Item.surface 2, Item.surface 4, Item.surface 0, Item.surface 1, Item.surface 3]) ∧
    (stackToLast 9 0 (deepScene.setChildItems 0 ([0, 1, 3, 2, 4].map Item.surface))).map
        (fun r => r.childItems 0) =
      some [Item.surface 2, Item.surface 4, Item.surface 0, Item.surface 1, Item.surface 3] ∧
    ¬ DrawOrderGrouped 5
      ((stackToLast 9 0
        (deepScene.setChildItems 0 ([0, 1, 3, 2, 4].map Item.surface))).get (by decide)) 0 := by
  unfold DrawOrderGrouped SubtreeContiguous
  decide

/-- C12, the claim as stated fails: a sub-surface is not moved next to the
target, its parent is moved with all its sub-surfaces. In `nestedScene`, drawn
`0, 1, 2, 3`, the surface `1` is a sub-surface of `0` and neither `1` nor `3`
is an ancestor of the other; `stackBefore(1, 3)` answers `true` and leaves the
order `0, 1, 2, 3`, in which `1` does not directly precede `3`. -/
theorem C12_nested_counterexample :
    (nestedScene.wrappers 1).parentSurface = some 0 ∧
    hasChild 5 nestedScene 1 3 = some false ∧ hasChild 5 nestedScene 3 1 = some false ∧
    (stackBefore 8 1 (Item.surface 3) nestedScene).map (fun r => (r.1, r.2.childItems 0)) =
      some (true, [Item.surface 0, Item.surface 1, Item.surface 2, Item.surface 3]) ∧
    ¬ DrawnBefore ((stackBefore 8 1 (Item.surface 3) nestedScene).get (by decide)).2 0 1 [] 3 := by
  unfold DrawnBefore
  decide

/-- C12 as amended: let `a` and `b` be surfaces under the same drawing parent,
where `a` is a top-level surface or has the same parent surface as `b`, `b` has
no sub-surfaces, and the sub-surfaces `cs` of `a` have none of their own. Then
`stackBefore(a, b)` answers `true` and leaves `a`, followed by `cs` in list
order, directly before `b`; a following `stackAfter(a, b)` answers `true` and
leaves `a`, followed by `cs`, directly after `b`. -/
theorem C12_stack_next_to (fuel : Nat) (sc : Scene) (p : Nat) (a b : SurfaceId)
    (cs : List SurfaceId) (h : StackPair sc p a b cs) (hfuel : cs.length + 5 ≤ fuel) :
    ∃ sc1, stackBefore fuel a (Item.surface b) sc = some (true, sc1) ∧
      DrawnBefore sc1 p a cs b ∧
      ∃ sc2, stackAfter fuel a (Item.surface b) sc1 = some (true, sc2) ∧
        DrawnAfter sc2 p a cs b := by
  obtain ⟨sc1, pre, post, h1, hord1, hsp1⟩ := stackBefore_stackPair fuel sc p a b cs h hfuel
  obtain ⟨sc2, pre2, post2, h2, hord2, -⟩ := stackAfter_stackPair fuel sc1 p a b cs hsp1 hfuel
  refine ⟨sc1, h1, ⟨pre, post, ?_⟩, sc2, h2, ⟨pre2, post2, ?_⟩⟩
  · simp [hord1]
  · simp [hord2]

/-- C12 as amended, at `scatteredScene`, drawn `3, 1, 0, 2`: the surface `0`
with the sub-surfaces `1` and `2` is stacked before and then after `3`. -/
theorem C12_stack_next_to_witness :
    StackPair scatteredScene 0 0 3 [1, 2] ∧
    ∃ sc1, stackBefore 7 0 (Item.surface 3) scatteredScene = some (true, sc1) ∧
      DrawnBefore sc1 0 0 [1, 2] 3 ∧
      ∃ sc2, stackAfter 7 0 (Item.surface 3) sc1 = some (true, sc2) ∧
        DrawnAfter sc2 0 0 [1, 2] 3 :=
  have hsp : StackPair scatteredScene 0 0 3 [1, 2] :=
    ⟨⟨by decide, by decide, by decide, by decide, by decide⟩, by decide, by decide, by decide,
      by decide, by decide, by decide, Or.inl (by decide)⟩
  ⟨hsp, C12_stack_next_to 7 scatteredScene 0 0 3 [1, 2] hsp (by decide)⟩

/-- C13, the claim as stated fails: with the target a sub-surface of `self`,
`stackBefore` is carried out and answers `true`. In the family drawn `0, 1, 2`
the call `stackBefore(0, 2)` succeeds; in the family drawn `0, 2, 1`, which
`stackAfter(2, 0)` produces, the call `stackBefore(0, 1)` succeeds and changes
the draw order to `0, 1, 2`. -/
theorem C13_stackBefore_descendant_counterexample :
    hasChild 3 familyScene 0 2 = some true ∧
    (stackBefore 8 0 (Item.surface 2) familyScene).map (fun r => r.1) = some true ∧
    (stackAfter 8 2 (Item.surface 0) familyScene).map (fun r => r.2.childItems 0) =
      some (familySceneSwapped.childItems 0) ∧
    hasChild 3 familySceneSwapped 0 1 = some true ∧
    familySceneSwapped.childItems 0 = [Item.surface 0, Item.surface 2, Item.surface 1] ∧
    (stackBefore 8 0 (Item.surface 1) familySceneSwapped).map
        (fun r => (r.1, r.2.childItems 0)) =
      some (true, [Item.surface 0, Item.surface 1, Item.surface 2]) := by
  decide

/-- C13 as amended, on sub-surface lists that descend along a rank, so that no
surface is below itself. `stackBefore(self, target)` returns failure and
leaves the scene, so the draw order and every sub-surface list, unchanged
whenever `self` is a descendant of the surface `target`, that is a sub-surface
of `target` or of one of its descendants; `stackAfter(self, target)` does so
whenever `target` is a descendant of `self`. Both calls return once the bound
on nested calls is two above the rank of the ancestor. -/
theorem C13_stacking_rejects_cycle (rank : SurfaceId → Nat) (fuel : Nat)
    (self target : SurfaceId) (sc : Scene) (hr : Ranked sc rank) :
    (ReachesBelow sc target self → rank target + 2 ≤ fuel →
      stackBefore fuel self (Item.surface target) sc = some (false, sc)) ∧
    (ReachesBelow sc self target → rank self + 2 ≤ fuel →
      stackAfter fuel self (Item.surface target) sc = some (false, sc)) :=
  ⟨fun hreach hf => stackBefore_above_returns rank fuel sc self target hr hreach hf,
    fun hreach hf => stackAfter_below_returns rank fuel sc self target hr
      (Relation.TransGen.to_reflTransGen hreach) hf⟩

/-- C13 as amended, at `siblingScene`, where `4` is a sub-surface of the
sub-surface `1` of `0`: `4` cannot be stacked before `0`, and `0` cannot be
stacked after `4`. -/
theorem C13_stacking_rejects_cycle_witness :
    ReachesBelow siblingScene 0 4 ∧
    stackBefore 4 4 (Item.surface 0) siblingScene = some (false, siblingScene) ∧
    stackAfter 4 0 (Item.surface 4) siblingScene = some (false, siblingScene) :=
  have hreach : ReachesBelow siblingScene 0 4 :=
    Relation.TransGen.tail
      (Relation.TransGen.single (show 1 ∈ (siblingScene.wrappers 0).subSurfaces by decide))
      (show 4 ∈ (siblingScene.wrappers 1).subSurfaces by decide)
  ⟨hreach,
    (C13_stacking_rejects_cycle siblingRank 4 4 0 siblingScene siblingScene_ranked).1 hreach
      (by decide),
    (C13_stacking_rejects_cycle siblingRank 4 0 4 siblingScene siblingScene_ranked).2 hreach
      (by decide)⟩

/-- C14: `stackBefore(self, target)` and `stackAfter(self, target)` return
`false` and leave the scene, so the draw order and every sub-surface list,
unchanged whenever `self` is the target, or `self` has no drawing parent, or
the drawing parent of the target is not the one of `self`. -/
theorem C14_stacking_guards (fuel : Nat) (self : SurfaceId) (target : Item) (sc : Scene)
    (h : Item.surface self = target ∨ sc.parentItem (Item.surface self) = none ∨
      sc.parentItem target ≠ sc.parentItem (Item.surface self)) :
    stackBefore (fuel + 1) self target sc = some (false, sc) ∧
    stackAfter (fuel + 1) self target sc = some (false, sc) := by
  constructor
  · rw [stackBefore]
    split_ifs with h1 h2
    · rfl
    · rfl
    · rcases h with h | h | h
      · exact absurd h h2
      · exact absurd (Or.inl h) h1
      · exact absurd (Or.inr h) h1
  · rw [stackAfter]
    split_ifs with h1 h2
    · rfl
    · rfl
    · rcases h with h | h | h
      · exact absurd h h2
      · exact absurd (Or.inl h) h1
      · exact absurd (Or.inr h) h1

/-- C14 at concrete scenes: a surface stacked before itself, and a surface
whose target lives under another drawing parent. -/
theorem C14_stacking_guards_witness :
    stackBefore 1 1 (Item.surface 1) familyScene = some (false, familyScene) ∧
    stackAfter 1 1 (Item.other 7)
        { familyScene with
          parentItem := fun i => if i = Item.other 7 then some 5 else some 0 } =
      some (false,
        { familyScene with
          parentItem := fun i => if i = Item.other 7 then some 5 else some 0 }) :=
  ⟨(C14_stacking_guards 0 1 (Item.surface 1) familyScene (Or.inl rfl)).1,
    (C14_stacking_guards 0 1 (Item.other 7) _ (Or.inr (Or.inr (by decide)))).2⟩

/-- C15, the claim as stated fails: `addSubSurface` can close a cycle on an
acyclic hierarchy, and then the equation is lost. In `elevatedPairScene` the
equation holds at every surface and no surface is its own ancestor. The call
`1.addSubSurface(0)` makes the sub-surface `1` the parent of its own parent
`0`; afterwards `0` has the flag set and the count 2, and its parent `1` has
the count 2 as well, so the count of `0` is not its flag plus the count of its
parent. -/
theorem C15_cycle_counterexample :
    (∀ x, PropagationHolds elevatedPairScene x) ∧ Acyclic elevatedPairScene ∧
    ∃ sc1, addSubSurface 3 1 0 elevatedPairScene = some sc1 ∧
      (sc1.wrappers 0).alwaysOnTop = true ∧ (sc1.wrappers 0).parentSurface = some 1 ∧
      (sc1.wrappers 0).explicitAlwaysOnTop = 2 ∧ (sc1.wrappers 1).explicitAlwaysOnTop = 2 ∧
      ¬ PropagationHolds sc1 0 := by
  refine ⟨elevatedPairScene_propagation, ?_,
    (addSubSurface 3 1 0 elevatedPairScene).get (by decide), (Option.some_get _).symm,
    by decide, by decide, by decide, by decide, ?_⟩
  · refine acyclic_of_depth (fun x => if x = 1 then 1 else 0) (fun c p h => ?_)
    obtain ⟨hc, hp⟩ := elevatedPairScene_parent c p h
    subst hc; subst hp
    decide
  · unfold PropagationHolds
    decide

/-- C15 as amended: on a hierarchy whose lists of sub-surfaces name every child
and descend along a rank, the propagation equation at every surface is kept by
`setAlwaysOnTop`, by `removeSubSurface`, and by `addSubSurface` when the
receiver is not the new sub-surface nor reached from it over the lists of
sub-surfaces. Each call returns when the bound on nested calls exceeds the rank
of the surface it updates, and the hierarchy it leaves is again complete and
ranked. Where the parent pointers descend along a depth, the equation gives
that the propagated count of a surface is at least its own flag and is the
number of set flags among the surface and its ancestors. -/
theorem C15_propagation_invariant (fuel : Nat) (rank : SurfaceId → Nat) (sc : Scene)
    (hinv : ∀ x, PropagationHolds sc x) (hcomp : ListsComplete sc) (hr : Ranked sc rank) :
    (∀ self v, rank self < fuel →
      ∃ sc1, setAlwaysOnTop fuel self v sc = some sc1 ∧ (∀ x, PropagationHolds sc1 x) ∧
        ListsComplete sc1 ∧ Ranked sc1 rank) ∧
    (∀ self surface, rank surface < fuel →
      ∃ sc1, removeSubSurface fuel self surface sc = some sc1 ∧
        (∀ x, PropagationHolds sc1 x) ∧ ListsComplete sc1 ∧ Ranked sc1 rank) ∧
    (∀ self surface, rank surface < fuel → ¬ Reaches sc surface self →
      ∃ sc1, addSubSurface fuel self surface sc = some sc1 ∧
        (∀ x, PropagationHolds sc1 x) ∧ ListsComplete sc1 ∧ ∃ rank1, Ranked sc1 rank1) ∧
    (∀ depth : SurfaceId → Nat, (∀ c p, IsParentOf sc c p → depth p < depth c) →
      ∀ x n, depth x < n →
        (sc.wrappers x).explicitAlwaysOnTop = flagCount n sc x ∧
        (if (sc.wrappers x).alwaysOnTop then 1 else 0) ≤ (sc.wrappers x).explicitAlwaysOnTop) := by
  refine ⟨fun self v hf => ?_, fun self surface hf => ?_, fun self surface hf hno => ?_,
    fun depth hd x n hx => ?_⟩
  · obtain ⟨sc1, h1, h2, h3, h4, -⟩ :=
      setAlwaysOnTop_propagation rank fuel self v sc hinv hcomp hr hf
    exact ⟨sc1, h1, h2, h3, h4⟩
  · exact removeSubSurface_propagation rank fuel self surface sc hinv hcomp hr hf
  · exact addSubSurface_propagation rank fuel self surface sc hinv hcomp hr hf hno
  · refine ⟨explicit_eq_flagCount sc hinv depth hd n x hx, ?_⟩
    have h := hinv x
    unfold PropagationHolds at h
    rw [h]
    cases hp : (sc.wrappers x).parentSurface with
    | none => simp
    | some p =>
      have hlt : depth p < n := Nat.lt_trans (hd x p hp) hx
      have h1 := explicit_eq_flagCount sc hinv depth hd n p hlt
      have h2 := flagCount_nonneg sc n p
      simp only []
      omega

/-- C15 as amended, at `elevatedPairScene`: clearing the flag of the parent `0`
returns a hierarchy in which the equation holds again, and the count of the
sub-surface `1` has dropped to 0. -/
theorem C15_propagation_invariant_witness :
    (∀ x, PropagationHolds elevatedPairScene x) ∧ ListsComplete elevatedPairScene ∧
    Ranked elevatedPairScene (fun x => if x = 0 then 1 else 0) ∧
    ∃ sc1, setAlwaysOnTop 2 0 false elevatedPairScene = some sc1 ∧
      (∀ x, PropagationHolds sc1 x) ∧ (sc1.wrappers 1).explicitAlwaysOnTop = 0 := by
  have hcomp : ListsComplete elevatedPairScene := by
    intro c p h
    obtain ⟨hc, hp⟩ := elevatedPairScene_parent c p h
    subst hc; subst hp
    decide
  have hr : Ranked elevatedPairScene (fun x => if x = 0 then 1 else 0) := by
    intro p c h
    obtain ⟨hp, hc⟩ := elevatedPairScene_subSurfaces p c h
    subst hc; subst hp
    decide
  obtain ⟨sc1, h1, h2, -⟩ :=
    (C15_propagation_invariant 2 (fun x => if x = 0 then 1 else 0) elevatedPairScene
      elevatedPairScene_propagation hcomp hr).1 0 false (by decide)
  refine ⟨elevatedPairScene_propagation, hcomp, hr, sc1, h1, h2, ?_⟩
  have hget : setAlwaysOnTop 2 0 false elevatedPairScene =
      some ((setAlwaysOnTop 2 0 false elevatedPairScene).get (by decide)) :=
    (Option.some_get _).symm
  rw [hget] at h1
  rw [← Option.some.inj h1]
  decide

/-- C16: destroying a surface returns (given enough nested calls for the walk
over its sub-surfaces) and leaves every sub-surface of it with an empty
`parentSurface` and otherwise as it was, in particular not destroyed. No
surface gets a new parent surface: every parent pointer is unchanged or empty.
The former parent surface loses the destroyed surface from its list of
sub-surfaces and all other lists stay as they were, `removeSurface` is called
on the container and on the owning output, and the two pointers are reset. -/
theorem C16_destroy_detaches_children (fuel : Nat) (self : SurfaceId) (sc : Scene) :
    (∀ rank, Ranked sc rank → rank self < fuel →
      ∃ sc1, destroySurface fuel self sc = some sc1) ∧
    ∀ sc1, destroySurface fuel self sc = some sc1 →
      (∀ c ∈ (sc.wrappers self).subSurfaces,
        (sc1.wrappers c).parentSurface = none ∧
        (c ≠ self → (sc1.wrappers c).core = (sc.wrappers c).core ∧
          (sc1.wrappers c).core.destroyed = (sc.wrappers c).core.destroyed)) ∧
      (∀ x, (sc1.wrappers x).parentSurface = none ∨
        (sc1.wrappers x).parentSurface = (sc.wrappers x).parentSurface) ∧
      (∀ p, (sc.wrappers self).parentSurface = some p →
        self ∉ (sc.wrappers self).subSurfaces →
        (sc1.wrappers p).subSurfaces = (sc.wrappers p).subSurfaces.erase self ∧
        ((sc.wrappers p).subSurfaces.Nodup → self ∉ (sc1.wrappers p).subSurfaces)) ∧
      (∀ x, (sc.wrappers self).parentSurface ≠ some x →
        (sc1.wrappers x).subSurfaces = (sc.wrappers x).subSurfaces) ∧
      (∀ c, (sc.wrappers self).core.container = some c →
        SceneEffect.containerRemoveSurface c self ∈ sc1.log) ∧
      (∀ o, (sc.wrappers self).ownsOutput = some o →
        SceneEffect.outputRemoveSurface o self ∈ sc1.log) ∧
      (sc1.wrappers self).core.container = none ∧
      (sc1.wrappers self).ownsOutput = none ∧
      (sc1.wrappers self).core.destroyed = true ∧
      (sc1.wrappers self).parentSurface = none := by
  refine ⟨fun rank hr hf => destroySurface_terminates rank fuel self sc hr hf, ?_⟩
  intro sc1 h
  obtain ⟨-, -, hlog, hpar, hsubs, hcore, hown, hcont, hdes⟩ :=
    destroySurface_fields fuel self sc sc1 h
  refine ⟨fun c hc => ⟨?_, fun hne => ?_⟩, fun x => ?_, fun p hp hn => ?_, fun x hx => ?_,
    fun c hc => ?_, fun o ho => ?_, hcont, hown, hdes, ?_⟩
  · rw [hpar c, if_pos (Or.inl hc)]
  · rw [hcore c hne]
    exact ⟨rfl, rfl⟩
  · rw [hpar x]
    by_cases hx : x ∈ (sc.wrappers self).subSurfaces ∨ x = self
    · rw [if_pos hx]
      exact Or.inl rfl
    · rw [if_neg hx]
      exact Or.inr rfl
  · have he : (sc1.wrappers p).subSurfaces = (sc.wrappers p).subSurfaces.erase self := by
      rw [hsubs p, if_pos ⟨hn, hp⟩]
    refine ⟨he, fun hnd hm => ?_⟩
    rw [he] at hm
    exact ((List.Nodup.mem_erase_iff hnd).1 hm).1 rfl
  · rw [hsubs x, if_neg]
    intro hc
    exact hx hc.2
  · rw [hlog, hc]
    simp
  · rw [hlog, ho]
    simp
  · rw [hpar self, if_pos (Or.inr rfl)]

/-- C16 at `householdScene`: destroying the surface `1` succeeds, leaves its two
sub-surfaces `2` and `3` without parent surface and not destroyed, takes `1`
out of the list of its parent `0`, and calls the container `7` and the output
`9`. -/
theorem C16_destroy_detaches_children_witness :
    (∃ sc1, destroySurface 3 1 householdScene = some sc1 ∧
      (sc1.wrappers 2).parentSurface = none ∧ (sc1.wrappers 3).parentSurface = none ∧
      (sc1.wrappers 2).core.destroyed = false ∧ (sc1.wrappers 3).core.destroyed = false ∧
      (sc1.wrappers 0).subSurfaces = [] ∧
      SceneEffect.containerRemoveSurface 7 1 ∈ sc1.log ∧
      SceneEffect.outputRemoveSurface 9 1 ∈ sc1.log ∧
      (sc1.wrappers 1).core.destroyed = true) := by
  have hsome : destroySurface 3 1 householdScene =
      some ((destroySurface 3 1 householdScene).get (by decide)) := (Option.some_get _).symm
  have h := (C16_destroy_detaches_children 3 1 householdScene).2 _ hsome
  obtain ⟨h1, -, h3, -, h5, h6, -, -, h9, -⟩ := h
  refine ⟨_, hsome, (h1 2 (by decide)).1, (h1 3 (by decide)).1, ?_, ?_, ?_,
    h5 7 (by decide), h6 9 (by decide), h9⟩
  · rw [((h1 2 (by decide)).2 (by decide)).2]
    decide
  · rw [((h1 3 (by decide)).2 (by decide)).2]
    decide
  · rw [(h3 0 (by decide) (by decide)).1]
    decide

/-- C17, the claim as stated fails: with the assertion compiled out,
`addSubSurface` on a surface that has a parent is carried out. Surface `2` is
a sub-surface of `0`; after `1.addSubSurface(2)` its parent surface is `1` and
it is in the lists of both `0` and `1`. -/
theorem C17_double_parent_counterexample :
    (adoptionScene.wrappers 2).parentSurface = some 0 ∧
    (adoptionScene.wrappers 0).subSurfaces = [2] ∧
    (adoptionScene.wrappers 1).subSurfaces = [] ∧
    (addSubSurface 4 1 2 adoptionScene).map
        (fun r => ((r.wrappers 2).parentSurface, (r.wrappers 0).subSurfaces,
          (r.wrappers 1).subSurfaces)) =
      some (some 1, [2], [2]) := by
  decide

/-- C17 as amended: in a release build `addSubSurface(child)` is not rejected
when the child already has a parent. Whatever the parent of the child was, the
call completes (the bound on the propagation being above the rank of the
child), the parent surface of the child becomes the receiver, the child is
appended to the list of the receiver and every other list is unchanged; a
child that was in the list of another surface is then in both lists. -/
theorem C17_addSubSurface_not_rejected (fuel : Nat) (self surface : SurfaceId)
    (sc : Scene) :
    (∀ rank, Ranked sc rank → rank surface < fuel →
      ∃ sc1, addSubSurface fuel self surface sc = some sc1) ∧
    ∀ sc1, addSubSurface fuel self surface sc = some sc1 →
      (sc1.wrappers surface).parentSurface = some self ∧
      (sc1.wrappers self).subSurfaces = (sc.wrappers self).subSurfaces ++ [surface] ∧
      (∀ q, q ≠ self → (sc1.wrappers q).subSurfaces = (sc.wrappers q).subSurfaces) ∧
      ∀ q, q ≠ self → surface ∈ (sc.wrappers q).subSurfaces →
        surface ∈ (sc1.wrappers q).subSurfaces ∧ surface ∈ (sc1.wrappers self).subSurfaces := by
  refine ⟨fun rank hr hf => addSubSurface_terminates rank fuel self surface sc hr hf, ?_⟩
  intro sc1 h
  obtain ⟨hp, hs, -⟩ := addSubSurface_links fuel self surface sc sc1 h
  refine ⟨?_, ?_, ?_, ?_⟩
  · rw [hp, if_pos rfl]
  · rw [hs, if_pos rfl]
  · intro q hq
    rw [hs, if_neg hq]
  · intro q hq hmem
    constructor
    · rw [hs, if_neg hq]
      exact hmem
    · rw [hs, if_pos rfl]
      exact List.mem_append_right _ (List.mem_singleton_self surface)

/-- C17 as amended, at a concrete scene: the sub-surface `2` of `0` is added
to `1`. -/
theorem C17_addSubSurface_not_rejected_witness :
    ∃ sc1, addSubSurface 4 1 2 adoptionScene = some sc1 ∧
      (sc1.wrappers 2).parentSurface = some 1 ∧
      2 ∈ (sc1.wrappers 0).subSurfaces ∧ 2 ∈ (sc1.wrappers 1).subSurfaces :=
  ⟨(addSubSurface 4 1 2 adoptionScene).get (by decide), (Option.some_get _).symm,
    ((C17_addSubSurface_not_rejected 4 1 2 adoptionScene).2 _ (Option.some_get _).symm).1,
    ((C17_addSubSurface_not_rejected 4 1 2 adoptionScene).2 _
      (Option.some_get _).symm).2.2.2 0 (by decide) (by decide)⟩

/-- C18, the claim as stated fails in two ways. A surface without parent can
be an ancestor of the receiver: in the acyclic pair with parent `0` and
sub-surface `1`, the call `1.addSubSurface(0)` passes the assertion, since `0`
has no parent, and makes `0` its own ancestor. And a `removeSubSurface` call
on a receiver that is not the parent leaves the surface in the list of its
parent: in the same pair, `2.removeSubSurface(1)` resets the parent pointer of
`1` and leaves the list of `0` as it is; `1.addSubSurface(0)` then passes the
assertion again, `0` being no ancestor of `1` any more, and the two surfaces
list each other, so that `hasChild` on `0` does not return, whatever the bound
on nested calls. -/
theorem C18_cycle_counterexample :
    Acyclic pairScene ∧ (pairScene.wrappers 0).parentSurface = none ∧
    (∃ sc1, addSubSurface 4 1 0 pairScene = some sc1 ∧ IsAncestor sc1 0 0) ∧
    ∃ sc1 sc2, removeSubSurface 4 2 1 pairScene = some sc1 ∧
      (sc1.wrappers 0).parentSurface = none ∧ (sc1.wrappers 1).parentSurface = none ∧
      addSubSurface 4 1 0 sc1 = some sc2 ∧
      (sc2.wrappers 0).subSurfaces = [1] ∧ (sc2.wrappers 1).subSurfaces = [0] ∧
      ∀ n, hasChild n sc2 0 2 = none := by
  refine ⟨acyclic_of_depth (fun x => x) ?_, by decide,
    ⟨(addSubSurface 4 1 0 pairScene).get (by decide), (Option.some_get _).symm, ?_⟩,
    (removeSubSurface 4 2 1 pairScene).get (by decide),
    (addSubSurface 4 1 0 ((removeSubSurface 4 2 1 pairScene).get (by decide))).get (by decide),
    (Option.some_get _).symm, by decide, by decide, (Option.some_get _).symm, by decide,
    by decide, ?_⟩
  · intro c p h
    obtain ⟨hc, hp⟩ := pairScene_parent c p h
    subst hc; subst hp
    decide
  · have h1 : IsParentOf ((addSubSurface 4 1 0 pairScene).get (by decide)) 0 1 := by
      unfold IsParentOf
      decide
    have h2 : IsParentOf ((addSubSurface 4 1 0 pairScene).get (by decide)) 1 0 := by
      unfold IsParentOf
      decide
    exact (Relation.TransGen.single h1).tail h2
  · intro n
    exact (hasChild_two_cycle _ 0 1 2 (by decide) (by decide) (by decide) (by decide) n).1

/-- C18 as amended, for a hierarchy of finitely many surfaces whose
sub-surface lists agree with the parent pointers and name no surface twice,
and in which no surface is its own ancestor. In it the walks (`hasChild`,
`stackFirstSurface`, `stackLastSurface`, the loop of `setActivate` over the
parents) return. An `addSubSurface(child)` call whose assertion holds (the
child has no parent) and whose child is neither the receiver nor one of its
ancestors returns and yields such a hierarchy again; so does a
`removeSubSurface` call whose assertion holds (the receiver is the parent of
the surface). After both calls no surface is its own ancestor and the walks
return. -/
theorem C18_acyclicity_preserved (n fuel : Nat) (self surface : SurfaceId) (sc : Scene)
    (h : FiniteHierarchy sc n) :
    WalksReturn sc (2 * n + 1) ∧
    ((sc.wrappers surface).parentSurface = none → surface ≠ self →
      ¬ IsAncestor sc surface self → n < fuel →
      ∃ sc1, addSubSurface fuel self surface sc = some sc1 ∧
        FiniteHierarchy sc1 (max n (surface + 1)) ∧
        WalksReturn sc1 (2 * max n (surface + 1) + 1)) ∧
    ((sc.wrappers surface).parentSurface = some self → n < fuel →
      ∃ sc1, removeSubSurface fuel self surface sc = some sc1 ∧
        FiniteHierarchy sc1 n ∧ WalksReturn sc1 (2 * n + 1)) := by
  obtain ⟨rank, hr, hH⟩ := ranked_of_acyclic h
  obtain ⟨hl, hac, hfin⟩ := h
  refine ⟨(hierarchy_walks hl.1 hr hH).2, ?_, ?_⟩
  · intro hnone hne hanc hf
    obtain ⟨sc1, h1, hl1, rank1, hr1, hH1⟩ :=
      addSubSurface_hierarchy rank n fuel self surface sc hl hr hH hnone hne hanc
        (Nat.lt_of_le_of_lt (hH surface) hf)
    obtain ⟨hp, -⟩ := addSubSurface_links fuel self surface sc sc1 h1
    have hfh : FiniteHierarchy sc1 (max n (surface + 1)) := by
      refine ⟨hl1, (hierarchy_walks hl1.1 hr1 hH1).1, fun x hx => ?_⟩
      have hxs : x ≠ surface := by
        intro he
        rw [he] at hx
        have := le_trans (le_max_right n (surface + 1)) hx
        exact absurd this (Nat.not_succ_le_self surface)
      rw [hp x, if_neg hxs]
      exact hfin x (le_trans (le_max_left n (surface + 1)) hx)
    exact ⟨sc1, h1, hfh, finiteHierarchy_walks hfh⟩
  · intro hpar hf
    obtain ⟨sc1, h1, hl1, hr1⟩ :=
      removeSubSurface_hierarchy rank fuel self surface sc hl hr hpar
        (Nat.lt_of_le_of_lt (hH surface) hf)
    obtain ⟨hp, -⟩ := removeSubSurface_links fuel self surface sc sc1 h1
    have hfh : FiniteHierarchy sc1 n := by
      refine ⟨hl1, (hierarchy_walks hl1.1 hr1 hH).1, fun x hx => ?_⟩
      rw [hp x]
      split_ifs
      · rfl
      · exact hfin x hx
    exact ⟨sc1, h1, hfh, finiteHierarchy_walks hfh⟩

/-- C18 as amended, at `siblingScene`, a hierarchy of the five surfaces `0` to
`4`: the surface `5`, which has no parent, becomes a sub-surface of `4`, and
the sub-surface `4` is removed from its parent `1`; after either call the
lists agree with the parent pointers, no surface is its own ancestor and the
walks return. -/
theorem C18_acyclicity_preserved_witness :
    FiniteHierarchy siblingScene 5 ∧
    (∃ sc1, addSubSurface 6 4 5 siblingScene = some sc1 ∧
      (sc1.wrappers 5).parentSurface = some 4 ∧ (sc1.wrappers 4).subSurfaces = [5] ∧
      LinksConsistent sc1 ∧ Acyclic sc1 ∧ WalksReturn sc1 13) ∧
    (∃ sc1, removeSubSurface 6 1 4 siblingScene = some sc1 ∧
      (sc1.wrappers 4).parentSurface = none ∧ (sc1.wrappers 1).subSurfaces = [] ∧
      LinksConsistent sc1 ∧ Acyclic sc1 ∧ WalksReturn sc1 11) := by
  have hfh : FiniteHierarchy siblingScene 5 :=
    ⟨siblingScene_links,
      (hierarchy_walks siblingScene_links.1 siblingScene_ranked siblingScene_bounds.1).1,
      fun x hx => (siblingScene_outside x hx).1⟩
  obtain ⟨scA, hA, hfA, hwA⟩ := (C18_acyclicity_preserved 5 6 4 5 siblingScene hfh).2.1 rfl
    (by decide)
    (fun h => absurd (isAncestor_rank siblingScene_links.1 siblingScene_ranked h) (by decide))
    (by decide)
  obtain ⟨scR, hR, hfR, hwR⟩ := (C18_acyclicity_preserved 5 6 1 4 siblingScene hfh).2.2 rfl
    (by decide)
  refine ⟨hfh, ⟨scA, hA, ?_, ?_, hfA.1, hfA.2.1, hwA⟩, ⟨scR, hR, ?_, ?_, hfR.1, hfR.2.1, hwR⟩⟩
  · have hget : addSubSurface 6 4 5 siblingScene =
        some ((addSubSurface 6 4 5 siblingScene).get (by decide)) := (Option.some_get _).symm
    rw [hget] at hA
    rw [← Option.some.inj hA]
    decide
  · have hget : addSubSurface 6 4 5 siblingScene =
        some ((addSubSurface 6 4 5 siblingScene).get (by decide)) := (Option.some_get _).symm
    rw [hget] at hA
    rw [← Option.some.inj hA]
    decide
  · have hget : removeSubSurface 6 1 4 siblingScene =
        some ((removeSubSurface 6 1 4 siblingScene).get (by decide)) := (Option.some_get _).symm
    rw [hget] at hR
    rw [← Option.some.inj hR]
    decide
  · have hget : removeSubSurface 6 1 4 siblingScene =
        some ((removeSubSurface 6 1 4 siblingScene).get (by decide)) := (Option.some_get _).symm
    rw [hget] at hR
    rw [← Option.some.inj hR]
    decide

/-- C19: the removal of a flagged surface waits for the `finished` signal of the
open or close animation. `setRemoveWrapper` only stores the flag: it destroys
nothing, starts nothing and leaves the animation handle alone. While a handle
exists, `onNewAnimationFinished` returns, schedules the deletion of the handle,
and destroys the wrapper exactly when the flag is set, after clearing the flag;
with the flag unset the wrapper lives on as before. While a handle exists a
mapped-changed event keeps the handle, destroys nothing, keeps the flag and
adds no `startNewAnimation` to the log. -/
theorem C19_removal_waits_for_finished (s : Surface) :
    (∀ remove,
      (setRemoveWrapper remove s).destroyed = s.destroyed ∧
      (setRemoveWrapper remove s).newAnimation = s.newAnimation ∧
      (setRemoveWrapper remove s).log = s.log ∧
      (setRemoveWrapper remove s).removeWrapperEndOfAnimation = remove) ∧
    (∀ a, s.newAnimation = some a →
      ∃ s1, onNewAnimationFinished s = some s1 ∧
        s1.newAnimation = some { a with deleteScheduled := true } ∧
        s1.removeWrapperEndOfAnimation = false ∧
        s1.log = s.log ∧
        (s.removeWrapperEndOfAnimation = true → s1.destroyed = true) ∧
        (s.removeWrapperEndOfAnimation = false → s1.destroyed = s.destroyed)) ∧
    (∀ newMapped, s.newAnimation.isSome = true →
      (onMappedChanged newMapped s).newAnimation = s.newAnimation ∧
      (onMappedChanged newMapped s).destroyed = s.destroyed ∧
      (onMappedChanged newMapped s).removeWrapperEndOfAnimation =
        s.removeWrapperEndOfAnimation ∧
      LogExtends (fun e => ∀ d, e ≠ Effect.startNewAnimation d) s
        (onMappedChanged newMapped s)) := by
  refine ⟨fun remove => ⟨rfl, rfl, rfl, rfl⟩, fun a ha => ?_, fun newMapped hrun => ?_⟩
  · unfold onNewAnimationFinished
    rw [ha]
    simp only []
    by_cases hflag : s.removeWrapperEndOfAnimation = true
    · simp [hflag]
    · simp [hflag]
  · have hm : onMappedChanged newMapped s =
        updateHasActiveCapability ActiveControlState.Mapped newMapped
          { s with mapped := newMapped } := by
      unfold onMappedChanged
      simp only []
      have h0 : ({ s with mapped := newMapped } : Surface).newAnimation.isSome = true := hrun
      rw [createNewOrClose_running _ _ h0, createNewOrClose_running _ _ h0]
      simp
    rw [hm, updateHasActiveCapability_eq]
    refine ⟨rfl, rfl, rfl, _, rfl, fun e he d => ?_⟩
    intro hd
    subst hd
    unfold activationSignals at he
    split_ifs at he <;> simp at he

/-- C19 at a surface whose close animation runs and that is flagged for
removal: the mapped-changed event leaves the animation alone and destroys
nothing, the `finished` slot destroys the wrapper. -/
theorem C19_removal_waits_for_finished_witness :
    (onMappedChanged true
      { newAnimation := some { direction := CLOSE_ANIMATION },
        removeWrapperEndOfAnimation := true, container := some 1 }).newAnimation =
      some { direction := CLOSE_ANIMATION } ∧
    (onMappedChanged true
      { newAnimation := some { direction := CLOSE_ANIMATION },
        removeWrapperEndOfAnimation := true, container := some 1 }).destroyed = false ∧
    ∃ s1, onNewAnimationFinished
      { newAnimation := some { direction := CLOSE_ANIMATION },
        removeWrapperEndOfAnimation := true, container := some 1 } = some s1 ∧
      s1.destroyed = true :=
  have h := C19_removal_waits_for_finished
    { newAnimation := some { direction := CLOSE_ANIMATION },
      removeWrapperEndOfAnimation := true, container := some 1 }
  ⟨(h.2.2 true rfl).1, (h.2.2 true rfl).2.1,
    (h.2.1 _ rfl).choose, (h.2.1 _ rfl).choose_spec.1,
    (h.2.1 _ rfl).choose_spec.2.2.2.2.1 rfl⟩

/-- C21: `commit()` on an entry of the overview model is idempotent: a second
`commit()` with the pending fields untouched gives the entry the first one
gave. After one `commit()` the committed geometry is `pendingGeometry` and the
committed padding is `pendingPadding`; the pending fields and every other
field of the entry are as before. -/
theorem C21_commit_idempotent (d : SurfaceModelData) :
    d.commit.commit = d.commit ∧
    d.commit.geometry = d.pendingGeometry ∧ d.commit.padding = d.pendingPadding ∧
    d.commit.pendingGeometry = d.pendingGeometry ∧
    d.commit.pendingPadding = d.pendingPadding ∧
    d.commit.wrapper = d.wrapper ∧ d.commit.minimized = d.minimized ∧
    d.commit.zorder = d.zorder ∧ d.commit.pendingZOrder = d.pendingZOrder :=
  ⟨rfl, rfl, rfl, rfl, rfl, rfl, rfl, rfl, rfl⟩

/-- C21 at an entry whose pending geometry and padding differ from the
committed ones: one `commit()` copies them, a second changes nothing. -/
theorem C21_commit_idempotent_witness :
    ({ pendingGeometry := { x := 10, y := 40, width := 300, height := 200 },
       pendingPadding := true } : SurfaceModelData).commit.commit =
      { geometry := { x := 10, y := 40, width := 300, height := 200 }, padding := true,
        pendingGeometry := { x := 10, y := 40, width := 300, height := 200 },
        pendingPadding := true } :=
  (C21_commit_idempotent
    { pendingGeometry := { x := 10, y := 40, width := 300, height := 200 },
      pendingPadding := true }).1.trans (by decide)

/-- C22: in a hierarchy in which the lists of sub-surfaces and the parent
pointers agree, no list names a surface twice and no surface is below itself,
let `self` and `target` be sub-surfaces of the same parent surface `q`. After a
call of `stackBefore(target)` on `self` that answers `true` the list of `q`
reads `U ++ self :: target :: V`: `self` has the index right before `target`.
After a call of `stackAfter(target)` that answers `true` it reads
`U ++ target :: self :: V`. In both cases the new list is a permutation of the
old one, and with `self` taken out the two lists are equal, so the other
elements keep their order; this holds for every position of the two in the
list. The calls do answer `true`: with `height` a bound of the ranks, `width`
a bound of the lengths of the lists and `height + 3 + (width + 2) * rank self`
nested calls, both return `true` for distinct siblings with a common drawing
parent. -/
theorem C22_sibling_index_move (rank : SurfaceId → Nat) (height width fuel : Nat) (sc : Scene)
    (self target q : SurfaceId) (hl : LinksConsistent sc) (hr : Ranked sc rank)
    (hs : (sc.wrappers self).parentSurface = some q)
    (ht : (sc.wrappers target).parentSurface = some q) :
    (∀ sc1, stackBefore fuel self (Item.surface target) sc = some (true, sc1) →
      ∃ U V, (sc1.wrappers q).subSurfaces = U ++ self :: target :: V ∧
        (sc1.wrappers q).subSurfaces.erase self = (sc.wrappers q).subSurfaces.erase self ∧
        (sc1.wrappers q).subSurfaces.Perm (sc.wrappers q).subSurfaces) ∧
    (∀ sc1, stackAfter fuel self (Item.surface target) sc = some (true, sc1) →
      ∃ U V, (sc1.wrappers q).subSurfaces = U ++ target :: self :: V ∧
        (sc1.wrappers q).subSurfaces.erase self = (sc.wrappers q).subSurfaces.erase self ∧
        (sc1.wrappers q).subSurfaces.Perm (sc.wrappers q).subSurfaces) ∧
    ((∀ x, rank x ≤ height) → (∀ x, (sc.wrappers x).subSurfaces.length ≤ width) →
      height + 3 + (width + 2) * rank self ≤ fuel → self ≠ target →
      sc.parentItem (Item.surface self) ≠ none →
      sc.parentItem (Item.surface target) = sc.parentItem (Item.surface self) →
      (∃ sc1, stackBefore fuel self (Item.surface target) sc = some (true, sc1)) ∧
      ∃ sc1, stackAfter fuel self (Item.surface target) sc = some (true, sc1)) := by
  have hnd := hl.2 q
  have hsm : self ∈ (sc.wrappers q).subSurfaces := (hl.1 q self).2 hs
  have htm : target ∈ (sc.wrappers q).subSurfaces := (hl.1 q target).2 ht
  refine ⟨fun sc1 h => ?_, fun sc1 h => ?_, fun hH hN hf hne hp hpt => ⟨?_, ?_⟩⟩
  · obtain ⟨hne, hlist⟩ := stackBefore_siblings rank fuel sc sc1 self target q hl.1 hr hs ht h
    obtain ⟨U, V, hm, he, hU⟩ := moveBefore_kept hnd hsm htm hne
    refine ⟨U, V, by rw [hlist, hm], ?_, ?_⟩
    · rw [hlist, hm, he, List.erase_append_right _ hU, List.erase_cons_head]
    · rw [hlist]
      exact perm_moveBefore _ _ _
  · obtain ⟨hne, hlist⟩ := stackAfter_siblings rank fuel sc sc1 self target q hl.1 hr hs ht h
    obtain ⟨U, V, hm, he, hU⟩ := moveAfter_kept hnd hsm htm hne
    refine ⟨U, V, by rw [hlist, hm], ?_, ?_⟩
    · rw [hlist, hm, he, List.erase_append_right _ hU, List.erase_cons_tail (by simpa using Ne.symm hne),
        List.erase_cons_head]
    · rw [hlist]
      exact perm_moveAfter _ _ _
  · exact stackBefore_siblings_returns rank height width fuel sc self target q hl.1 hr hH hN
      hs ht hne hp hpt hf
  · exact stackAfter_siblings_returns rank height width fuel sc self target q hl.1 hr hH hN
      hs ht hne hp hpt hf

/-- C22 at `siblingScene`, with `self` the sub-surface `1` (which has the
sub-surface `4`) and `target` the sub-surface `3` of the surface `0`, whose
list is `1, 2, 3`: both calls answer `true`; `stackBefore` leaves the list
`2, 1, 3` and `stackAfter` the list `2, 3, 1`. -/
theorem C22_sibling_index_move_witness :
    (∃ sc1, stackBefore 10 1 (Item.surface 3) siblingScene = some (true, sc1) ∧
      (sc1.wrappers 0).subSurfaces = [2, 1, 3] ∧
      (sc1.wrappers 0).subSurfaces.erase 1 = (siblingScene.wrappers 0).subSurfaces.erase 1) ∧
    (∃ sc1, stackAfter 10 1 (Item.surface 3) siblingScene = some (true, sc1) ∧
      (sc1.wrappers 0).subSurfaces = [2, 3, 1] ∧
      (sc1.wrappers 0).subSurfaces.erase 1 = (siblingScene.wrappers 0).subSurfaces.erase 1) := by
  have hC := C22_sibling_index_move siblingRank 2 3 10 siblingScene 1 3 0 siblingScene_links
    siblingScene_ranked rfl rfl
  obtain ⟨⟨scB, hB⟩, ⟨scA, hA⟩⟩ := hC.2.2 siblingScene_bounds.1 siblingScene_bounds.2
    (by decide) (by decide) (by decide) rfl
  refine ⟨⟨scB, hB, ?_, ?_⟩, ⟨scA, hA, ?_, ?_⟩⟩
  · have hget : stackBefore 10 1 (Item.surface 3) siblingScene =
        some ((stackBefore 10 1 (Item.surface 3) siblingScene).get (by decide)) :=
      (Option.some_get _).symm
    rw [hget] at hB
    rw [← (Prod.mk.inj (Option.some.inj hB)).2]
    decide
  · obtain ⟨U, V, -, he, -⟩ := hC.1 scB hB
    exact he
  · have hget : stackAfter 10 1 (Item.surface 3) siblingScene =
        some ((stackAfter 10 1 (Item.surface 3) siblingScene).get (by decide)) :=
      (Option.some_get _).symm
    rw [hget] at hA
    rw [← (Prod.mk.inj (Option.some.inj hA)).2]
    decide
  · obtain ⟨U, V, -, he, -⟩ := hC.2.1 scA hA
    exact he

/-- C23, the code at a surface destroyed while always on top. In
`elevatedPairScene` the equation holds everywhere: the parent `0` has the flag
set and the count 1, its sub-surface `1` has no flag and the count 1.
Destroying `0` resets the parent pointer of `1` and nothing else: `1` is
parentless, has no flag and still the count 1 and the elevation of the
always-on-top layer, so the equation fails at `1`. The sibling path
`removeSubSurface` recomputes the count of the detached surface and leaves
0. -/
theorem C23_destroy_leaves_stale_count :
    (∀ x, PropagationHolds elevatedPairScene x) ∧
    (destroySurface 3 0 elevatedPairScene).map
        (fun sc => ((sc.wrappers 1).parentSurface, (sc.wrappers 1).alwaysOnTop,
          (sc.wrappers 1).explicitAlwaysOnTop, (sc.wrappers 1).z,
          (sc.wrappers 1).core.destroyed)) =
      some (none, false, 1, 1, false) ∧
    ¬ PropagationHolds ((destroySurface 3 0 elevatedPairScene).get (by decide)) 1 ∧
    (removeSubSurface 3 0 1 elevatedPairScene).map
        (fun sc => ((sc.wrappers 1).parentSurface, (sc.wrappers 1).alwaysOnTop,
          (sc.wrappers 1).explicitAlwaysOnTop, (sc.wrappers 1).z)) =
      some (none, false, 0, 0) := by
  refine ⟨elevatedPairScene_propagation, by decide, ?_, by decide⟩
  unfold PropagationHolds
  decide

/-- C24, the code against the claim: each of the two writers of the elevation
overwrites it without looking at the input of the other. From `pairScene`,
with default roles and counts 0, the surface `0` is made always on top, given
the role `2` and then the role `Normal` again: it ends with the default role,
the count 1 and the elevation 0, where the claim has the always-on-top layer
1, the value `updateExplicitAlwaysOnTop` writes for this count. Given the role
`2` first and then made always on top, it ends with the role `2` and the
elevation 1, where the claim has 3, the value `ALWAYSONTOPLAYER + role` that
`setSurfaceRole` writes for this role. -/
theorem C24_elevation_writers_disagree :
    (setAlwaysOnTop 3 0 true pairScene).map
        (fun sc =>
          let sc1 := setSurfaceRole 0 SurfaceRole.Normal
            (setSurfaceRole 0 (SurfaceRole.special 2) sc)
          ((sc1.wrappers 0).surfaceRole, (sc1.wrappers 0).explicitAlwaysOnTop,
            (sc1.wrappers 0).z,
            expectedZ (sc1.wrappers 0).surfaceRole (sc1.wrappers 0).explicitAlwaysOnTop)) =
      some (SurfaceRole.Normal, 1, 0, 1) ∧
    (setAlwaysOnTop 3 0 true (setSurfaceRole 0 (SurfaceRole.special 2) pairScene)).map
        (fun sc1 =>
          ((sc1.wrappers 0).surfaceRole, (sc1.wrappers 0).explicitAlwaysOnTop,
            (sc1.wrappers 0).z,
            expectedZ (sc1.wrappers 0).surfaceRole (sc1.wrappers 0).explicitAlwaysOnTop)) =
      some (SurfaceRole.special 2, 1, 1, 3) := by
  decide

/-- C25, the code against the claim: the loops of `setSurfaceRole` over the
sub-surfaces call `setZ` of the wrapper itself, so no sub-surface gets the
elevation of the role: the call changes no wrapper but the one it is called
on. In `elevatedPairScene` the sub-surface `1` of `0` has the elevation 1;
after `setSurfaceRole(2)` on `0` the surface `0` has the elevation 3 and `1`
still 1, and after `setSurfaceRole(Normal)` the surface `0` has 0 and `1`
still 1. In `pairScene` the sub-surface keeps the elevation 0 when its parent
gets the role `2`. -/
theorem C25_role_elevation_skips_children (self : SurfaceId) (role : SurfaceRole)
    (sc : Scene) :
    (∀ x, x ≠ self → (setSurfaceRole self role sc).wrappers x = sc.wrappers x) ∧
    (elevatedPairScene.wrappers 0).subSurfaces = [1] ∧
    ((setSurfaceRole 0 (SurfaceRole.special 2) elevatedPairScene).wrappers 0).z = 3 ∧
    ((setSurfaceRole 0 (SurfaceRole.special 2) elevatedPairScene).wrappers 1).z = 1 ∧
    ((setSurfaceRole 0 SurfaceRole.Normal
      (setSurfaceRole 0 (SurfaceRole.special 2) elevatedPairScene)).wrappers 0).z = 0 ∧
    ((setSurfaceRole 0 SurfaceRole.Normal
      (setSurfaceRole 0 (SurfaceRole.special 2) elevatedPairScene)).wrappers 1).z = 1 ∧
    ((setSurfaceRole 0 (SurfaceRole.special 2) pairScene).wrappers 0).z = 3 ∧
    ((setSurfaceRole 0 (SurfaceRole.special 2) pairScene).wrappers 1).z = 0 :=
  ⟨(setSurfaceRole_fields self role sc).1, by decide, by decide, by decide, by decide,
    by decide, by decide, by decide⟩

/-- C26: `noTitleBar()` is true whenever the state is `Fullscreen`, whatever the
override; otherwise it is false under the `Visible` override, true under the
`Hidden` override and equal to `noDecoration` under `Default`. After
`doSetSurfaceState`, after every operation that flips the state, and after
`setNoTitleBar` and `resetNoTitleBar`, the title-bar item exists exactly when
`noTitleBar()` is false. -/
theorem C26_titleBar_follows_noTitleBar (env : Env) (s : Surface) :
    (s.surfaceState = State.Fullscreen → noTitleBar s = true) ∧
    (s.surfaceState ≠ State.Fullscreen → s.titleBarState = TitleBarState.Visible →
      noTitleBar s = false) ∧
    (s.surfaceState ≠ State.Fullscreen → s.titleBarState = TitleBarState.Hidden →
      noTitleBar s = true) ∧
    (s.surfaceState ≠ State.Fullscreen → s.titleBarState = TitleBarState.Default →
      noTitleBar s = s.noDecoration) ∧
    (∀ t, (doSetSurfaceState t s).titleBar = !noTitleBar (doSetSurfaceState t s)) ∧
    (∀ op s1, step env op s = some s1 → flipTarget env op s ≠ none →
      s1.titleBar = !noTitleBar s1) ∧
    (∀ b, (setNoTitleBar b s).titleBar = !noTitleBar (setNoTitleBar b s) ∧
      (setNoTitleBar b s).titleBarState =
        (if b then TitleBarState.Hidden else TitleBarState.Visible)) ∧
    ((resetNoTitleBar s).titleBar = !noTitleBar (resetNoTitleBar s) ∧
      (resetNoTitleBar s).titleBarState = TitleBarState.Default) := by
  refine ⟨fun h => ?_, fun h hv => ?_, fun h hh => ?_, fun h hd => ?_,
    fun t => doSetSurfaceState_titleBar t s,
    fun op s1 h hf => step_flip_titleBar env op s s1 h hf, fun b => ?_, ?_⟩
  · simp [noTitleBar, h]
  · simp [noTitleBar, h, hv]
  · simp [noTitleBar, h, hh]
  · simp [noTitleBar, h, hd]
  · unfold setNoTitleBar
    exact ⟨(updateTitleBar_consistent _).2.1, (updateTitleBar_consistent _).2.2.1⟩
  · unfold resetNoTitleBar
    exact ⟨(updateTitleBar_consistent _).2.1, (updateTitleBar_consistent _).2.2.1⟩

/-- C26 at a decorated surface with the `Visible` override and a title bar:
entering `Fullscreen` drops the title bar, and hiding the title bar of the
normal surface drops it as well. -/
theorem C26_titleBar_follows_noTitleBar_witness :
    (doSetSurfaceState State.Fullscreen
      { noDecoration := false, titleBarState := TitleBarState.Visible,
        titleBar := true }).titleBar = false ∧
    (setNoTitleBar true
      { noDecoration := false, titleBarState := TitleBarState.Visible,
        titleBar := true }).titleBar = false :=
  ⟨((C26_titleBar_follows_noTitleBar permissiveEnv
      { noDecoration := false, titleBarState := TitleBarState.Visible,
        titleBar := true }).2.2.2.2.1 State.Fullscreen).trans (by decide),
    ((C26_titleBar_follows_noTitleBar permissiveEnv
      { noDecoration := false, titleBarState := TitleBarState.Visible,
        titleBar := true }).2.2.2.2.2.2.1 true).1.trans (by decide)⟩

/-- C27, the code at a sequence of public requests that breaks the first
assertion of `onAnimationReady`. The laid-out surface is minimized by
`requestMinimize`, then `setSurfaceState(Normal)` starts a geometry animation
with the pending state `Normal`, the state staying `Minimized`; both
assertions hold at that point. `requestCancelMinimize`, issued before the
ready callback, flips the state to the previous state `Normal` through
`doSetSurfaceState` without looking at the animation. The animation is still
alive, so its ready callback fires with the pending state equal to the current
state. -/
theorem C27_ready_assertion_fails :
    (runOps permissiveEnv [Op.requestMinimize, Op.setSurfaceState State.Normal]
        layoutedSurface).map
        (fun s => (s.surfaceState, s.previousSurfaceState, s.pendingState,
          s.geometryAnimation.isSome)) =
      some (State.Minimized, State.Normal, State.Normal, true) ∧
    ReadyAssertionsHold
      ((runOps permissiveEnv [Op.requestMinimize, Op.setSurfaceState State.Normal]
        layoutedSurface).get (by decide)) ∧
    (runOps permissiveEnv
        [Op.requestMinimize, Op.setSurfaceState State.Normal, Op.requestCancelMinimize]
        layoutedSurface).map
        (fun s => (s.surfaceState, s.pendingState,
          s.geometryAnimation.map (fun a => a.deleteScheduled),
          s.pendingGeometry.isValid)) =
      some (State.Normal, State.Normal, some false, true) ∧
    ¬ ReadyAssertionsHold
      ((runOps permissiveEnv
        [Op.requestMinimize, Op.setSurfaceState State.Normal, Op.requestCancelMinimize]
        layoutedSurface).get (by decide)) := by
  unfold ReadyAssertionsHold
  decide

/-- C28, the code against the claim: `blur()` answers `m_blurContent.isNull()`,
so it is `false` after `setBlur(true)`, when the blur item exists, and `true`
after `setBlur(false)` once the deferred deletion of the item is carried out,
for every surface. On a fresh surface `setBlur(true)` creates the item and
`blur()` answers `false`; after `setBlur(false)` and the deletion the item is
gone and `blur()` answers `true`. -/
theorem C28_blur_inverted (s : Surface) :
    blur (setBlur true s) = false ∧ (setBlur true s).blurContent.isSome = true ∧
    blur (processDeferredDelete (setBlur false s)) = true ∧
    (processDeferredDelete (setBlur false s)).blurContent = none ∧
    blur (setBlur true {}) = false ∧
    blur (processDeferredDelete (setBlur false (setBlur true {}))) = true := by
  refine ⟨?_, ?_, ?_, ?_, by decide, by decide⟩
  · unfold blur setBlur
    cases h : s.blurContent <;> simp [h]
  · unfold setBlur
    cases h : s.blurContent <;> simp [h]
  · unfold blur setBlur processDeferredDelete
    cases h : s.blurContent <;> simp [h, Option.filter]
  · unfold setBlur processDeferredDelete
    cases h : s.blurContent <;> simp [h, Option.filter]

/-- C29, the code against the claim. On a hierarchy whose parent pointers
descend along a depth, `setActivate(a)` returns, sets the activated flag of
the client surface to `a` on the surface and on each of its ancestors, and
leaves the flag of every other surface and all parent pointers as they were.
The assertion is not safe on the ancestors: in `minimizedParentScene` the
sub-surface `1` has the full activation capability and its parent `0`, being
minimized, has not; `setActivate(true)` on `1` calls `setActivate(true)` on
`0`, where the assertion `!activate || hasActiveCapability()` is false. -/
theorem C29_setActivate_trips_on_ancestor (fuel : Nat) (self : SurfaceId) (a : Bool)
    (sc : Scene) :
    (∀ depth : SurfaceId → Nat, (∀ c p, IsParentOf sc c p → depth p < depth c) →
      2 * depth self + 1 ≤ fuel →
      ∃ sc1, setActivate fuel self a sc = some sc1 ∧
        (∀ y, y = self ∨ IsAncestor sc y self →
          (sc1.wrappers y).core.shell.activated = a) ∧
        (∀ y, ¬ (y = self ∨ IsAncestor sc y self) →
          (sc1.wrappers y).core.shell.activated = (sc.wrappers y).core.shell.activated) ∧
        ∀ y, (sc1.wrappers y).parentSurface = (sc.wrappers y).parentSurface) ∧
    hasActiveCapability (minimizedParentScene.wrappers 1).core = true ∧
    hasActiveCapability (minimizedParentScene.wrappers 0).core = false ∧
    (minimizedParentScene.wrappers 1).parentSurface = some 0 ∧
    (setActivate 5 1 true minimizedParentScene).map
        (fun sc1 => (sc1.log, (sc1.wrappers 0).core.shell.activated,
          (sc1.wrappers 1).core.shell.activated)) =
      some ([SceneEffect.activateAssertionFailed 0], true, true) := by
  refine ⟨fun depth hd hf => ?_, by decide, by decide, by decide, by decide⟩
  obtain ⟨sc1, h1, hact⟩ :=
    (setActivate_spec (fun c => (sc.wrappers c).parentSurface) depth hd fuel).1 self a sc
      (fun _ => rfl) hf
  refine ⟨sc1, h1, fun y hy => ?_, fun y hy => ?_, fun y => hact.parents y⟩
  · obtain ⟨b, hb, hin, -⟩ := hact.2.2 y
    rw [hb, ← hin hy]
    rfl
  · obtain ⟨b, hb, -, hout⟩ := hact.2.2 y
    rw [hb, ← hout hy]
    rfl

end Treeland
